import Mathlib

/-!
# fs-3 ETC firmware: Divider, ETCController, Console and Parser

A verification development for the `Divider` reciprocal/division engine
(`src/ETC/src/divider.cpp`), the controller operations exercised by the unit
tests under `src/ETC/tests`, the serial `Console` (`src/ETC/src/console.cpp`), the CAN
event dispatch of `src/ETC/main.cpp` and the command `Parser` (`src/ETC/src/parser.cpp`).

Conventions of the embedding:

* an IEEE-754 binary32 value (`float`) is its 32-bit pattern, a `Nat` below `2^32`;
* `uint8_t`, `uint32_t`, `uint64_t` are `Nat` with an explicit `% 2^w` where the C++
  arithmetic can wrap; `int8_t` and `int` are `Int`, narrowed by `toInt8`;
* an operation whose behaviour C++ leaves undefined (a vector read past the end, a shift by
  a negative count or by at least the operand width, a float-to-integer conversion of a
  non-representable value) and a failed `assert` are results `Except.error _`;
* a `std::string` is the list of its characters, a `char` buffer the list of its bytes.
-/

set_option linter.dupNamespace false

namespace FS3

/-! ## IEEE-754 binary32 on bit patterns -/

/-- Sign bit (bit 31) of a binary32 pattern. -/
def signBit (x : Nat) : Nat := x / 2 ^ 31 % 2

/-- Biased exponent field (bits 30..23) of a binary32 pattern. -/
def expField (x : Nat) : Nat := x / 2 ^ 23 % 256

/-- Mantissa field (bits 22..0) of a binary32 pattern. -/
def manField (x : Nat) : Nat := x % 2 ^ 23

/-- The classes returned by `std::fpclassify`. -/
inductive FPClass
  | FP_NAN
  | FP_INFINITE
  | FP_ZERO
  | FP_SUBNORMAL
  | FP_NORMAL
  deriving DecidableEq, Repr

/-- The function `std::fpclassify` on a binary32 pattern. -/
def fpclassify (x : Nat) : FPClass :=
  if expField x = 255 then
    if manField x = 0 then FPClass.FP_INFINITE else FPClass.FP_NAN
  else if expField x = 0 then
    if manField x = 0 then FPClass.FP_ZERO else FPClass.FP_SUBNORMAL
  else FPClass.FP_NORMAL

/-- The constant `0.0f`. -/
def F32_ZERO : Nat := 0x00000000

/-- The macro `INFINITY`: positive infinity. -/
def F32_INFINITY : Nat := 0x7F800000

/-- The macro `NAN`: the positive quiet NaN with an empty payload. -/
def F32_NAN : Nat := 0x7FC00000

/-- The function `std::copysign`: magnitude bits of `mag`, sign bit of `sgn`. -/
def copysign (mag sgn : Nat) : Nat := mag % 2 ^ 31 + 2 ^ 31 * signBit sgn

/-- Unary minus on a binary32 pattern: the sign bit is flipped. -/
def fneg (x : Nat) : Nat := x % 2 ^ 31 + 2 ^ 31 * (1 - signBit x)

/-- Position of the leading one of `n`, by halving at most `fuel` times
(`⌊log₂ n⌋` when `n < 2 ^ fuel`). -/
def floorLog2Aux : Nat → Nat → Nat
  | 0, _ => 0
  | fuel + 1, n => if n ≤ 1 then 0 else floorLog2Aux fuel (n / 2) + 1

/-- Position of the leading one of a number below `2^128`. -/
def floorLog2 (n : Nat) : Nat := floorLog2Aux 128 n

/-- Right shift by `k` bits with round-to-nearest, ties-to-even. -/
def rneShift (n k : Nat) : Nat :=
  if k = 0 then n
  else
    let q := n / 2 ^ k
    let r := n % 2 ^ k
    let half := 2 ^ (k - 1)
    if r > half ∨ (r = half ∧ q % 2 = 1) then q + 1 else q

/-- Magnitude bits of the binary32 value nearest to `n * 2^e` (round-to-nearest,
ties-to-even; overflow gives infinity, underflow is gradual). -/
def roundSingle (n : Nat) (e : Int) : Nat :=
  if n = 0 then 0
  else
    let lead : Int := e + (floorLog2 n : Int)
    let q : Int := max (lead - 23) (-149)
    let m : Nat := if q ≤ e then n * 2 ^ (e - q).toNat else rneShift n (q - e).toNat
    let bits : Int := (q + 149) * 2 ^ 23 + (m : Int)
    if bits ≥ 0x7F800000 then F32_INFINITY else bits.toNat

/-- Integer significand of a finite binary32 pattern (implied bit included for normals). -/
def f32Sig (x : Nat) : Nat :=
  if expField x = 0 then manField x else manField x + 2 ^ 23

/-- Exponent of the unit in the last place of a finite binary32 pattern:
its magnitude is `f32Sig x * 2 ^ f32Quantum x`. -/
def f32Quantum (x : Nat) : Int :=
  if expField x = 0 then -149 else (expField x : Int) - 150

/-- Single-precision multiplication `a * b`. A NaN result is the canonical quiet NaN
(IEEE-754 leaves its sign and payload to the platform). -/
def fmul (a b : Nat) : Nat :=
  let s := 2 ^ 31 * ((signBit a + signBit b) % 2)
  if fpclassify a = FPClass.FP_NAN ∨ fpclassify b = FPClass.FP_NAN then F32_NAN
  else if fpclassify a = FPClass.FP_INFINITE then
    if fpclassify b = FPClass.FP_ZERO then F32_NAN else s + F32_INFINITY
  else if fpclassify b = FPClass.FP_INFINITE then
    if fpclassify a = FPClass.FP_ZERO then F32_NAN else s + F32_INFINITY
  else s + roundSingle (f32Sig a * f32Sig b) (f32Quantum a + f32Quantum b)

/-- Single-precision division `a / b`. The quotient of the significands is taken to 64
extra bits with a sticky bit, so the single rounding is the correctly rounded one. -/
def fdiv (a b : Nat) : Nat :=
  let s := 2 ^ 31 * ((signBit a + signBit b) % 2)
  if fpclassify a = FPClass.FP_NAN ∨ fpclassify b = FPClass.FP_NAN then F32_NAN
  else if fpclassify a = FPClass.FP_INFINITE then
    if fpclassify b = FPClass.FP_INFINITE then F32_NAN else s + F32_INFINITY
  else if fpclassify b = FPClass.FP_INFINITE then s
  else if fpclassify b = FPClass.FP_ZERO then
    if fpclassify a = FPClass.FP_ZERO then F32_NAN else s + F32_INFINITY
  else if fpclassify a = FPClass.FP_ZERO then s
  else
    let num := f32Sig a * 2 ^ 64
    let quo := num / f32Sig b
    let sticky := if num % f32Sig b = 0 then 0 else 1
    s + roundSingle (2 * quo + sticky) (f32Quantum a - f32Quantum b - 65)

/-- The conversion `static_cast<float>(y)` of an unsigned 64-bit integer. -/
def f32OfUInt64 (y : Nat) : Nat := roundSingle y 0

/-- The value `2^k` as a binary32, as `std::exp2` of an integral argument returns it
(infinity above the range, subnormal or zero below it). -/
def f32Exp2 (k : Int) : Nat := roundSingle 1 k

/-! ## Machine integers -/

/-- Conversion of an `int` to `int8_t` (modular). -/
def toInt8 (z : Int) : Int := (z + 128) % 256 - 128

/-- Conversion of an `int` to `uint64_t` (modular). -/
def toUInt64 (z : Int) : Nat := (z % 2 ^ 64).toNat

/-- Bitwise complement `~x` of a `uint32_t`. -/
def not32 (x : Nat) : Nat := x ^^^ 0xFFFFFFFF

/-- Smallest `k ≥ start` with `n ≤ 2^k`, trying at most `fuel` candidates. -/
def ceilLog2Aux : Nat → Nat → Nat → Nat
  | 0, k, _ => k
  | fuel + 1, k, n => if n ≤ 2 ^ k then k else ceilLog2Aux fuel (k + 1) n

/-- The value `std::ceil(std::log2(n))` for `1 ≤ n ≤ 255`. -/
def ceilLog2 (n : Nat) : Nat := ceilLog2Aux 8 0 n

/-! ## Divider (`src/ETC/src/divider.cpp`, `src/ETC/src/inc/divider.h`) -/

/-- The macro `DIVIDER_EXPONENT_SIZE`. -/
def DIVIDER_EXPONENT_SIZE : Nat := 8

/-- The macro `DIVIDER_MANTISSA_SIZE`. -/
def DIVIDER_MANTISSA_SIZE : Nat := 23

/-- The macro `DIVIDER_TABLE_WIDTH`. -/
def DIVIDER_TABLE_WIDTH : Nat := 2

/-- Ways in which an evaluation of the divider can fail to return. -/
inductive DividerError
  | index_out_of_range
  | assertion_failed
  | undefined_shift
  | undefined_conversion
  deriving DecidableEq, Repr

deriving instance DecidableEq for Except

/-- The private members of `class Divider`. -/
structure Divider where
  lookup_table : List (List Nat)
  constant_term_size : Nat
  linear_term_size : Nat
  table_depth : Nat
  deriving DecidableEq, Repr

namespace Divider

/-- The constructor `Divider::Divider`: the three arguments are stored and `table_depth`
(a `uint8_t`) receives `lookup_table.size()`. The body has no `throw`. -/
def Divider (lookup_table : List (List Nat)) (constant_term_size linear_term_size : Nat) :
    Except DividerError FS3.Divider :=
  Except.ok
    { lookup_table := lookup_table
      constant_term_size := constant_term_size % 2 ^ 8
      linear_term_size := linear_term_size % 2 ^ 8
      table_depth := lookup_table.length % 2 ^ 8 }

/-- The method `Divider::get_num_interval_bits`: `std::ceil(std::log2(table_depth))`
converted to `uint8_t`. For `table_depth = 0` the double is `-inf`, whose conversion
is undefined. -/
def get_num_interval_bits (d : FS3.Divider) : Except DividerError Nat :=
  if d.table_depth = 0 then Except.error DividerError.undefined_conversion
  else Except.ok (ceilLog2 d.table_depth % 2 ^ 8)

/-- The method `Divider::get_x_local_size`. -/
def get_x_local_size (d : FS3.Divider) : Except DividerError Nat := do
  let num_interval_bits ← get_num_interval_bits d
  pure ((DIVIDER_MANTISSA_SIZE + 2 ^ 8 - num_interval_bits) % 2 ^ 8)

/-- The method `Divider::reduce_range`: biased exponent and mantissa bits of `x_dec`. -/
def reduce_range (x_dec : Nat) : Nat × Nat :=
  let x := x_dec
  let exponent_mask := (1 <<< DIVIDER_EXPONENT_SIZE) - 1
  let mantissa_mask := (1 <<< DIVIDER_MANTISSA_SIZE) - 1
  (((x >>> DIVIDER_MANTISSA_SIZE) &&& exponent_mask) % 2 ^ 8, x &&& mantissa_mask)

/-- The method `Divider::expand_range`. -/
def expand_range (exponent y_local : Nat) : Nat :=
  let unbiased_exponent : Int := toInt8 ((exponent : Int) - 127)
  let exponent_contribution := f32Exp2 (-unbiased_exponent)
  let mantissa_contribution := fdiv (f32OfUInt64 y_local) (f32Exp2 24)
  fmul exponent_contribution mantissa_contribution

/-- The method `Divider::read_mantissa`, returning `(lut_index, s_local, x_local)`.
The shift counts are `num_interval_bits ≤ 8` and `15 ≤ x_local_size ≤ 23`, always defined. -/
def read_mantissa (d : FS3.Divider) (mantissa : Nat) :
    Except DividerError (Nat × Bool × Nat) := do
  let num_interval_bits ← get_num_interval_bits d
  let x_local_size ← get_x_local_size d
  let interval_bits_mask := (1 <<< num_interval_bits) - 1
  let x_local_mask := (1 <<< x_local_size) - 1
  let lut_index := ((mantissa >>> x_local_size) &&& interval_bits_mask) % 2 ^ 8
  let x_local := mantissa &&& x_local_mask
  let x_local_halfway_mask := 1 <<< (x_local_size - 1)
  let x_local_is_negative : Bool := (x_local &&& x_local_halfway_mask) == 0
  if x_local_is_negative then
    let x_local := x_local ||| x_local_halfway_mask
    let x_local := not32 x_local &&& x_local_mask
    let x_local := (x_local + 1) % 2 ^ 32
    pure (lut_index, x_local_is_negative, x_local)
  else
    let x_local := x_local &&& not32 x_local_halfway_mask
    pure (lut_index, x_local_is_negative, x_local)

/-- The method `Divider::read_coefficient`, returning `(sign, exponent, mantissa)`. -/
def read_coefficient (coefficient term_size : Nat) :
    Except DividerError (Bool × Int × Nat) :=
  if 64 ≤ DIVIDER_EXPONENT_SIZE + term_size then
    Except.error DividerError.undefined_shift
  else
    let sign_mask := 1
    let exponent_mask := (1 <<< DIVIDER_EXPONENT_SIZE) - 1
    let mantissa_mask := (1 <<< term_size) - 1
    let sign : Bool :=
      ((coefficient >>> (DIVIDER_EXPONENT_SIZE + term_size)) &&& sign_mask) != 0
    let biased_exponent : Nat := ((coefficient >>> term_size) &&& exponent_mask) % 2 ^ 8
    let exponent : Int := toInt8 ((biased_exponent : Int) - 127)
    let implied_bit : Nat := if biased_exponent > 0 then 1 else 0
    let mantissa : Nat := coefficient &&& mantissa_mask
    let mantissa : Nat := mantissa ||| ((implied_bit <<< term_size) % 2 ^ 64)
    Except.ok (sign, exponent, mantissa)

/-- The method `Divider::align_mantissa`. The else branch of the source shifts left by
`shift_amount` itself, which is undefined for a negative count. -/
def align_mantissa (mantissa : Nat) (e_common adjustment : Int) : Except DividerError Nat :=
  let shift_amount : Int := e_common - adjustment
  if shift_amount > 0 then
    if shift_amount < 64 then Except.ok (mantissa >>> shift_amount.toNat)
    else Except.error DividerError.undefined_shift
  else
    if 0 ≤ shift_amount then Except.ok ((mantissa <<< shift_amount.toNat) % 2 ^ 64)
    else Except.error DividerError.undefined_shift

/-- The method `Divider::approximate`. -/
def approximate (d : FS3.Divider) (lut_index : Nat) (s_local : Bool) (x_local : Nat) :
    Except DividerError Nat := do
  let x_local_size ← get_x_local_size d
  let coeffs ← match d.lookup_table[lut_index]? with
    | some row => pure row
    | none => throw DividerError.index_out_of_range
  match coeffs with
  | [c0, c1] =>
    let (s_constant, e_constant, m_constant) ← read_coefficient c0 d.constant_term_size
    let (s_linear, e_linear, m_linear) ← read_coefficient c1 d.linear_term_size
    let s_m0 : Int := if s_constant then -1 else 1
    let m0 := m_constant
    let s_m1 : Int := if s_linear != s_local then -1 else 1
    let m1 := (m_linear * x_local) % 2 ^ 64
    let adjustment0 : Int := e_constant
    let adjustment1 : Int := toInt8 (e_linear - ((x_local_size : Int) - 1))
    let e_common : Int := max adjustment0 adjustment1
    let m0_aligned ← align_mantissa m0 e_common adjustment0
    let m1_aligned ← align_mantissa m1 e_common adjustment1
    let y_local := ((toUInt64 s_m0 * m0_aligned) % 2 ^ 64
      + (toUInt64 s_m1 * m1_aligned) % 2 ^ 64) % 2 ^ 64
    pure y_local
  | _ => throw DividerError.assertion_failed

/-- The method `Divider::reciprocal`. -/
def reciprocal (d : FS3.Divider) (x_dec : Nat) : Except DividerError Nat :=
  if fpclassify x_dec = FPClass.FP_INFINITE then
    Except.ok (copysign F32_ZERO x_dec)
  else if fpclassify x_dec = FPClass.FP_NAN then
    Except.ok F32_NAN
  else if fpclassify x_dec ≠ FPClass.FP_NORMAL then
    Except.ok (copysign F32_INFINITY x_dec)
  else do
    let (exponent, mantissa) := reduce_range x_dec
    let (lut_index, s_local, x_local) ← read_mantissa d mantissa
    let y_local ← approximate d lut_index s_local x_local
    let abs_result := expand_range exponent y_local
    let result := copysign abs_result x_dec
    pure result

/-- The operator `Divider::operator()`. -/
def call (d : FS3.Divider) (numerator denominator : Nat) : Except DividerError Nat := do
  let r ← reciprocal d denominator
  pure (fmul numerator r)

end Divider

/-! ## Definitions used by the statements -/

/-- The normal path of `reciprocal` up to `abs_result`, before the final `copysign`. -/
def abs_reciprocal (d : FS3.Divider) (exponent mantissa : Nat) : Except DividerError Nat := do
  let (lut_index, s_local, x_local) ← Divider.read_mantissa d mantissa
  let y_local ← Divider.approximate d lut_index s_local x_local
  pure (Divider.expand_range exponent y_local)

/-- A table row that `approximate` can evaluate for a given `x_local_size`: it holds
exactly two coefficients, both term sizes keep the shifts of `read_coefficient` below 64
bits, and the two adjustments differ by less than 64, so that `align_mantissa` shifts by
a defined amount. -/
def row_well_formed (constant_term_size linear_term_size x_local_size : Nat)
    (row : List Nat) : Bool :=
  match row with
  | [c0, c1] =>
    match Divider.read_coefficient c0 constant_term_size,
      Divider.read_coefficient c1 linear_term_size with
    | Except.ok (_, e_constant, _), Except.ok (_, e_linear, _) =>
      decide (|e_constant - toInt8 (e_linear - ((x_local_size : Int) - 1))| < 64)
    | _, _ => false
  | _ => false

/-- A two-interval table with both term sizes 23, used to evaluate the divider on
concrete inputs. Row `i` holds the single-precision patterns of the value of `1/x` at the
midpoint of `[1 + i/2, 1 + (i+1)/2)` and of its slope there times the half width:
`(0.8, -0.16)` and `(0.5714286, -0.0816327)`. -/
def sampleTable : List (List Nat) :=
  [[0x3F4CCCCD, 0xBE23D70A], [0x3F124925, 0xBDA72F05]]

/-- The divider built from `sampleTable` with both term sizes 23. -/
def sampleDivider : FS3.Divider :=
  { lookup_table := sampleTable
    constant_term_size := 23
    linear_term_size := 23
    table_depth := 2 }

/-! ## ETCController (`etc_controller.h`, not among the sources; modelled from the spec) -/

/-- Modelled from the spec: the record `ETCState` declared in `etc_controller.h`
(spec section 3.1). Voltages and travels are exact rationals. -/
structure ETCState where
  mbb_alive : Nat
  he1_read : ℚ
  he2_read : ℚ
  he1_travel : ℚ
  he2_travel : ℚ
  pedal_travel : ℚ
  brakes_read : ℚ
  ts_ready : Bool
  motor_enabled : Bool
  motor_forward : Bool
  cockpit : Bool
  torque_demand : Nat
  deriving DecidableEq

/-- Modelled from the spec: the named constants of `ETCController` (spec section 4.2), whose
values the spec leaves to the implementer. Times are in milliseconds; `RTDS_DURATION` is
the tunable length of the RTDS pulse of section 4.2.2. -/
structure ETCConstants where
  VOLT_SCALE_he1 : ℚ
  VOLT_SCALE_he2 : ℚ
  BRAKE_TOL : ℚ
  HE_AGREEMENT_TOL : ℚ
  HE_MISMATCH_TIMEOUT : Nat
  HE_VOLTAGE_MIN : ℚ
  HE_VOLTAGE_MAX : ℚ
  TORQUE_MAX : Nat
  MAX_V : ℚ
  RTDS_DURATION : Nat := 2000

/-- Modelled from the spec: the class `ETCController` of `etc_controller.h`: the owned
state record, the nullable timestamp `t_mismatch_start` of the mismatch timer
(spec section 4.2.1), the RTDS output pin and the pending one-shot timer that deasserts
it, as the number of milliseconds it was scheduled for (spec section 4.2.2). -/
structure ETCController where
  state : ETCState
  t_mismatch_start : Option Nat
  rtds_pin : Bool := false
  rtds_timer : Option Nat := none
  deriving DecidableEq

namespace ETCController

/-- Modelled from the spec: `ETCController::updateStateFromCAN` (section 4.2): every field of
`s` is copied, and `torque_demand` is forced to 0 when the incoming `motor_enabled` is
false. -/
def updateStateFromCAN (s : ETCState) (c : ETCController) : ETCController :=
  { c with state := { s with torque_demand := if s.motor_enabled then s.torque_demand else 0 } }

/-- Modelled from the spec: the getter `getState`. -/
def getState (c : ETCController) : ETCState := c.state

/-- Modelled from the spec: the getter `getMBBAlive`. -/
def getMBBAlive (c : ETCController) : Nat := c.state.mbb_alive

/-- Modelled from the spec: the getter `getHE1Read`. -/
def getHE1Read (c : ETCController) : ℚ := c.state.he1_read

/-- Modelled from the spec: the getter `getHE2Read`. -/
def getHE2Read (c : ETCController) : ℚ := c.state.he2_read

/-- Modelled from the spec: the getter `getHE1Travel`. -/
def getHE1Travel (c : ETCController) : ℚ := c.state.he1_travel

/-- Modelled from the spec: the getter `getHE2Travel`. -/
def getHE2Travel (c : ETCController) : ℚ := c.state.he2_travel

/-- Modelled from the spec: the getter `getPedalTravel`. -/
def getPedalTravel (c : ETCController) : ℚ := c.state.pedal_travel

/-- Modelled from the spec: the getter `getBrakes`. -/
def getBrakes (c : ETCController) : ℚ := c.state.brakes_read

/-- Modelled from the spec: the getter `isTSReady`. -/
def isTSReady (c : ETCController) : Bool := c.state.ts_ready

/-- Modelled from the spec: the getter `isMotorEnabled`. -/
def isMotorEnabled (c : ETCController) : Bool := c.state.motor_enabled

/-- Modelled from the spec: the getter `isMotorForward`. -/
def isMotorForward (c : ETCController) : Bool := c.state.motor_forward

/-- Modelled from the spec: the getter `isCockpit`. -/
def isCockpit (c : ETCController) : Bool := c.state.cockpit

/-- Modelled from the spec: the getter `getTorqueDemand`. -/
def getTorqueDemand (c : ETCController) : Nat := c.state.torque_demand

/-- Modelled from the spec: the clamp to `[0, 1]` of section 4.2.1, rule 2. -/
def clamp01 (x : ℚ) : ℚ := max 0 (min x 1)

/-- Modelled from the spec: rule 1 of section 4.2.1, the voltage-range fault: a raw reading
below `HE_VOLTAGE_MIN` or above `HE_VOLTAGE_MAX`. -/
def voltageRangeFault (K : ETCConstants) (he1_raw he2_raw : ℚ) : Prop :=
  he1_raw < K.HE_VOLTAGE_MIN ∨ he1_raw > K.HE_VOLTAGE_MAX ∨
  he2_raw < K.HE_VOLTAGE_MIN ∨ he2_raw > K.HE_VOLTAGE_MAX

instance (K : ETCConstants) (he1_raw he2_raw : ℚ) :
    Decidable (voltageRangeFault K he1_raw he2_raw) := by
  unfold voltageRangeFault
  infer_instance

/-- Modelled from the spec: `he1_travel = clamp(he1_raw / VOLT_SCALE_he1, 0, 1)`. -/
def he1Travel (K : ETCConstants) (he1_raw : ℚ) : ℚ := clamp01 (he1_raw / K.VOLT_SCALE_he1)

/-- Modelled from the spec: `he2_travel = clamp(he2_raw / VOLT_SCALE_he2, 0, 1)`. -/
def he2Travel (K : ETCConstants) (he2_raw : ℚ) : ℚ := clamp01 (he2_raw / K.VOLT_SCALE_he2)

/-- Modelled from the spec: rule 2 of section 4.2.1, the disagreement fault:
`|he1_travel - he2_travel| > HE_AGREEMENT_TOL`. -/
def disagreementFault (K : ETCConstants) (he1_raw he2_raw : ℚ) : Prop :=
  |he1Travel K he1_raw - he2Travel K he2_raw| > K.HE_AGREEMENT_TOL

instance (K : ETCConstants) (he1_raw he2_raw : ℚ) :
    Decidable (disagreementFault K he1_raw he2_raw) := by
  unfold disagreementFault
  infer_instance

/-- Modelled from the spec: "start the mismatch timer if not running". -/
def startMismatchTimer (now : Nat) (c : ETCController) : ETCController :=
  match c.t_mismatch_start with
  | none => { c with t_mismatch_start := some now }
  | some _ => c

/-- Modelled from the spec: "if the timer is running and
`(now - t_mismatch_start) > HE_MISMATCH_TIMEOUT`, set `motor_enabled = false`". The
machine then leaves `MISMATCH_PENDING` for `DISABLED_FAULT`, where no mismatch is pending:
the timestamp is cleared. Scenario S3 of section 8 (the test `TestHEVoltageRange`) enables
the motor again over CAN right after an expiry and requires that the next faulty call
only starts the timer. -/
def expireMismatchTimer (K : ETCConstants) (now : Nat) (c : ETCController) : ETCController :=
  match c.t_mismatch_start with
  | some t =>
    if now - t > K.HE_MISMATCH_TIMEOUT then
      { c with state := { c.state with motor_enabled := false }, t_mismatch_start := none }
    else c
  | none => c

/-- Modelled from the spec: `round(pedal_travel * TORQUE_MAX)` as an unsigned integer. -/
def torqueOf (K : ETCConstants) (pedal_travel : ℚ) : Nat :=
  (Rat.floor (pedal_travel * (K.TORQUE_MAX : ℚ) + 1 / 2)).toNat

/-- Modelled from the spec: `ETCController::updateState` (section 4.2.1) at time `now`:
the three transitions, first match wins, then the recomputation of `torque_demand`. -/
def updateState (K : ETCConstants) (now : Nat) (he1_raw he2_raw : ℚ) (c : ETCController) :
    ETCController :=
  let c1 : ETCController :=
    if voltageRangeFault K he1_raw he2_raw ∧ c.state.motor_enabled = true then
      expireMismatchTimer K now (startMismatchTimer now c)
    else
      let c2 : ETCController :=
        { c with state := { c.state with he1_travel := he1Travel K he1_raw
                                         he2_travel := he2Travel K he2_raw } }
      if disagreementFault K he1_raw he2_raw ∧ c.state.motor_enabled = true then
        expireMismatchTimer K now (startMismatchTimer now c2)
      else
        { c2 with
          t_mismatch_start := none
          state := { c2.state with
            pedal_travel := (he1Travel K he1_raw + he2Travel K he2_raw) / 2 } }
  { c1 with state := { c1.state with
      torque_demand := if c1.state.motor_enabled then torqueOf K c1.state.pedal_travel else 0 } }

/-- A sequence of `updateState` calls, each with its time and its two raw readings. -/
def runUpdates (K : ETCConstants) (calls : List (Nat × ℚ × ℚ)) (c : ETCController) :
    ETCController :=
  calls.foldl (fun acc call => updateState K call.1 call.2.1 call.2.2 acc) c

/-- The inputs of an `updateState` call are faulty: a raw reading is out of range or the
two travels disagree by more than the tolerance. -/
def inputsFaulty (K : ETCConstants) (he1_raw he2_raw : ℚ) : Prop :=
  voltageRangeFault K he1_raw he2_raw ∨ disagreementFault K he1_raw he2_raw

instance (K : ETCConstants) (he1_raw he2_raw : ℚ) :
    Decidable (inputsFaulty K he1_raw he2_raw) := by
  unfold inputsFaulty
  infer_instance

end ETCController

/-- Constants used to evaluate the controller on concrete inputs: unit voltage scales, a
10 percent agreement tolerance, the 100 ms mismatch timeout, and a legal raw range of
`[1/10, 9/10]`. -/
def sampleConstants : ETCConstants :=
  { VOLT_SCALE_he1 := 1
    VOLT_SCALE_he2 := 1
    BRAKE_TOL := 1 / 10
    HE_AGREEMENT_TOL := 1 / 10
    HE_MISMATCH_TIMEOUT := 100
    HE_VOLTAGE_MIN := 1 / 10
    HE_VOLTAGE_MAX := 9 / 10
    TORQUE_MAX := 100
    MAX_V := 33 / 10 }

/-- A controller whose motor is enabled and whose mismatch timer is not running. -/
def sampleEnabled : ETCController :=
  { state :=
      { mbb_alive := 0, he1_read := 0, he2_read := 0, he1_travel := 0, he2_travel := 0,
        pedal_travel := 0, brakes_read := 0, ts_ready := false, motor_enabled := true,
        motor_forward := false, cockpit := false, torque_demand := 0 }
    t_mismatch_start := none }

namespace ETCController

/-- Modelled from the spec: the reset value of the state record (invariant I3, section 3.1):
numeric fields 0, booleans false, except `motor_forward = true`. -/
def resetValue : ETCState :=
  { mbb_alive := 0, he1_read := 0, he2_read := 0, he1_travel := 0, he2_travel := 0,
    pedal_travel := 0, brakes_read := 0, ts_ready := false, motor_enabled := false,
    motor_forward := true, cockpit := false, torque_demand := 0 }

/-- Modelled from the spec: `ETCController::resetState` (sections 4.2, 4.2.2 and 5): the
record is restored to the reset value, the RTDS timer is cancelled with the pin forced
low, and the mismatch timer is cleared. -/
def resetState (_c : ETCController) : ETCController :=
  { state := resetValue, t_mismatch_start := none, rtds_pin := false, rtds_timer := none }

/-- Modelled from the spec: `ETCController::updateMBBAlive` (section 4.2):
`mbb_alive ← (mbb_alive + 1) mod 16`. -/
def updateMBBAlive (c : ETCController) : ETCController :=
  { c with state := { c.state with mbb_alive := (c.state.mbb_alive + 1) % 16 } }

/-- Modelled from the spec: `ETCController::runRTDS` (sections 4.2 and 4.2.2): the pin is
asserted and its deassertion is scheduled after the RTDS duration; a call while the pin is
asserted restarts the countdown. -/
def runRTDS (K : ETCConstants) (c : ETCController) : ETCController :=
  { c with rtds_pin := true, rtds_timer := some K.RTDS_DURATION }

/-- Modelled from the spec: `ETCController::checkStartConditions` (section 4.2): if
`ts_ready && brakes_read ≥ BRAKE_TOL`, `motor_enabled` is set and `runRTDS()` is invoked;
otherwise the state is left unchanged. -/
def checkStartConditions (K : ETCConstants) (c : ETCController) : ETCController :=
  if c.state.ts_ready = true ∧ c.state.brakes_read ≥ K.BRAKE_TOL then
    runRTDS K { c with state := { c.state with motor_enabled := true } }
  else c

/-- The helper `ImplausibilityTestHelper` of `src/ETC/tests/test_update_state.h`, run on
the controller `c` with its first `updateState` call at time `start` (milliseconds); the
two sleeps put the later calls at `start + 50` and `start + 110`. The state literal
`{.motor_enabled = true}` leaves every other field zero. The result is whether the three
assertions hold, stopping at the first that fails, and the controller reached. -/
def ImplausibilityTestHelper (K : ETCConstants) (start : Nat) (he1_read he2_read : ℚ)
    (c : ETCController) : Bool × ETCController :=
  let state : ETCState :=
    { mbb_alive := 0, he1_read := 0, he2_read := 0, he1_travel := 0, he2_travel := 0,
      pedal_travel := 0, brakes_read := 0, ts_ready := false, motor_enabled := true,
      motor_forward := false, cockpit := false, torque_demand := 0 }
  let c0 := updateStateFromCAN state c
  let c1 := updateState K start he1_read he2_read c0
  if isMotorEnabled c1 then
    let c2 := updateState K (start + 50) he1_read he2_read c1
    if isMotorEnabled c2 then
      let c3 := updateState K (start + 110) he1_read he2_read c2
      (!isMotorEnabled c3, c3)
    else (false, c2)
  else (false, c1)

/-- The test `TestHEMismatch`: the helper at the readings `(0.0, 1.0)`. -/
def TestHEMismatch (K : ETCConstants) (start : Nat) (c : ETCController) : Bool :=
  (ImplausibilityTestHelper K start 0 1 c).1

/-- The test `TestHEVoltageRange`: the helper at `(0.0, 0.0)` and then, on the same
controller, at `(1.0, 1.0)`. -/
def TestHEVoltageRange (K : ETCConstants) (start : Nat) (c : ETCController) : Bool :=
  let first := ImplausibilityTestHelper K start 0 0 c
  if first.1 then (ImplausibilityTestHelper K (start + 110) 1 1 first.2).1 else false

/-- The loop of the test `TestUpdateMbbAlive` of `src/ETC/tests/test_update_mbb_alive.h`,
run on a controller `c` with `update` for `updateMBBAlive`: `n` iterations are left and
`passed` assertions `next == curr + 1` have held. It stops at the first assertion that
fails and returns the number that held and the controller reached. The values read are
`uint8_t` and are compared as `int`. -/
def TestUpdateMbbAliveLoop (update : ETCController → ETCController) :
    Nat → Nat → ETCController → Nat × ETCController
  | 0, passed, c => (passed, c)
  | n + 1, passed, c =>
    if getMBBAlive (update c) % 2 ^ 8 = getMBBAlive c % 2 ^ 8 + 1 then
      TestUpdateMbbAliveLoop update n (passed + 1) (update c)
    else (passed, update c)

/-- The test `TestUpdateMbbAlive`: true when the sixteen loop assertions and the final
assertion `getMBBAlive() == 0` after one more call all hold. -/
def TestUpdateMbbAlive (update : ETCController → ETCController) (c : ETCController) : Bool :=
  (TestUpdateMbbAliveLoop update 16 0 c).1 == 16 &&
    getMBBAlive (update (TestUpdateMbbAliveLoop update 16 0 c).2) == 0

end ETCController

/-- The tests that `run_all_tests` of `src/ETC/tests/test_main.cpp` runs, in order. -/
def run_all_tests : List String :=
  [ "TestCheckStartConditionsTsReadyOnly",
    "TestCheckStartConditionsBrakesReadOnly",
    "TestCheckStartConditionsNeither",
    "TestCheckStartConditionsBoth",
    "TestResetStateFromFilled",
    "TestResetStateFromUnfilled",
    "TestRunRtds",
    "TestMbbAliveSet",
    "TestHE1ReadSet",
    "TestHE2ReadSet",
    "TestHE1TravelSet",
    "TestHE2TravelSet",
    "TestPedalTravelSet",
    "TestBrakesReadSet",
    "TestTsReadySet",
    "TestMotorEnabledSet",
    "TestMotorForwardSet",
    "TestCockpitSet",
    "TestTorqueDemandSet",
    "TestHEMismatch",
    "TestHETemporaryMismatch",
    "TestHEVoltageRange" ]

/-! ## Console (`src/ETC/src/console.cpp`, `src/ETC/src/console.h`) -/

/-- The private members of `class Console` that `Read` touches, and the bytes written to
the serial interface so far. Characters are their byte values. -/
structure Console where
  input_buffer : List Nat
  characters_read : Nat
  debug_enabled : Bool
  serial_written : List Nat
  deriving DecidableEq, Repr

namespace Console

/-- The constant `Console::INPUT_BUFFER_SIZE`. -/
def INPUT_BUFFER_SIZE : Nat := 256

/-- The constant `Console::DELETE`: backspace, space, backspace and the terminating NUL. -/
def DELETE : List Nat := [8, 32, 8, 0]

/-- The constant `Console::RETURN`: line feed, carriage return and the terminating NUL. -/
def RETURN : List Nat := [10, 13, 0]

/-- A console as the constructors leave it: the buffer zeroed, nothing read. -/
def fresh : Console :=
  { input_buffer := List.replicate INPUT_BUFFER_SIZE 0
    characters_read := 0
    debug_enabled := false
    serial_written := [] }

/-- The method `Console::Read`. The argument is the outcome of
`serial_interface->read(c, sizeof(c))`: `none` when it returns `-EAGAIN`, otherwise
`some ch` with `ch` the byte left in `c[0]`. Returns the result and the console after
the call. -/
def Read (con : Console) (received : Option Nat) : Bool × Console :=
  match received with
  | none => (false, con)
  | some c =>
    if c = 10 ∨ c = 13 then
      (true, { con with serial_written := con.serial_written ++ RETURN })
    else if c = 8 ∨ c = 127 then
      if con.characters_read > 0 then
        (false, { con with
          serial_written := con.serial_written ++ DELETE
          characters_read := con.characters_read - 1
          input_buffer := con.input_buffer.set (con.characters_read - 1) 0 })
      else (false, con)
    else if con.characters_read < INPUT_BUFFER_SIZE - 1 then
      (false, { con with
        serial_written := con.serial_written ++ [c]
        input_buffer := con.input_buffer.set con.characters_read c
        characters_read := con.characters_read + 1 })
    else (false, con)

/-- The line buffered so far: the first `characters_read` bytes of `input_buffer`. -/
def line (con : Console) : List Nat := con.input_buffer.take con.characters_read

end Console

/-! ## CAN event dispatch (`do_can_processing` of `src/ETC/main.cpp`) -/

/-- The event flags of `CANWrapper` (`can_wrapper.h`, not among the sources), taken as
parameters. -/
structure CanFlags where
  THROTTLE_FLAG : Nat
  STATE_FLAG : Nat
  SYNC_FLAG : Nat
  RX_FLAG : Nat

/-- What one pass of the loop of `do_can_processing` does, in order: the wait on the
event flags, the calls of the four handlers of `CANWrapper`, and the clearing of flags. -/
inductive CanAction
  | wait_any (flags : Nat)
  | sendThrottle
  | sendState
  | sendSync
  | processCANRx
  | clear (flags : Nat)
  deriving DecidableEq, Repr

/-- The body of the loop of `do_can_processing` after the wait returned
`triggered_flags`: the four `if` statements in source order. -/
def dispatch_flags (F : CanFlags) (triggered_flags : Nat) : List CanAction :=
  (if triggered_flags &&& F.THROTTLE_FLAG ≠ 0 then
    [CanAction.sendThrottle, CanAction.clear F.THROTTLE_FLAG] else []) ++
  (if triggered_flags &&& F.STATE_FLAG ≠ 0 then
    [CanAction.sendState, CanAction.clear F.STATE_FLAG] else []) ++
  (if triggered_flags &&& F.SYNC_FLAG ≠ 0 then
    [CanAction.sendSync, CanAction.clear F.SYNC_FLAG] else []) ++
  (if triggered_flags &&& F.RX_FLAG ≠ 0 then
    [CanAction.processCANRx, CanAction.clear F.RX_FLAG] else [])

/-- The function `do_can_processing`, run for as many passes of its endless loop as there
are wake-ups: each pass waits on the four flags, receives the next `triggered_flags` and
dispatches it. -/
def do_can_processing (F : CanFlags) : List Nat → List CanAction
  | [] => []
  | triggered_flags :: rest =>
    CanAction.wait_any (F.THROTTLE_FLAG ||| F.STATE_FLAG ||| F.SYNC_FLAG ||| F.RX_FLAG) ::
      (dispatch_flags F triggered_flags ++ do_can_processing F rest)

/-! ## The stages of `approximate` -/

/-- The values `approximate` holds when it calls `align_mantissa`, for a row `[c0, c1]`:
the two signs, the two mantissas to align, the two adjustments and the common exponent. -/
structure AlignArgs where
  s_m0 : Int
  m0 : Nat
  s_m1 : Int
  m1 : Nat
  adjustment0 : Int
  adjustment1 : Int
  e_common : Int
  deriving DecidableEq, Repr

/-- The first part of the body of `approximate` for the row `[c0, c1]`, up to the
computation of `e_common`. -/
def approximate_align_args (d : FS3.Divider) (x_local_size : Nat) (c0 c1 : Nat)
    (s_local : Bool) (x_local : Nat) : Except DividerError AlignArgs := do
  let (s_constant, e_constant, m_constant) ← Divider.read_coefficient c0 d.constant_term_size
  let (s_linear, e_linear, m_linear) ← Divider.read_coefficient c1 d.linear_term_size
  let adjustment0 : Int := e_constant
  let adjustment1 : Int := toInt8 (e_linear - ((x_local_size : Int) - 1))
  pure
    { s_m0 := if s_constant then -1 else 1
      m0 := m_constant
      s_m1 := if s_linear != s_local then -1 else 1
      m1 := (m_linear * x_local) % 2 ^ 64
      adjustment0 := adjustment0
      adjustment1 := adjustment1
      e_common := max adjustment0 adjustment1 }

/-- The last part of the body of `approximate`: the two calls of `align_mantissa` and the
signed sum in `uint64_t`. -/
def approximate_sum (a : AlignArgs) : Except DividerError Nat := do
  let m0_aligned ← Divider.align_mantissa a.m0 a.e_common a.adjustment0
  let m1_aligned ← Divider.align_mantissa a.m1 a.e_common a.adjustment1
  pure (((toUInt64 a.s_m0 * m0_aligned) % 2 ^ 64
    + (toUInt64 a.s_m1 * m1_aligned) % 2 ^ 64) % 2 ^ 64)

/-- The value that section 4.1 (step 4) of the specification gives to `y_local` before
its reduction modulo `2^64`: the signed sum
`sigma0 * (m_c0 >> (e_common - a0)) + sigma1 * ((m_c1 * x_local) >> (e_common - a1))`
with `a0 = e_c0`, `a1 = e_c1 - (x_local_size - 1)` and `e_common = max(a0, a1)`, computed
in unbounded integers. -/
def approximate_spec (s_c0 : Bool) (e_c0 : Int) (m_c0 : Nat) (s_c1 : Bool) (e_c1 : Int)
    (m_c1 : Nat) (x_local_size : Nat) (s_local : Bool) (x_local : Nat) : Int :=
  let a0 : Int := e_c0
  let a1 : Int := e_c1 - ((x_local_size : Int) - 1)
  let e_common : Int := max a0 a1
  let sigma0 : Int := if s_c0 then -1 else 1
  let sigma1 : Int := if s_c1 != s_local then -1 else 1
  sigma0 * ((m_c0 >>> (e_common - a0).toNat : Nat) : Int)
    + sigma1 * (((m_c1 * x_local) >>> (e_common - a1).toNat : Nat) : Int)

/-- The intermediate `y_local` that `reciprocal` computes for an input `x_dec`, together
with the outputs of `read_mantissa` it is computed from. -/
def y_local_of (d : FS3.Divider) (x_dec : Nat) :
    Except DividerError ((Nat × Bool × Nat) × Nat) := do
  let (lut_index, s_local, x_local) ← Divider.read_mantissa d (Divider.reduce_range x_dec).2
  let y_local ← Divider.approximate d lut_index s_local x_local
  pure ((lut_index, s_local, x_local), y_local)

/-! ## Console sessions (`Console::GetInput` and sequences of calls) -/

namespace Console

/-- The method `Console::GetInput`. The returned string is built from `input_buffer` as a
C string: the bytes before the first NUL, or `none` when the buffer holds no NUL and the
read would run past the array. The buffer is then zeroed and the count reset. -/
def GetInput (con : Console) : Option (List Nat) × Console :=
  (if 0 ∈ con.input_buffer then some (con.input_buffer.takeWhile (fun b => b ≠ 0)) else none,
   { con with
     input_buffer := List.replicate INPUT_BUFFER_SIZE 0
     characters_read := 0 })

/-- The store to `input_buffer` that a call of `Read` performs, as `(index, byte)`:
`input_buffer[--characters_read] = 0` on a backspace or delete with a non-empty line,
`input_buffer[characters_read++] = c` on any other character while fewer than
`INPUT_BUFFER_SIZE - 1` are buffered, and none otherwise. -/
def Read_store (con : Console) (received : Option Nat) : Option (Nat × Nat) :=
  match received with
  | none => none
  | some c =>
    if c = 10 ∨ c = 13 then none
    else if c = 8 ∨ c = 127 then
      if con.characters_read > 0 then some (con.characters_read - 1, 0) else none
    else if con.characters_read < INPUT_BUFFER_SIZE - 1 then some (con.characters_read, c)
    else none

/-- A call made on the console by its user. -/
inductive ConsoleCall
  | Read (received : Option Nat)
  | GetInput
  deriving DecidableEq, Repr

/-- The console after one call. -/
def step (con : Console) : ConsoleCall → Console
  | ConsoleCall.Read received => (Read con received).2
  | ConsoleCall.GetInput => (GetInput con).2

/-- The console after a sequence of calls on a fresh console. -/
def run (calls : List ConsoleCall) : Console := calls.foldl step fresh

end Console

/-! ## Fields of a packed coefficient -/

/-- The sign bit of a coefficient word: bit `DIVIDER_EXPONENT_SIZE + term_size`. -/
def sign_field (coefficient term_size : Nat) : Nat :=
  coefficient / 2 ^ (DIVIDER_EXPONENT_SIZE + term_size) % 2

/-- The biased exponent field of a coefficient word: the `DIVIDER_EXPONENT_SIZE` bits from
bit `term_size` up. -/
def biased_exponent_field (coefficient term_size : Nat) : Nat :=
  coefficient / 2 ^ term_size % 2 ^ DIVIDER_EXPONENT_SIZE

/-- The mantissa field of a coefficient word: its low `term_size` bits. -/
def mantissa_field (coefficient term_size : Nat) : Nat := coefficient % 2 ^ term_size

/-- The divider `d` with row `lut_index` of its table replaced by `[c0, c1]`. -/
def with_row (d : FS3.Divider) (lut_index c0 c1 : Nat) : FS3.Divider :=
  { d with lookup_table := d.lookup_table.set lut_index [c0, c1] }

/-! ## Parser (`src/ETC/src/parser.cpp`, `src/ETC/src/inc/parser.h`) -/

/-- The enumeration `Parser::Opcode`. -/
inductive Opcode
  | RCP
  | DIV
  | UNK
  deriving DecidableEq, Repr

/-- Ways in which `Parser::execute` can fail to return a string: a local `float` that no
extraction has stored to is read, or the divider fails. -/
inductive ParserError
  | uninitialised_read
  | divider (e : DividerError)
  deriving DecidableEq, Repr

/-- The private member of `class Parser`. -/
structure Parser where
  divider : FS3.Divider
  deriving DecidableEq, Repr

/-- A `std::istringstream`: the characters not yet read, and whether `good()` holds (no
end-of-file or failure recorded). -/
structure IStringStream where
  chars : List Char
  good : Bool
  deriving DecidableEq, Repr

/-- The function `std::to_string(float)`, the `%f` format of the value: `inf` or `nan` for
the non-finite patterns, otherwise the integer part, a point and six decimals, rounded to
nearest with ties to even; a set sign bit gives a leading minus. -/
def to_string (x : Nat) : List Char :=
  let sign : List Char := if signBit x = 1 then ['-'] else []
  if expField x = 255 then
    sign ++ (if manField x = 0 then ['i', 'n', 'f'] else ['n', 'a', 'n'])
  else
    let millionths : Nat :=
      if 0 ≤ f32Quantum x then f32Sig x * 10 ^ 6 * 2 ^ (f32Quantum x).toNat
      else rneShift (f32Sig x * 10 ^ 6) (-(f32Quantum x)).toNat
    let decimals := Nat.toDigits 10 (millionths % 10 ^ 6)
    sign ++ Nat.toDigits 10 (millionths / 10 ^ 6) ++ ['.']
      ++ List.replicate (6 - decimals.length) '0' ++ decimals

namespace Parser

/-- The constructor `Parser::Parser`: the divider is built from the table `DIVIDER_LUT` of
`inc/divider_lut.h` with both term sizes 23. -/
def Parser (DIVIDER_LUT : List (List Nat)) : Except DividerError FS3.Parser := do
  let divider ← Divider.Divider DIVIDER_LUT 23 23
  pure { divider := divider }

/-- Whitespace of the classic locale, which formatted extraction skips: the space and the
characters from horizontal tab to carriage return. -/
def isspace (c : Char) : Bool := decide (c.toNat = 32 ∨ (9 ≤ c.toNat ∧ c.toNat ≤ 13))

/-- The extraction `stream >> str` into an empty `std::string`: leading whitespace is
skipped and characters are taken up to the next whitespace or the end, where end-of-file is
recorded. Nothing is stored when the stream is not good or holds only whitespace. -/
def extract_string (s : IStringStream) : List Char × IStringStream :=
  if s.good then
    let rest := s.chars.dropWhile isspace
    if rest = [] then ([], { chars := [], good := false })
    else
      let after := rest.dropWhile (fun c => !isspace c)
      (rest.takeWhile (fun c => !isspace c), { chars := after, good := decide (after ≠ []) })
  else ([], { s with good := false })

/-- The extraction `stream >> x` into a `float`. The result is `none` when `x` is left
untouched (the stream is not good, or holds only whitespace). Otherwise the number is read
by `num_get`, standing for `std::num_get`, which returns the value read, or `none` for a
malformed number, and the characters left; a malformed number stores zero and records a
failure, and reaching the end records end-of-file. -/
def extract_float (num_get : List Char → Option Nat × List Char) (s : IStringStream) :
    Option Nat × IStringStream :=
  if s.good then
    let rest := s.chars.dropWhile isspace
    if rest = [] then (none, { chars := [], good := false })
    else
      match num_get rest with
      | (some v, after) => (some v, { chars := after, good := decide (after ≠ []) })
      | (none, after) => (some F32_ZERO, { chars := after, good := false })
  else (none, { s with good := false })

/-- The method `Parser::get_opcode`. -/
def get_opcode (command_stream : IStringStream) : Opcode × IStringStream :=
  let (opcode_str, command_stream) := extract_string command_stream
  if opcode_str = ['r', 'c', 'p'] then (Opcode.RCP, command_stream)
  else if opcode_str = ['d', 'i', 'v'] then (Opcode.DIV, command_stream)
  else (Opcode.UNK, command_stream)

/-- The method `Parser::execute`. -/
def execute (num_get : List Char → Option Nat × List Char) (p : FS3.Parser)
    (command : List Char) : Except ParserError (List Char) :=
  let command_stream : IStringStream := { chars := command, good := true }
  let (opcode, command_stream) := get_opcode command_stream
  match opcode with
  | Opcode.RCP =>
    match extract_float num_get command_stream with
    | (some x, _) =>
      match Divider.reciprocal p.divider x with
      | Except.ok result => Except.ok (to_string result)
      | Except.error e => Except.error (ParserError.divider e)
    | (none, _) => Except.error ParserError.uninitialised_read
  | Opcode.DIV =>
    match extract_float num_get command_stream with
    | (some numerator, command_stream) =>
      match extract_float num_get command_stream with
      | (some denominator, _) =>
        match Divider.call p.divider numerator denominator with
        | Except.ok result => Except.ok (to_string result)
        | Except.error e => Except.error (ParserError.divider e)
      | (none, _) => Except.error ParserError.uninitialised_read
    | (none, _) => Except.error ParserError.uninitialised_read
  | Opcode.UNK => Except.ok "error: invalid opcode".toList

end Parser

/-- The first whitespace-delimited token of a command: the characters after the leading
whitespace up to the next whitespace or the end; empty when there is none. -/
def first_token (command : List Char) : List Char :=
  (command.dropWhile Parser.isspace).takeWhile (fun c => !Parser.isspace c)

/-- What follows the first token of a command and the whitespace after it: the characters
from which the operand after the opcode is read; empty when there is no operand. -/
def after_token (command : List Char) : List Char :=
  ((command.dropWhile Parser.isspace).dropWhile (fun c => !Parser.isspace c)).dropWhile
    Parser.isspace

/-- A number reader for `extract_float` that reads an unsigned decimal integer and
converts it to the nearest single; used to evaluate the parser on such commands. -/
def decimal_num_get (l : List Char) : Option Nat × List Char :=
  let digits := l.takeWhile Char.isDigit
  if digits = [] then (none, l)
  else
    (some (f32OfUInt64 (digits.foldl (fun n c => 10 * n + (c.toNat - 48)) 0)),
      l.dropWhile Char.isDigit)

/-- The parser over the sample table. -/
def sampleParser : FS3.Parser := { divider := sampleDivider }

/-! # Theorems -/

/-! ## Facts about the binary32 primitives -/

theorem signBit_lt_two (x : Nat) : signBit x < 2 := by
  unfold signBit
  omega

theorem copysign_of_signBit_zero (mag x : Nat) (h : signBit x = 0) :
    copysign mag x = mag % 2 ^ 31 := by
  simp [copysign, h]

theorem copysign_of_signBit_one (mag x : Nat) (h : signBit x = 1) :
    copysign mag x = mag % 2 ^ 31 + 2 ^ 31 := by
  simp [copysign, h]

theorem signBit_copysign (mag x : Nat) : signBit (copysign mag x) = signBit x := by
  have h := signBit_lt_two x
  unfold copysign
  generalize signBit x = s at h ⊢
  unfold signBit
  omega

theorem fpclassify_not_finite_cases (x : Nat)
    (hn : fpclassify x ≠ FPClass.FP_NORMAL) (hi : fpclassify x ≠ FPClass.FP_INFINITE)
    (hnan : fpclassify x ≠ FPClass.FP_NAN) :
    expField x = 0 := by
  unfold fpclassify at hn hi hnan
  by_contra h0
  by_cases h255 : expField x = 255
  · by_cases hm : manField x = 0
    · simp [h255, hm] at hi
    · simp [h255, hm] at hnan
  · simp [h255, h0] at hn

/-! ## The special-value ladder of `reciprocal` -/

/-- C1: for every input whose class is neither normal, infinite nor NaN (so it is a zero or
a subnormal, of either sign), `reciprocal` returns infinity with the sign of the input:
`+inf` (0x7F800000) for a positive input, `-inf` (0xFF800000) for a negative one. The
result is the same for every divider, the one with an empty table included, so the
lookup table is not read. -/
theorem reciprocal_zero_or_subnormal (x : Nat)
    (hn : fpclassify x ≠ FPClass.FP_NORMAL) (hi : fpclassify x ≠ FPClass.FP_INFINITE)
    (hnan : fpclassify x ≠ FPClass.FP_NAN) :
    (fpclassify x = FPClass.FP_ZERO ∨ fpclassify x = FPClass.FP_SUBNORMAL) ∧
    (∀ d : FS3.Divider, Divider.reciprocal d x = Except.ok (copysign F32_INFINITY x)) ∧
    (signBit x = 0 → copysign F32_INFINITY x = 0x7F800000) ∧
    (signBit x = 1 → copysign F32_INFINITY x = 0xFF800000) := by
  have h0 := fpclassify_not_finite_cases x hn hi hnan
  refine ⟨?_, ?_, ?_, ?_⟩
  · unfold fpclassify
    by_cases hm : manField x = 0 <;> simp [h0, hm]
  · intro d
    simp [Divider.reciprocal, hn, hi, hnan]
  · intro hs
    rw [copysign_of_signBit_zero _ _ hs]
    decide
  · intro hs
    rw [copysign_of_signBit_one _ _ hs]
    decide

/-- Witness for C1 at the negative subnormal 0x80000001. -/
theorem reciprocal_zero_or_subnormal_witness :
    (fpclassify 0x80000001 ≠ FPClass.FP_NORMAL ∧ fpclassify 0x80000001 ≠ FPClass.FP_INFINITE ∧
      fpclassify 0x80000001 ≠ FPClass.FP_NAN) ∧
    (fpclassify 0x80000001 = FPClass.FP_ZERO ∨ fpclassify 0x80000001 = FPClass.FP_SUBNORMAL) ∧
    (∀ d : FS3.Divider,
      Divider.reciprocal d 0x80000001 = Except.ok (copysign F32_INFINITY 0x80000001)) ∧
    (signBit 0x80000001 = 0 → copysign F32_INFINITY 0x80000001 = 0x7F800000) ∧
    (signBit 0x80000001 = 1 → copysign F32_INFINITY 0x80000001 = 0xFF800000) :=
  ⟨⟨by decide, by decide, by decide⟩,
   reciprocal_zero_or_subnormal 0x80000001 (by decide) (by decide) (by decide)⟩

/-- C2: for every divider, `reciprocal(+inf)` is `+0.0` (0x00000000) and
`reciprocal(-inf)` is `-0.0` (0x80000000). -/
theorem reciprocal_infinite (d : FS3.Divider) :
    Divider.reciprocal d 0x7F800000 = Except.ok 0x00000000 ∧
    Divider.reciprocal d 0xFF800000 = Except.ok 0x80000000 := by
  constructor <;> rfl

/-- C3: for every NaN input (exponent field 255, non-zero mantissa field, any sign, quiet
or signalling) and every divider, `reciprocal` returns a NaN (the value of the macro
`NAN`). -/
theorem reciprocal_nan (d : FS3.Divider) (x : Nat)
    (he : expField x = 255) (hm : manField x ≠ 0) :
    ∃ v, Divider.reciprocal d x = Except.ok v ∧ fpclassify v = FPClass.FP_NAN := by
  have hc : fpclassify x = FPClass.FP_NAN := by
    simp [fpclassify, he, hm]
  refine ⟨F32_NAN, ?_, by decide⟩
  simp [Divider.reciprocal, hc]

/-- Witness for C3 at the negative signalling NaN 0xFF800001. -/
theorem reciprocal_nan_witness :
    expField 0xFF800001 = 255 ∧ manField 0xFF800001 ≠ 0 ∧
    ∃ v, Divider.reciprocal ⟨[], 23, 23, 0⟩ 0xFF800001 = Except.ok v ∧
      fpclassify v = FPClass.FP_NAN :=
  ⟨by decide, by decide, reciprocal_nan ⟨[], 23, 23, 0⟩ 0xFF800001 (by decide) (by decide)⟩

/-! ## Construction -/

theorem constructor_never_rejects (lookup_table : List (List Nat))
    (constant_term_size linear_term_size : Nat) :
    ∃ d, Divider.Divider lookup_table constant_term_size linear_term_size = Except.ok d ∧
      d.lookup_table = lookup_table ∧ d.table_depth = lookup_table.length % 2 ^ 8 :=
  ⟨_, rfl, rfl, rfl⟩

theorem approximate_row_width (d : FS3.Divider) (lut_index : Nat) (s_local : Bool)
    (x_local : Nat) (row : List Nat) (hrow : d.lookup_table[lut_index]? = some row)
    (hwidth : row.length ≠ 2) :
    (∀ y, Divider.approximate d lut_index s_local x_local ≠ Except.ok y) ∧
    (d.table_depth ≠ 0 → Divider.approximate d lut_index s_local x_local =
      Except.error DividerError.assertion_failed) := by
  have hmatch : ∀ c0 c1, row ≠ [c0, c1] := by
    intro c0 c1 h
    rw [h] at hwidth
    simp at hwidth
  by_cases hdepth : d.table_depth = 0
  · simp [Divider.approximate, Divider.get_x_local_size, Divider.get_num_interval_bits,
      hdepth, bind, Except.bind]
  · have hassert : Divider.approximate d lut_index s_local x_local =
        Except.error DividerError.assertion_failed := by
      simp only [Divider.approximate, Divider.get_x_local_size, Divider.get_num_interval_bits,
        hdepth, hrow, bind, Except.bind, pure, Except.pure, if_false]
      rfl
    refine ⟨fun y hy => ?_, fun _ => hassert⟩
    rw [hassert] at hy
    cases hy

/-- C5: for a table of at least two intervals the constructor returns a divider holding
the table as given, whether or not every row holds exactly two coefficients. The row width
is checked by the assertion of `approximate` instead: an evaluation that selects a row
whose width is not 2 returns no value, and fails that assertion whenever `table_depth`
is not zero. -/
theorem constructor_defers_row_check (lookup_table : List (List Nat))
    (constant_term_size linear_term_size : Nat) (_h2 : 2 ≤ lookup_table.length) :
    ∃ d, Divider.Divider lookup_table constant_term_size linear_term_size = Except.ok d ∧
      d.lookup_table = lookup_table ∧
      ∀ (lut_index : Nat) (s_local : Bool) (x_local : Nat) (row : List Nat),
        lookup_table[lut_index]? = some row → row.length ≠ 2 →
        (∀ y, Divider.approximate d lut_index s_local x_local ≠ Except.ok y) ∧
        (lookup_table.length % 2 ^ 8 ≠ 0 →
          Divider.approximate d lut_index s_local x_local =
            Except.error DividerError.assertion_failed) := by
  obtain ⟨d, hd, htab, hdepth⟩ :=
    constructor_never_rejects lookup_table constant_term_size linear_term_size
  refine ⟨d, hd, htab, ?_⟩
  intro lut_index s_local x_local row hrow hwidth
  have h := approximate_row_width d lut_index s_local x_local row (by rw [htab]; exact hrow)
    hwidth
  exact ⟨h.1, fun hne => h.2 (by rw [hdepth]; exact hne)⟩

/-- Witness for C5 at a table of two rows whose first row holds one coefficient: it is
accepted, and an evaluation selecting row 0 fails the row-width assertion. -/
theorem constructor_defers_row_check_witness :
    2 ≤ [[0x3F4CCCCD], [0x3F124925, 0xBDA72F05]].length ∧
    ∃ d, Divider.Divider [[0x3F4CCCCD], [0x3F124925, 0xBDA72F05]] 23 23 = Except.ok d ∧
      d.lookup_table = [[0x3F4CCCCD], [0x3F124925, 0xBDA72F05]] ∧
      ∀ (lut_index : Nat) (s_local : Bool) (x_local : Nat) (row : List Nat),
        [[0x3F4CCCCD], [0x3F124925, 0xBDA72F05]][lut_index]? = some row → row.length ≠ 2 →
        (∀ y, Divider.approximate d lut_index s_local x_local ≠ Except.ok y) ∧
        ([[0x3F4CCCCD], [0x3F124925, 0xBDA72F05]].length % 2 ^ 8 ≠ 0 →
          Divider.approximate d lut_index s_local x_local =
            Except.error DividerError.assertion_failed) :=
  ⟨by decide, constructor_defers_row_check [[0x3F4CCCCD], [0x3F124925, 0xBDA72F05]] 23 23
    (by decide)⟩

/-- Counterexample to C5 as stated: a table of two intervals whose first row holds a single
coefficient is accepted by the constructor. -/
theorem constructor_accepts_short_row :
    Divider.Divider [[0x3F4CCCCD], [0x3F124925, 0xBDA72F05]] 23 23 =
      Except.ok ⟨[[0x3F4CCCCD], [0x3F124925, 0xBDA72F05]], 23, 23, 2⟩ := by
  decide

/-! ## Sign symmetry and division -/

theorem expField_fneg (x : Nat) : expField (fneg x) = expField x := by
  have h := signBit_lt_two x
  unfold fneg expField
  generalize signBit x = s at h
  omega

theorem manField_fneg (x : Nat) : manField (fneg x) = manField x := by
  have h := signBit_lt_two x
  unfold fneg manField
  generalize signBit x = s at h
  omega

theorem signBit_fneg (x : Nat) : signBit (fneg x) = 1 - signBit x := by
  have h := signBit_lt_two x
  unfold fneg
  generalize signBit x = s at h ⊢
  unfold signBit
  omega

theorem fpclassify_fneg (x : Nat) : fpclassify (fneg x) = fpclassify x := by
  unfold fpclassify
  rw [expField_fneg, manField_fneg]

theorem reduce_range_eq (x : Nat) : Divider.reduce_range x = (expField x, manField x) := by
  have h1 : (1 <<< 8 : Nat) - 1 = 2 ^ 8 - 1 := by decide
  have h2 : (1 <<< 23 : Nat) - 1 = 2 ^ 23 - 1 := by decide
  simp only [Divider.reduce_range, DIVIDER_EXPONENT_SIZE, DIVIDER_MANTISSA_SIZE, h1, h2,
    Nat.and_pow_two_sub_one_eq_mod, Nat.shiftRight_eq_div_pow, expField, manField]
  simp

theorem copysign_fneg (mag x : Nat) : copysign mag (fneg x) = fneg (copysign mag x) := by
  have h := signBit_lt_two x
  unfold copysign
  rw [signBit_fneg]
  generalize signBit x = s at h ⊢
  unfold fneg signBit
  omega

theorem reciprocal_normal (d : FS3.Divider) (x : Nat) (h : fpclassify x = FPClass.FP_NORMAL) :
    Divider.reciprocal d x =
      (abs_reciprocal d (expField x) (manField x)).map (fun a => copysign a x) := by
  simp only [Divider.reciprocal, h, reduce_range_eq, abs_reciprocal]
  simp only [reduceCtorEq, if_false, ne_eq, not_true_eq_false]
  cases hrm : Divider.read_mantissa d (manField x) with
  | error e => rfl
  | ok t =>
    obtain ⟨i, s, xl⟩ := t
    cases hap : Divider.approximate d i s xl with
    | error e => simp [bind, Except.bind, Except.map, hap]
    | ok y => simp [bind, Except.bind, Except.map, hap, pure, Except.pure]

/-- C6: for every non-NaN input and every divider, the result of `reciprocal` carries the
sign bit of the input, and negating the input negates the result and changes nothing
else: `reciprocal(-x)` and `-reciprocal(x)` are the same bit pattern (the same failure when
`reciprocal(x)` fails), so the magnitude bits do not depend on the sign of `x`. -/
theorem reciprocal_sign_symmetry (d : FS3.Divider) (x : Nat)
    (hnan : fpclassify x ≠ FPClass.FP_NAN) :
    (∀ v, Divider.reciprocal d x = Except.ok v → signBit v = signBit x) ∧
    Divider.reciprocal d (fneg x) = (Divider.reciprocal d x).map fneg ∧
    (∀ v w, Divider.reciprocal d x = Except.ok v → Divider.reciprocal d (fneg x) = Except.ok w →
      w % 2 ^ 31 = v % 2 ^ 31) := by
  have hsym : Divider.reciprocal d (fneg x) = (Divider.reciprocal d x).map fneg := by
    by_cases hnorm : fpclassify x = FPClass.FP_NORMAL
    · rw [reciprocal_normal d x hnorm, reciprocal_normal d (fneg x) (by rw [fpclassify_fneg]; exact hnorm),
        expField_fneg, manField_fneg]
      cases abs_reciprocal d (expField x) (manField x) with
      | error e => rfl
      | ok a => simp [Except.map, copysign_fneg]
    · by_cases hinf : fpclassify x = FPClass.FP_INFINITE
      · simp [Divider.reciprocal, fpclassify_fneg, hinf, Except.map, copysign_fneg]
      · simp [Divider.reciprocal, fpclassify_fneg, hinf, hnan, hnorm, Except.map, copysign_fneg]
  refine ⟨?_, hsym, ?_⟩
  · intro v hv
    by_cases hnorm : fpclassify x = FPClass.FP_NORMAL
    · rw [reciprocal_normal d x hnorm] at hv
      cases hab : abs_reciprocal d (expField x) (manField x) with
      | error e => simp [hab, Except.map] at hv
      | ok a =>
        simp [hab, Except.map] at hv
        rw [← hv, signBit_copysign]
    · by_cases hinf : fpclassify x = FPClass.FP_INFINITE
      · simp [Divider.reciprocal, hinf] at hv
        rw [← hv, signBit_copysign]
      · simp [Divider.reciprocal, hinf, hnan, hnorm] at hv
        rw [← hv, signBit_copysign]
  · intro v w hv hw
    rw [hsym, hv] at hw
    simp [Except.map] at hw
    rw [← hw]
    have h := signBit_lt_two v
    unfold fneg
    generalize signBit v = s at h
    omega

/-- Witness for C6 at `x = 3.1415927` (0x40490FDB) on the sample divider. -/
theorem reciprocal_sign_symmetry_witness :
    fpclassify 0x40490FDB ≠ FPClass.FP_NAN ∧
    (∀ v, Divider.reciprocal sampleDivider 0x40490FDB = Except.ok v →
      signBit v = signBit 0x40490FDB) ∧
    Divider.reciprocal sampleDivider (fneg 0x40490FDB) =
      (Divider.reciprocal sampleDivider 0x40490FDB).map fneg ∧
    (∀ v w, Divider.reciprocal sampleDivider 0x40490FDB = Except.ok v →
      Divider.reciprocal sampleDivider (fneg 0x40490FDB) = Except.ok w →
      w % 2 ^ 31 = v % 2 ^ 31) :=
  ⟨by decide, reciprocal_sign_symmetry sampleDivider 0x40490FDB (by decide)⟩

/-- C7: the division operator returns the single-precision product of the numerator and
`reciprocal(denominator)`; `reciprocal` is evaluated once and its failure, if any, is the
failure of the division. -/
theorem call_eq_mul_reciprocal (d : FS3.Divider) (numerator denominator : Nat) :
    Divider.call d numerator denominator =
      (Divider.reciprocal d denominator).map (fun r => fmul numerator r) := by
  unfold Divider.call
  cases Divider.reciprocal d denominator with
  | error e => rfl
  | ok r => rfl

/-! ## Definedness of the normal path -/

theorem ceilLog2_two_pow (k : Nat) (hk : k ≤ 7) : ceilLog2 (2 ^ k) % 2 ^ 8 = k := by
  interval_cases k <;> rfl

theorem get_num_interval_bits_two_pow (d : FS3.Divider) (k : Nat) (hk : k ≤ 7)
    (hdepth : d.table_depth = 2 ^ k) : Divider.get_num_interval_bits d = Except.ok k := by
  have hpos : 2 ^ k ≠ 0 := by positivity
  simp [Divider.get_num_interval_bits, hdepth, hpos]
  exact ceilLog2_two_pow k hk

theorem get_x_local_size_two_pow (d : FS3.Divider) (k : Nat) (hk : k ≤ 7)
    (hdepth : d.table_depth = 2 ^ k) : Divider.get_x_local_size d = Except.ok (23 - k) := by
  simp only [Divider.get_x_local_size, get_num_interval_bits_two_pow d k hk hdepth,
    DIVIDER_MANTISSA_SIZE, bind, Except.bind, pure, Except.pure]
  congr 1
  omega

theorem read_mantissa_two_pow (d : FS3.Divider) (k : Nat) (hk : k ≤ 7)
    (hdepth : d.table_depth = 2 ^ k) (mantissa : Nat) :
    ∃ lut_index s_local x_local,
      Divider.read_mantissa d mantissa = Except.ok (lut_index, s_local, x_local) ∧
      lut_index < 2 ^ k := by
  have hidx : ((mantissa >>> (23 - k)) &&& ((1 <<< k) - 1)) % 2 ^ 8 < 2 ^ k := by
    rw [Nat.one_shiftLeft, Nat.and_pow_two_sub_one_eq_mod]
    exact lt_of_le_of_lt (Nat.mod_le _ _) (Nat.mod_lt _ (by positivity))
  simp only [Divider.read_mantissa, get_num_interval_bits_two_pow d k hk hdepth,
    get_x_local_size_two_pow d k hk hdepth, bind, Except.bind, pure, Except.pure]
  split
  · exact ⟨_, _, _, rfl, hidx⟩
  · exact ⟨_, _, _, rfl, hidx⟩

theorem align_mantissa_defined (m : Nat) (e_common adjustment : Int)
    (h0 : 0 ≤ e_common - adjustment) (h1 : e_common - adjustment < 64) :
    ∃ v, Divider.align_mantissa m e_common adjustment = Except.ok v := by
  unfold Divider.align_mantissa
  simp only
  split_ifs
  · exact ⟨_, rfl⟩
  · exact ⟨_, rfl⟩

theorem approximate_defined (d : FS3.Divider) (k : Nat) (hk : k ≤ 7)
    (hdepth : d.table_depth = 2 ^ k) (lut_index : Nat) (s_local : Bool) (x_local : Nat)
    (hi : lut_index < d.lookup_table.length)
    (hrows : ∀ row ∈ d.lookup_table,
      row_well_formed d.constant_term_size d.linear_term_size (23 - k) row = true) :
    ∃ y_local, Divider.approximate d lut_index s_local x_local = Except.ok y_local := by
  have hrow := hrows _ (List.getElem_mem hi)
  have hget : d.lookup_table[lut_index]? = some (d.lookup_table[lut_index]) :=
    List.getElem?_eq_getElem hi
  generalize d.lookup_table[lut_index] = row at hrow hget
  unfold row_well_formed at hrow
  split at hrow
  · rename_i c0 c1
    split at hrow
    · rename_i s0 e0 m0 s1 e1 m1 h0 h1
      have hgap : |e0 - toInt8 (e1 - (((23 - k : Nat) : Int) - 1))| < 64 := by
        simpa using hrow
      rw [abs_lt] at hgap
      obtain ⟨a0, ha0⟩ := align_mantissa_defined m0
        (max e0 (toInt8 (e1 - (((23 - k : Nat) : Int) - 1)))) e0
        (by have := le_max_left e0 (toInt8 (e1 - (((23 - k : Nat) : Int) - 1))); omega)
        (by
          rcases max_choice e0 (toInt8 (e1 - (((23 - k : Nat) : Int) - 1))) with h | h <;>
            rw [h] <;> omega)
      obtain ⟨a1, ha1⟩ := align_mantissa_defined ((m1 * x_local) % 2 ^ 64)
        (max e0 (toInt8 (e1 - (((23 - k : Nat) : Int) - 1))))
        (toInt8 (e1 - (((23 - k : Nat) : Int) - 1)))
        (by have := le_max_right e0 (toInt8 (e1 - (((23 - k : Nat) : Int) - 1))); omega)
        (by
          rcases max_choice e0 (toInt8 (e1 - (((23 - k : Nat) : Int) - 1))) with h | h <;>
            rw [h] <;> omega)
      simp only [Divider.approximate, get_x_local_size_two_pow d k hk hdepth, hget, h0, h1,
        bind, Except.bind, pure, Except.pure, ha0, ha1]
      exact ⟨_, rfl⟩
    · simp at hrow
  · simp at hrow

theorem row_well_formed_length (constant_term_size linear_term_size x_local_size : Nat)
    (row : List Nat)
    (h : row_well_formed constant_term_size linear_term_size x_local_size row = true) :
    row.length = 2 := by
  unfold row_well_formed at h
  split at h
  · rfl
  · simp at h

/-- C4: for a divider built from a table of `2^k` rows (`0 ≤ k ≤ 7`) whose rows are all
well formed (exactly two coefficients, term sizes and exponent gap within the range of the
64-bit shifts), `reciprocal` returns a value for every input; the index `lut_index` that
`read_mantissa` extracts from the mantissa of the input is below the number of rows and
the row it selects holds exactly two coefficients, so the row-width assertion holds. -/
theorem reciprocal_returns_of_well_formed (lookup_table : List (List Nat))
    (constant_term_size linear_term_size : Nat) (d : FS3.Divider)
    (hd : Divider.Divider lookup_table constant_term_size linear_term_size = Except.ok d)
    (k : Nat) (hk : k ≤ 7) (hlen : lookup_table.length = 2 ^ k)
    (hrows : ∀ row ∈ lookup_table,
      row_well_formed d.constant_term_size d.linear_term_size (23 - k) row = true)
    (x : Nat) :
    (∃ v, Divider.reciprocal d x = Except.ok v) ∧
    (∃ lut_index s_local x_local,
      Divider.read_mantissa d (Divider.reduce_range x).2 =
        Except.ok (lut_index, s_local, x_local) ∧
      lut_index < lookup_table.length ∧
      ∃ row, d.lookup_table[lut_index]? = some row ∧ row.length = 2) := by
  have hd2 : d = ⟨lookup_table, constant_term_size % 2 ^ 8, linear_term_size % 2 ^ 8,
      lookup_table.length % 2 ^ 8⟩ := by
    simp only [Divider.Divider, Except.ok.injEq] at hd
    exact hd.symm
  have htab : d.lookup_table = lookup_table := by rw [hd2]
  have hdepth : d.table_depth = 2 ^ k := by
    rw [hd2, hlen]
    interval_cases k <;> rfl
  obtain ⟨i, s, xl, hrm, hi⟩ := read_mantissa_two_pow d k hk hdepth (manField x)
  have hi2 : i < d.lookup_table.length := by rw [htab, hlen]; exact hi
  constructor
  · by_cases hnorm : fpclassify x = FPClass.FP_NORMAL
    · rw [reciprocal_normal d x hnorm]
      obtain ⟨y, hy⟩ := approximate_defined d k hk hdepth i s xl hi2
        (by rw [htab]; exact hrows)
      refine ⟨copysign (Divider.expand_range (expField x) y) x, ?_⟩
      simp [abs_reciprocal, hrm, hy, bind, Except.bind, pure, Except.pure, Except.map]
    · by_cases hinf : fpclassify x = FPClass.FP_INFINITE
      · exact ⟨copysign F32_ZERO x, by simp [Divider.reciprocal, hinf]⟩
      · by_cases hnan : fpclassify x = FPClass.FP_NAN
        · exact ⟨F32_NAN, by simp [Divider.reciprocal, hnan]⟩
        · exact ⟨copysign F32_INFINITY x, by simp [Divider.reciprocal, hinf, hnan, hnorm]⟩
  · refine ⟨i, s, xl, ?_, by rw [hlen]; exact hi, d.lookup_table[i], ?_, ?_⟩
    · rw [reduce_range_eq]
      exact hrm
    · exact List.getElem?_eq_getElem hi2
    · exact row_well_formed_length _ _ _ _
        (hrows _ (by rw [← htab]; exact List.getElem_mem hi2))

/-- Witness for C4 at the sample table and `x = 3.1415927` (0x40490FDB). -/
theorem reciprocal_returns_of_well_formed_witness :
    Divider.Divider sampleTable 23 23 = Except.ok sampleDivider ∧ 1 ≤ 7 ∧
    sampleTable.length = 2 ^ 1 ∧
    (∀ row ∈ sampleTable, row_well_formed sampleDivider.constant_term_size
      sampleDivider.linear_term_size (23 - 1) row = true) ∧
    (∃ v, Divider.reciprocal sampleDivider 0x40490FDB = Except.ok v) ∧
    (∃ lut_index s_local x_local,
      Divider.read_mantissa sampleDivider (Divider.reduce_range 0x40490FDB).2 =
        Except.ok (lut_index, s_local, x_local) ∧
      lut_index < sampleTable.length ∧
      ∃ row, sampleDivider.lookup_table[lut_index]? = some row ∧ row.length = 2) :=
  ⟨by decide, by decide, by decide, by decide,
   reciprocal_returns_of_well_formed sampleTable 23 23 sampleDivider (by decide) 1 (by decide)
     (by decide) (by decide) 0x40490FDB⟩

/-- Counterexample to C4 as stated: a table of three rows of two coefficients each is
accepted by the constructor, and `reciprocal(1.75)` (0x3FE00000, mantissa bits `11...`)
reads row 3 of it, past the end. -/
theorem reciprocal_three_rows_out_of_range :
    ∃ d, Divider.Divider [[0x3F800000, 0xBF000000], [0x3F800000, 0xBF000000],
        [0x3F800000, 0xBF000000]] 23 23 = Except.ok d ∧
      Divider.reciprocal d 0x3FE00000 = Except.error DividerError.index_out_of_range :=
  ⟨_, rfl, by decide⟩

namespace ETCController

/-- C10: after `updateStateFromCAN(s)` every getter returns the field of `s` it reads,
except `getTorqueDemand`, which returns 0 when `s.motor_enabled` is false and
`s.torque_demand` when it is true. -/
theorem updateStateFromCAN_getters (s : ETCState) (c : ETCController) :
    getMBBAlive (updateStateFromCAN s c) = s.mbb_alive ∧
    getHE1Read (updateStateFromCAN s c) = s.he1_read ∧
    getHE2Read (updateStateFromCAN s c) = s.he2_read ∧
    getHE1Travel (updateStateFromCAN s c) = s.he1_travel ∧
    getHE2Travel (updateStateFromCAN s c) = s.he2_travel ∧
    getPedalTravel (updateStateFromCAN s c) = s.pedal_travel ∧
    getBrakes (updateStateFromCAN s c) = s.brakes_read ∧
    isTSReady (updateStateFromCAN s c) = s.ts_ready ∧
    isMotorEnabled (updateStateFromCAN s c) = s.motor_enabled ∧
    isMotorForward (updateStateFromCAN s c) = s.motor_forward ∧
    isCockpit (updateStateFromCAN s c) = s.cockpit ∧
    getTorqueDemand (updateStateFromCAN s c) =
      (if s.motor_enabled = true then s.torque_demand else 0) ∧
    getState (updateStateFromCAN s c) =
      { s with torque_demand := if s.motor_enabled = true then s.torque_demand else 0 } := by
  refine ⟨rfl, rfl, rfl, rfl, rfl, rfl, rfl, rfl, rfl, rfl, rfl, rfl, rfl⟩

theorem updateState_faulty_timer_none (K : ETCConstants) (now : Nat) (he1_raw he2_raw : ℚ)
    (c : ETCController) (hen : c.state.motor_enabled = true)
    (hf : inputsFaulty K he1_raw he2_raw) (ht : c.t_mismatch_start = none) :
    (updateState K now he1_raw he2_raw c).state.motor_enabled = true ∧
    (updateState K now he1_raw he2_raw c).t_mismatch_start = some now := by
  unfold inputsFaulty at hf
  by_cases hv : voltageRangeFault K he1_raw he2_raw
  · simp [updateState, startMismatchTimer, expireMismatchTimer, hv, hen, ht]
  · have hd : disagreementFault K he1_raw he2_raw := by tauto
    simp [updateState, startMismatchTimer, expireMismatchTimer, hv, hd, hen, ht]

theorem updateState_faulty_timer_some (K : ETCConstants) (now : Nat) (he1_raw he2_raw : ℚ)
    (c : ETCController) (hen : c.state.motor_enabled = true)
    (hf : inputsFaulty K he1_raw he2_raw) (t : Nat) (ht : c.t_mismatch_start = some t) :
    (updateState K now he1_raw he2_raw c).state.motor_enabled =
      !decide (now - t > K.HE_MISMATCH_TIMEOUT) ∧
    (updateState K now he1_raw he2_raw c).t_mismatch_start =
      if now - t > K.HE_MISMATCH_TIMEOUT then none else some t := by
  unfold inputsFaulty at hf
  by_cases hv : voltageRangeFault K he1_raw he2_raw
  · by_cases hx : now - t > K.HE_MISMATCH_TIMEOUT
    · simp [updateState, startMismatchTimer, expireMismatchTimer, hv, hen, ht, hx]
    · simp [updateState, startMismatchTimer, expireMismatchTimer, hv, hen, ht, hx]
  · have hd : disagreementFault K he1_raw he2_raw := by tauto
    by_cases hx : now - t > K.HE_MISMATCH_TIMEOUT
    · simp [updateState, startMismatchTimer, expireMismatchTimer, hv, hd, hen, ht, hx]
    · simp [updateState, startMismatchTimer, expireMismatchTimer, hv, hd, hen, ht, hx]

theorem updateState_agreeing (K : ETCConstants) (now : Nat) (he1_raw he2_raw : ℚ)
    (c : ETCController) (hf : ¬ inputsFaulty K he1_raw he2_raw) :
    (updateState K now he1_raw he2_raw c).t_mismatch_start = none ∧
    (updateState K now he1_raw he2_raw c).state.motor_enabled = c.state.motor_enabled := by
  unfold inputsFaulty at hf
  have hv : ¬ voltageRangeFault K he1_raw he2_raw := by tauto
  have hd : ¬ disagreementFault K he1_raw he2_raw := by tauto
  simp [updateState, hv, hd]

theorem runUpdates_agreeing (K : ETCConstants) (calls : List (Nat × ℚ × ℚ))
    (hcalls : ∀ call ∈ calls, ¬ inputsFaulty K call.2.1 call.2.2) (c : ETCController) :
    (runUpdates K calls c).state.motor_enabled = c.state.motor_enabled := by
  induction calls generalizing c with
  | nil => rfl
  | cons call rest ih =>
    have hrest : ∀ call ∈ rest, ¬ inputsFaulty K call.2.1 call.2.2 :=
      fun x hx => hcalls x (List.mem_cons_of_mem _ hx)
    have hhead := hcalls call (List.mem_cons_self _ _)
    show (runUpdates K rest (updateState K call.1 call.2.1 call.2.2 c)).state.motor_enabled = _
    rw [ih hrest, (updateState_agreeing K call.1 call.2.1 call.2.2 c hhead).2]

theorem sample_faulty_low_high : inputsFaulty sampleConstants 0 1 := by
  unfold inputsFaulty voltageRangeFault sampleConstants
  norm_num

theorem sample_agreeing_half : ¬ inputsFaulty sampleConstants (1 / 2) (1 / 2) := by
  unfold inputsFaulty voltageRangeFault disagreementFault he1Travel he2Travel clamp01
    sampleConstants
  norm_num

theorem updateState_keeps_disabled (K : ETCConstants) (now : Nat) (he1_raw he2_raw : ℚ)
    (c : ETCController) (h : c.state.motor_enabled = false) :
    (updateState K now he1_raw he2_raw c).state.motor_enabled = false := by
  simp [updateState, h]

theorem runUpdates_keeps_disabled (K : ETCConstants) (calls : List (Nat × ℚ × ℚ))
    (c : ETCController) (h : c.state.motor_enabled = false) :
    (runUpdates K calls c).state.motor_enabled = false := by
  induction calls generalizing c with
  | nil => exact h
  | cons call rest ih =>
    show (runUpdates K rest (updateState K call.1 call.2.1 call.2.2 c)).state.motor_enabled = _
    exact ih _ (updateState_keeps_disabled K _ _ _ c h)

theorem runUpdates_faulty_pending (K : ETCConstants) (calls : List (Nat × ℚ × ℚ))
    (c : ETCController) (t0 : Nat) (hen : c.state.motor_enabled = true)
    (ht : c.t_mismatch_start = some t0)
    (hcalls : ∀ call ∈ calls, inputsFaulty K call.2.1 call.2.2) :
    (runUpdates K calls c).state.motor_enabled = false ↔
      ∃ call ∈ calls, call.1 - t0 > K.HE_MISMATCH_TIMEOUT := by
  induction calls generalizing c with
  | nil => simp [runUpdates, hen]
  | cons call rest ih =>
    have hrest : ∀ x ∈ rest, inputsFaulty K x.2.1 x.2.2 :=
      fun x hx => hcalls x (List.mem_cons_of_mem _ hx)
    have hhead := hcalls call (List.mem_cons_self _ _)
    obtain ⟨hm, htm⟩ := updateState_faulty_timer_some K call.1 call.2.1 call.2.2 c hen hhead t0 ht
    show (runUpdates K rest (updateState K call.1 call.2.1 call.2.2 c)).state.motor_enabled
      = false ↔ _
    by_cases hx : call.1 - t0 > K.HE_MISMATCH_TIMEOUT
    · have hdis : (updateState K call.1 call.2.1 call.2.2 c).state.motor_enabled = false := by
        rw [hm]
        simp [hx]
      rw [runUpdates_keeps_disabled K rest _ hdis]
      simp only [true_iff]
      exact ⟨call, List.mem_cons_self _ _, hx⟩
    · have hen2 : (updateState K call.1 call.2.1 call.2.2 c).state.motor_enabled = true := by
        rw [hm]
        simp [hx]
      rw [if_neg hx] at htm
      rw [ih _ hen2 htm hrest]
      constructor
      · rintro ⟨x, hxm, hxt⟩
        exact ⟨x, List.mem_cons_of_mem _ hxm, hxt⟩
      · rintro ⟨x, hxm, hxt⟩
        rcases List.mem_cons.mp hxm with rfl | hmem
        · exact absurd hxt hx
        · exact ⟨x, hmem, hxt⟩

theorem ImplausibilityTestHelper_passes (K : ETCConstants) (start : Nat) (he1_read he2_read : ℚ)
    (c : ETCController) (hf : inputsFaulty K he1_read he2_read)
    (h50 : 50 ≤ K.HE_MISMATCH_TIMEOUT) (h110 : K.HE_MISMATCH_TIMEOUT < 110)
    (ht : c.t_mismatch_start = none) :
    (ImplausibilityTestHelper K start he1_read he2_read c).1 = true ∧
    (ImplausibilityTestHelper K start he1_read he2_read c).2.t_mismatch_start = none := by
  obtain ⟨h1e, h1t⟩ := updateState_faulty_timer_none K start he1_read he2_read
    (updateStateFromCAN
      { mbb_alive := 0, he1_read := 0, he2_read := 0, he1_travel := 0, he2_travel := 0,
        pedal_travel := 0, brakes_read := 0, ts_ready := false, motor_enabled := true,
        motor_forward := false, cockpit := false, torque_demand := 0 } c) rfl hf ht
  obtain ⟨h2e, h2t⟩ := updateState_faulty_timer_some K (start + 50) he1_read he2_read _ h1e hf
    start h1t
  have hx2 : ¬ start + 50 - start > K.HE_MISMATCH_TIMEOUT := by omega
  rw [if_neg hx2] at h2t
  have h2e' : (updateState K (start + 50) he1_read he2_read
      (updateState K start he1_read he2_read (updateStateFromCAN
        { mbb_alive := 0, he1_read := 0, he2_read := 0, he1_travel := 0, he2_travel := 0,
          pedal_travel := 0, brakes_read := 0, ts_ready := false, motor_enabled := true,
          motor_forward := false, cockpit := false, torque_demand := 0 } c))).state.motor_enabled
      = true := by
    rw [h2e, decide_eq_false hx2]
    rfl
  obtain ⟨h3e, h3t⟩ := updateState_faulty_timer_some K (start + 110) he1_read he2_read _ h2e'
    hf start h2t
  have hx3 : start + 110 - start > K.HE_MISMATCH_TIMEOUT := by omega
  rw [if_pos hx3] at h3t
  simp only [ImplausibilityTestHelper, isMotorEnabled, h1e, h2e', if_true, h3e, h3t,
    decide_eq_true hx3]
  exact ⟨rfl, trivial⟩

theorem sample_faulty_low_low : inputsFaulty sampleConstants 0 0 := by
  unfold inputsFaulty voltageRangeFault sampleConstants
  norm_num

theorem sample_faulty_high_high : inputsFaulty sampleConstants 1 1 := by
  unfold inputsFaulty voltageRangeFault sampleConstants
  norm_num

/-- C8: with the motor enabled, one `updateState` call at time `now` clears `motor_enabled`
exactly when the inputs are faulty (a raw reading out of range, or the two travels apart
by more than the tolerance), the mismatch timer was started by an earlier call and
`now - t_mismatch_start > HE_MISMATCH_TIMEOUT`. A call made with the timer not running
leaves the motor enabled. A faulty call leaves a running timer at its timestamp until it
expires and clears it then, so when a first faulty call at `now` is followed by any
faulty calls, the motor
is disabled exactly when one of them comes more than the timeout after `now`, whatever
calls lie in between. The tests `TestHEMismatch` and `TestHEVoltageRange` pass for every
timeout from 50 ms to 109 ms. -/
theorem updateState_disables_iff (K : ETCConstants) (now : Nat) (he1_raw he2_raw : ℚ)
    (c : ETCController) (hen : c.state.motor_enabled = true) :
    ((updateState K now he1_raw he2_raw c).state.motor_enabled = false ↔
      inputsFaulty K he1_raw he2_raw ∧
        ∃ t, c.t_mismatch_start = some t ∧ now - t > K.HE_MISMATCH_TIMEOUT) ∧
    (c.t_mismatch_start = none →
      (updateState K now he1_raw he2_raw c).state.motor_enabled = true) ∧
    (inputsFaulty K he1_raw he2_raw →
      (c.t_mismatch_start = none →
        (updateState K now he1_raw he2_raw c).t_mismatch_start = some now) ∧
      (∀ t, c.t_mismatch_start = some t → now - t ≤ K.HE_MISMATCH_TIMEOUT →
        (updateState K now he1_raw he2_raw c).t_mismatch_start = some t) ∧
      (∀ t, c.t_mismatch_start = some t → now - t > K.HE_MISMATCH_TIMEOUT →
        (updateState K now he1_raw he2_raw c).t_mismatch_start = none)) ∧
    (∀ calls : List (Nat × ℚ × ℚ), c.t_mismatch_start = none →
      inputsFaulty K he1_raw he2_raw →
      (∀ call ∈ calls, inputsFaulty K call.2.1 call.2.2) →
      ((runUpdates K calls (updateState K now he1_raw he2_raw c)).state.motor_enabled = false ↔
        ∃ call ∈ calls, call.1 - now > K.HE_MISMATCH_TIMEOUT)) ∧
    (∀ (later : Nat) (he1_later he2_later : ℚ), c.t_mismatch_start = none →
      inputsFaulty K he1_raw he2_raw → inputsFaulty K he1_later he2_later →
      later - now > K.HE_MISMATCH_TIMEOUT →
      (updateState K later he1_later he2_later
        (updateState K now he1_raw he2_raw c)).state.motor_enabled = false) ∧
    (∀ (start : Nat) (fresh : ETCController), fresh.t_mismatch_start = none →
      50 ≤ K.HE_MISMATCH_TIMEOUT → K.HE_MISMATCH_TIMEOUT < 110 →
      (inputsFaulty K 0 1 → TestHEMismatch K start fresh = true) ∧
      (inputsFaulty K 0 0 → inputsFaulty K 1 1 → TestHEVoltageRange K start fresh = true)) := by
  have hiff : (updateState K now he1_raw he2_raw c).state.motor_enabled = false ↔
      inputsFaulty K he1_raw he2_raw ∧
        ∃ t, c.t_mismatch_start = some t ∧ now - t > K.HE_MISMATCH_TIMEOUT := by
    by_cases hf : inputsFaulty K he1_raw he2_raw
    · cases ht : c.t_mismatch_start with
      | none =>
        have h := (updateState_faulty_timer_none K now he1_raw he2_raw c hen hf ht).1
        simp [h]
      | some t =>
        have h := (updateState_faulty_timer_some K now he1_raw he2_raw c hen hf t ht).1
        simp [h, hf]
    · have h := (updateState_agreeing K now he1_raw he2_raw c hf).2
      simp [h, hen, hf]
  refine ⟨hiff, ?_, ?_, ?_, ?_, ?_⟩
  · intro ht
    by_contra hne
    have hfalse : (updateState K now he1_raw he2_raw c).state.motor_enabled = false := by
      simpa using hne
    obtain ⟨_, t, ht2, _⟩ := hiff.mp hfalse
    rw [ht] at ht2
    cases ht2
  · intro hf
    refine ⟨fun ht => (updateState_faulty_timer_none K now he1_raw he2_raw c hen hf ht).2,
      ?_, ?_⟩
    · intro t ht hle
      rw [(updateState_faulty_timer_some K now he1_raw he2_raw c hen hf t ht).2,
        if_neg (by omega)]
    · intro t ht hgt
      rw [(updateState_faulty_timer_some K now he1_raw he2_raw c hen hf t ht).2, if_pos hgt]
  · intro calls ht hf hcalls
    obtain ⟨h1, h2⟩ := updateState_faulty_timer_none K now he1_raw he2_raw c hen hf ht
    exact runUpdates_faulty_pending K calls _ now h1 h2 hcalls
  · intro later he1_later he2_later ht hf hf2 hlate
    obtain ⟨h1, h2⟩ := updateState_faulty_timer_none K now he1_raw he2_raw c hen hf ht
    have h := (updateState_faulty_timer_some K later he1_later he2_later _ h1 hf2 now h2).1
    simp [h, hlate]
  · intro start fresh ht h50 h110
    refine ⟨fun hf => (ImplausibilityTestHelper_passes K start 0 1 fresh hf h50 h110 ht).1, ?_⟩
    intro hlow hhigh
    obtain ⟨hp, hpt⟩ := ImplausibilityTestHelper_passes K start 0 0 fresh hlow h50 h110 ht
    simp only [TestHEVoltageRange, hp, if_true]
    exact (ImplausibilityTestHelper_passes K (start + 110) 1 1 _ hhigh h50 h110 hpt).1

/-- Witness for C8 at the sample constants: an enabled controller whose timer is not
running, called with the readings `(0, 1)` at 0 ms, then at 50 ms and at 110 ms: the
motor is enabled after the call at 50 ms and disabled after the call at 110 ms; the two
tests pass on a controller just reset. -/
theorem updateState_disables_iff_witness :
    sampleEnabled.state.motor_enabled = true ∧
    (updateState sampleConstants 0 0 1 sampleEnabled).state.motor_enabled = true ∧
    ((runUpdates sampleConstants [(50, 0, 1)]
      (updateState sampleConstants 0 0 1 sampleEnabled)).state.motor_enabled = false ↔
      ∃ call ∈ [((50 : Nat), (0 : ℚ), (1 : ℚ))],
        call.1 - 0 > sampleConstants.HE_MISMATCH_TIMEOUT) ∧
    (runUpdates sampleConstants [(50, 0, 1), (110, 0, 1)]
      (updateState sampleConstants 0 0 1 sampleEnabled)).state.motor_enabled = false ∧
    TestHEMismatch sampleConstants 0 (resetState sampleEnabled) = true ∧
    TestHEVoltageRange sampleConstants 0 (resetState sampleEnabled) = true :=
  have h := updateState_disables_iff sampleConstants 0 0 1 sampleEnabled rfl
  ⟨rfl, h.2.1 rfl,
   h.2.2.2.1 [(50, 0, 1)] rfl sample_faulty_low_high (fun call hc => by
     rw [List.mem_singleton] at hc
     rw [hc]
     exact sample_faulty_low_high),
   (h.2.2.2.1 [(50, 0, 1), (110, 0, 1)] rfl sample_faulty_low_high (fun call hc => by
     simp only [List.mem_cons, List.mem_singleton, List.not_mem_nil, or_false] at hc
     rcases hc with rfl | rfl <;> exact sample_faulty_low_high)).mpr
     ⟨(110, 0, 1), by simp, by decide⟩,
   (h.2.2.2.2.2 0 (resetState sampleEnabled) rfl (by decide) (by decide)).1
     sample_faulty_low_high,
   (h.2.2.2.2.2 0 (resetState sampleEnabled) rfl (by decide) (by decide)).2
     sample_faulty_low_low sample_faulty_high_high⟩

/-- The scenario of `TestHEMismatch`: with the sample constants, the readings `(0, 1)` at
0 ms and 50 ms leave the motor enabled, and at 110 ms disable it. -/
theorem scenario_persistent_fault :
    (runUpdates sampleConstants [(0, 0, 1)] sampleEnabled).state.motor_enabled = true ∧
    (runUpdates sampleConstants [(0, 0, 1), (50, 0, 1)] sampleEnabled).state.motor_enabled
      = true ∧
    (runUpdates sampleConstants [(0, 0, 1), (50, 0, 1), (110, 0, 1)]
      sampleEnabled).state.motor_enabled = false := by
  have h0 := updateState_faulty_timer_none sampleConstants 0 0 1 sampleEnabled rfl
    sample_faulty_low_high rfl
  have h1 := updateState_faulty_timer_some sampleConstants 50 0 1 _ h0.1
    sample_faulty_low_high 0 h0.2
  have h1e : (updateState sampleConstants 50 0 1
      (updateState sampleConstants 0 0 1 sampleEnabled)).state.motor_enabled = true := by
    rw [h1.1]
    decide
  have h2 := updateState_faulty_timer_some sampleConstants 110 0 1 _ h1e
    sample_faulty_low_high 0 h1.2
  refine ⟨h0.1, h1e, ?_⟩
  show (updateState sampleConstants 110 0 1 (updateState sampleConstants 50 0 1
    (updateState sampleConstants 0 0 1 sampleEnabled))).state.motor_enabled = false
  rw [h2.1]
  decide

/-- C9: an `updateState` call whose readings are in range and agree within the tolerance
clears the mismatch timer and leaves `motor_enabled` as it was. Hence in a run that starts
enabled with the mismatch timer not running (or started no more than the timeout before
the faulty call), then has a faulty call, an agreeing call and any further agreeing calls
at any times, the motor is enabled after every call. -/
theorem updateState_agreeing_keeps_enabled (K : ETCConstants) (c : ETCController)
    (hen : c.state.motor_enabled = true)
    (t_fault : Nat) (he1_fault he2_fault : ℚ) (hfault : inputsFaulty K he1_fault he2_fault)
    (htimer : ∀ t, c.t_mismatch_start = some t → t_fault - t ≤ K.HE_MISMATCH_TIMEOUT)
    (t_agree : Nat) (he1_agree he2_agree : ℚ) (hagree : ¬ inputsFaulty K he1_agree he2_agree)
    (calls : List (Nat × ℚ × ℚ))
    (hcalls : ∀ call ∈ calls, ¬ inputsFaulty K call.2.1 call.2.2) :
    (∀ (s : ETCController) (now : Nat),
      (updateState K now he1_agree he2_agree s).t_mismatch_start = none ∧
      (updateState K now he1_agree he2_agree s).state.motor_enabled = s.state.motor_enabled) ∧
    (updateState K t_fault he1_fault he2_fault c).state.motor_enabled = true ∧
    (updateState K t_agree he1_agree he2_agree
      (updateState K t_fault he1_fault he2_fault c)).state.motor_enabled = true ∧
    (∀ n : Nat, (runUpdates K (calls.take n)
      (updateState K t_agree he1_agree he2_agree
        (updateState K t_fault he1_fault he2_fault c))).state.motor_enabled = true) := by
  have h1 : (updateState K t_fault he1_fault he2_fault c).state.motor_enabled = true := by
    cases ht : c.t_mismatch_start with
    | none => exact (updateState_faulty_timer_none K t_fault _ _ c hen hfault ht).1
    | some t =>
      rw [(updateState_faulty_timer_some K t_fault _ _ c hen hfault t ht).1]
      have := htimer t ht
      simp
      omega
  have h2 : (updateState K t_agree he1_agree he2_agree
      (updateState K t_fault he1_fault he2_fault c)).state.motor_enabled = true := by
    rw [(updateState_agreeing K t_agree _ _ _ hagree).2, h1]
  refine ⟨fun s now => updateState_agreeing K now _ _ s hagree, h1, h2, ?_⟩
  intro n
  rw [runUpdates_agreeing K (calls.take n)
    (fun call hc => hcalls call (List.mem_of_mem_take hc)), h2]

/-- Witness for C9 at the scenario of `TestHETemporaryMismatch` with the sample constants:
the faulty readings `(0, 1)` at 0 ms, then `(1/2, 1/2)` at 50 ms and at 110 ms. -/
theorem updateState_agreeing_keeps_enabled_witness :
    sampleEnabled.state.motor_enabled = true ∧ inputsFaulty sampleConstants 0 1 ∧
    ¬ inputsFaulty sampleConstants (1 / 2) (1 / 2) ∧
    (updateState sampleConstants 0 0 1 sampleEnabled).state.motor_enabled = true ∧
    (updateState sampleConstants 50 (1 / 2) (1 / 2)
      (updateState sampleConstants 0 0 1 sampleEnabled)).state.motor_enabled = true ∧
    (runUpdates sampleConstants (List.take 1 [(110, 1 / 2, 1 / 2)])
      (updateState sampleConstants 50 (1 / 2) (1 / 2)
        (updateState sampleConstants 0 0 1 sampleEnabled))).state.motor_enabled = true :=
  have h := updateState_agreeing_keeps_enabled sampleConstants sampleEnabled rfl 0 0 1
    sample_faulty_low_high (fun t ht => by simp [sampleEnabled] at ht) 50 (1 / 2) (1 / 2)
    sample_agreeing_half [(110, 1 / 2, 1 / 2)]
    (fun call hc => by
      rw [List.mem_singleton] at hc
      rw [hc]
      exact sample_agreeing_half)
  ⟨rfl, sample_faulty_low_high, sample_agreeing_half, h.2.1, h.2.2.1, h.2.2.2 1⟩

end ETCController

/-! ## Start interlock, reset and heartbeat -/

namespace ETCController

/-- C11: with the motor disabled, `checkStartConditions` sets `motor_enabled` exactly when
`ts_ready` is true and `brakes_read ≥ BRAKE_TOL`, the boundary `brakes_read = BRAKE_TOL`
included; when the condition does not hold the controller is left as it was. -/
theorem checkStartConditions_enables_iff (K : ETCConstants) (c : ETCController)
    (hdis : c.state.motor_enabled = false) :
    ((checkStartConditions K c).state.motor_enabled = true ↔
      c.state.ts_ready = true ∧ c.state.brakes_read ≥ K.BRAKE_TOL) ∧
    (c.state.ts_ready = true → c.state.brakes_read = K.BRAKE_TOL →
      (checkStartConditions K c).state.motor_enabled = true) ∧
    (¬ (c.state.ts_ready = true ∧ c.state.brakes_read ≥ K.BRAKE_TOL) →
      checkStartConditions K c = c) := by
  refine ⟨?_, ?_, ?_⟩
  · by_cases hcond : c.state.ts_ready = true ∧ c.state.brakes_read ≥ K.BRAKE_TOL
    · simp [checkStartConditions, runRTDS, hcond]
    · simp only [checkStartConditions, hcond, if_false, hdis]
      simp
  · intro hts hbr
    have hcond : c.state.ts_ready = true ∧ c.state.brakes_read ≥ K.BRAKE_TOL :=
      ⟨hts, le_of_eq hbr.symm⟩
    simp [checkStartConditions, runRTDS, hcond]
  · intro hcond
    simp only [checkStartConditions, hcond, if_false]

/-- Witness for C11 at the sample constants and a disabled controller with `ts_ready` set
and `brakes_read = BRAKE_TOL`. -/
theorem checkStartConditions_enables_iff_witness :
    (updateStateFromCAN { resetValue with ts_ready := true, brakes_read := 1 / 10 }
      sampleEnabled).state.motor_enabled = false ∧
    (checkStartConditions sampleConstants
      (updateStateFromCAN { resetValue with ts_ready := true, brakes_read := 1 / 10 }
        sampleEnabled)).state.motor_enabled = true :=
  ⟨rfl, (checkStartConditions_enables_iff sampleConstants
    (updateStateFromCAN { resetValue with ts_ready := true, brakes_read := 1 / 10 }
      sampleEnabled) rfl).2.1 rfl rfl⟩

/-- C12: after `resetState` the fields `mbb_alive`, `he1_read`, `he2_read`, `he1_travel`,
`he2_travel`, `pedal_travel`, `brakes_read` and `torque_demand` are 0, the booleans
`ts_ready`, `motor_enabled` and `cockpit` are false and `motor_forward` is true, whatever
the controller was before. -/
theorem resetState_fields (c : ETCController) :
    getMBBAlive (resetState c) = 0 ∧ getHE1Read (resetState c) = 0 ∧
    getHE2Read (resetState c) = 0 ∧ getHE1Travel (resetState c) = 0 ∧
    getHE2Travel (resetState c) = 0 ∧ getPedalTravel (resetState c) = 0 ∧
    getBrakes (resetState c) = 0 ∧ getTorqueDemand (resetState c) = 0 ∧
    isTSReady (resetState c) = false ∧ isMotorEnabled (resetState c) = false ∧
    isCockpit (resetState c) = false ∧ isMotorForward (resetState c) = true :=
  ⟨rfl, rfl, rfl, rfl, rfl, rfl, rfl, rfl, rfl, rfl, rfl, rfl⟩

theorem updateMBBAlive_iterate (n : Nat) (c : ETCController) :
    (updateMBBAlive^[n + 1] c).state.mbb_alive = (c.state.mbb_alive + n + 1) % 16 := by
  induction n generalizing c with
  | zero => rfl
  | succ n ih =>
    rw [Function.iterate_succ_apply, ih]
    show ((c.state.mbb_alive + 1) % 16 + n + 1) % 16 = (c.state.mbb_alive + (n + 1) + 1) % 16
    omega

theorem TestUpdateMbbAliveLoop_passes (n passed : Nat) (c : ETCController)
    (h : c.state.mbb_alive + n ≤ 15) :
    TestUpdateMbbAliveLoop updateMBBAlive n passed c = (passed + n, updateMBBAlive^[n] c) := by
  induction n generalizing passed c with
  | zero => rfl
  | succ n ih =>
    have hstep : (updateMBBAlive c).state.mbb_alive = c.state.mbb_alive + 1 := by
      show (c.state.mbb_alive + 1) % 16 = c.state.mbb_alive + 1
      omega
    have hcond : getMBBAlive (updateMBBAlive c) % 2 ^ 8 = getMBBAlive c % 2 ^ 8 + 1 := by
      show (updateMBBAlive c).state.mbb_alive % 2 ^ 8 = c.state.mbb_alive % 2 ^ 8 + 1
      rw [hstep]
      omega
    rw [TestUpdateMbbAliveLoop, if_pos hcond, ih (passed + 1) (updateMBBAlive c) (by omega),
      Function.iterate_succ_apply]
    congr 1
    omega

/-- C13: for every controller, `updateMBBAlive` replaces `mbb_alive` by
`(mbb_alive + 1) mod 16` and changes no other field of the state or of the controller. So,
starting from 0, the counter reads `n` after `n` calls for `1 ≤ n ≤ 15` and reads 0 again
after exactly 16 calls: the first fifteen assertions `next == curr + 1` of
`TestUpdateMbbAlive` hold and the call after them returns the counter to 0. That test,
whose loop makes a sixteenth assertion, is not among the tests that `run_all_tests`
runs. -/
theorem updateMBBAlive_cycle (c : ETCController) :
    (updateMBBAlive c).state = { c.state with mbb_alive := (c.state.mbb_alive + 1) % 16 } ∧
    (updateMBBAlive c).t_mismatch_start = c.t_mismatch_start ∧
    (updateMBBAlive c).rtds_pin = c.rtds_pin ∧
    (updateMBBAlive c).rtds_timer = c.rtds_timer ∧
    getMBBAlive (updateMBBAlive c) = (getMBBAlive c + 1) % 16 ∧
    (c.state.mbb_alive = 0 →
      (∀ n, 1 ≤ n → n ≤ 15 → getMBBAlive (updateMBBAlive^[n] c) = n) ∧
      getMBBAlive (updateMBBAlive^[16] c) = 0 ∧
      (TestUpdateMbbAliveLoop updateMBBAlive 15 0 c).1 = 15 ∧
      getMBBAlive (updateMBBAlive (TestUpdateMbbAliveLoop updateMBBAlive 15 0 c).2) = 0) ∧
    "TestUpdateMbbAlive" ∉ run_all_tests := by
  refine ⟨rfl, rfl, rfl, rfl, rfl, ?_, by decide⟩
  intro h0
  have h16 : getMBBAlive (updateMBBAlive^[16] c) = 0 := by
    show (updateMBBAlive^[15 + 1] c).state.mbb_alive = 0
    rw [updateMBBAlive_iterate, h0]
  refine ⟨?_, h16, ?_, ?_⟩
  · intro n h1 h15
    obtain ⟨m, rfl⟩ : ∃ m, n = m + 1 := ⟨n - 1, by omega⟩
    show (updateMBBAlive^[m + 1] c).state.mbb_alive = m + 1
    rw [updateMBBAlive_iterate, h0]
    omega
  · rw [TestUpdateMbbAliveLoop_passes 15 0 c (by omega)]
  · rw [TestUpdateMbbAliveLoop_passes 15 0 c (by omega)]
    show getMBBAlive (updateMBBAlive (updateMBBAlive^[15] c)) = 0
    rw [← Function.iterate_succ_apply' updateMBBAlive 15 c]
    exact h16

/-- Witness for C13 at a controller just reset. -/
theorem updateMBBAlive_cycle_witness :
    (resetState sampleEnabled).state.mbb_alive = 0 ∧
    getMBBAlive (updateMBBAlive^[15] (resetState sampleEnabled)) = 15 ∧
    getMBBAlive (updateMBBAlive^[16] (resetState sampleEnabled)) = 0 :=
  ⟨rfl,
   ((updateMBBAlive_cycle (resetState sampleEnabled)).2.2.2.2.2.1 rfl).1 15 (by decide)
     (by decide),
   ((updateMBBAlive_cycle (resetState sampleEnabled)).2.2.2.2.2.1 rfl).2.1⟩

/-- The test `TestUpdateMbbAlive`, which `run_all_tests` does not run, does not hold of
this `updateMBBAlive`: its loop asserts `next == curr + 1` on sixteen successive calls, and
the sixteenth call takes the counter from 15 to 0. -/
theorem TestUpdateMbbAlive_fails (c : ETCController) :
    TestUpdateMbbAlive updateMBBAlive (resetState c) = false ∧
    (TestUpdateMbbAliveLoop updateMBBAlive 16 0 (resetState c)).1 = 15 := by
  constructor <;>
    simp [TestUpdateMbbAlive, TestUpdateMbbAliveLoop, updateMBBAlive, getMBBAlive, resetState,
      resetValue]

end ETCController

/-! ## Console input -/

namespace Console

theorem take_set_self (l : List Nat) (n a : Nat) : (l.set n a).take n = l.take n := by
  apply List.ext_getElem?
  intro i
  by_cases h : i < n
  · have hne : n ≠ i := by omega
    simp [List.getElem?_take, h, List.getElem?_set_ne hne]
  · simp [List.getElem?_take, h]

/-- C15: `Console::Read` returns true exactly when a character was available and it is a
line feed (10) or a carriage return (13), and then the buffer and the count of buffered
characters are unchanged. On a backspace (8) or a delete (127) the last buffered character
is removed when the buffer is non-empty (the count drops by one and the freed byte is
zeroed) and an empty buffer is left as it is. None of these four characters is appended:
the count does not grow and every byte of the buffer keeps its value or becomes 0. -/
theorem Read_control_characters (con : Console) (received : Option Nat) :
    ((Read con received).1 = true ↔ ∃ c, received = some c ∧ (c = 10 ∨ c = 13)) ∧
    ((Read con received).1 = true →
      (Read con received).2.input_buffer = con.input_buffer ∧
      (Read con received).2.characters_read = con.characters_read) ∧
    (∀ c, received = some c → (c = 8 ∨ c = 127) →
      (0 < con.characters_read →
        (Read con received).2.characters_read = con.characters_read - 1 ∧
        (Read con received).2.input_buffer =
          con.input_buffer.set (con.characters_read - 1) 0 ∧
        line (Read con received).2 = con.input_buffer.take (con.characters_read - 1)) ∧
      (con.characters_read = 0 → (Read con received).2 = con)) ∧
    (∀ c, received = some c → (c = 10 ∨ c = 13 ∨ c = 8 ∨ c = 127) →
      (Read con received).2.characters_read ≤ con.characters_read ∧
      ∀ i : Nat, (Read con received).2.input_buffer[i]? = con.input_buffer[i]? ∨
        (Read con received).2.input_buffer[i]? = some 0) := by
  refine ⟨?_, ?_, ?_, ?_⟩
  · cases received with
    | none => simp [Read]
    | some c =>
      by_cases h1 : c = 10 ∨ c = 13
      · simp [Read, h1]
      · simp only [Read, h1, if_false]
        split_ifs <;> simp [h1]
  · cases received with
    | none => simp [Read]
    | some c =>
      by_cases h1 : c = 10 ∨ c = 13
      · simp [Read, h1]
      · simp only [Read, h1, if_false]
        split_ifs <;> simp
  · intro c hc h2
    subst hc
    have h1 : ¬ (c = 10 ∨ c = 13) := by omega
    refine ⟨?_, ?_⟩
    · intro hpos
      have hgt : con.characters_read > 0 := hpos
      refine ⟨?_, ?_, ?_⟩
      · simp [Read, h1, h2, hgt]
      · simp [Read, h1, h2, hgt]
      · simp only [Read, h1, h2, hgt, if_false, if_true, line]
        exact take_set_self _ _ _
    · intro hzero
      have hnot : ¬ con.characters_read > 0 := by omega
      simp [Read, h1, h2, hnot]
  · intro c hc h4
    subst hc
    by_cases h1 : c = 10 ∨ c = 13
    · simp [Read, h1]
    · have h2 : c = 8 ∨ c = 127 := by omega
      by_cases hpos : con.characters_read > 0
      · simp only [Read, h1, h2, hpos, if_false, if_true]
        refine ⟨Nat.sub_le _ _, fun i => ?_⟩
        by_cases hi : con.characters_read - 1 = i
        · by_cases hlen : i < con.input_buffer.length
          · right
            subst hi
            simp [List.getElem?_set_self, hlen]
          · left
            rw [List.getElem?_eq_none (by simpa using hlen),
              List.getElem?_eq_none (by simpa using hlen)]
        · left
          rw [List.getElem?_set_ne hi]
      · simp [Read, h1, h2, hpos]

end Console

/-! ## CAN event dispatch -/

/-- C16: in one pass of the loop of `do_can_processing`, for every value returned by the
flag wait, each of the four handlers runs exactly once when its flag has a bit set in that
value and not at all otherwise; a handler that runs is directly followed by the clearing
of its flag, and no wait occurs inside the pass, so every serviced flag is cleared before
the next wait, which opens the next pass. -/
theorem dispatch_flags_exact (F : CanFlags) (triggered_flags : Nat) :
    (dispatch_flags F triggered_flags).count CanAction.sendThrottle =
      (if triggered_flags &&& F.THROTTLE_FLAG ≠ 0 then 1 else 0) ∧
    (dispatch_flags F triggered_flags).count CanAction.sendState =
      (if triggered_flags &&& F.STATE_FLAG ≠ 0 then 1 else 0) ∧
    (dispatch_flags F triggered_flags).count CanAction.sendSync =
      (if triggered_flags &&& F.SYNC_FLAG ≠ 0 then 1 else 0) ∧
    (dispatch_flags F triggered_flags).count CanAction.processCANRx =
      (if triggered_flags &&& F.RX_FLAG ≠ 0 then 1 else 0) ∧
    (triggered_flags &&& F.THROTTLE_FLAG ≠ 0 →
      [CanAction.sendThrottle, CanAction.clear F.THROTTLE_FLAG] <:+:
        dispatch_flags F triggered_flags) ∧
    (triggered_flags &&& F.STATE_FLAG ≠ 0 →
      [CanAction.sendState, CanAction.clear F.STATE_FLAG] <:+:
        dispatch_flags F triggered_flags) ∧
    (triggered_flags &&& F.SYNC_FLAG ≠ 0 →
      [CanAction.sendSync, CanAction.clear F.SYNC_FLAG] <:+:
        dispatch_flags F triggered_flags) ∧
    (triggered_flags &&& F.RX_FLAG ≠ 0 →
      [CanAction.processCANRx, CanAction.clear F.RX_FLAG] <:+:
        dispatch_flags F triggered_flags) ∧
    (∀ a ∈ dispatch_flags F triggered_flags, ∀ flags, a ≠ CanAction.wait_any flags) ∧
    (∀ rest, do_can_processing F (triggered_flags :: rest) =
      CanAction.wait_any (F.THROTTLE_FLAG ||| F.STATE_FLAG ||| F.SYNC_FLAG ||| F.RX_FLAG) ::
        (dispatch_flags F triggered_flags ++ do_can_processing F rest)) := by
  refine ⟨?_, ?_, ?_, ?_, ?_, ?_, ?_, ?_, ?_, fun rest => rfl⟩
  · by_cases h1 : triggered_flags &&& F.THROTTLE_FLAG = 0 <;>
    by_cases h2 : triggered_flags &&& F.STATE_FLAG = 0 <;>
    by_cases h3 : triggered_flags &&& F.SYNC_FLAG = 0 <;>
    by_cases h4 : triggered_flags &&& F.RX_FLAG = 0 <;>
    simp [dispatch_flags, h1, h2, h3, h4]
  · by_cases h1 : triggered_flags &&& F.THROTTLE_FLAG = 0 <;>
    by_cases h2 : triggered_flags &&& F.STATE_FLAG = 0 <;>
    by_cases h3 : triggered_flags &&& F.SYNC_FLAG = 0 <;>
    by_cases h4 : triggered_flags &&& F.RX_FLAG = 0 <;>
    simp [dispatch_flags, h1, h2, h3, h4]
  · by_cases h1 : triggered_flags &&& F.THROTTLE_FLAG = 0 <;>
    by_cases h2 : triggered_flags &&& F.STATE_FLAG = 0 <;>
    by_cases h3 : triggered_flags &&& F.SYNC_FLAG = 0 <;>
    by_cases h4 : triggered_flags &&& F.RX_FLAG = 0 <;>
    simp [dispatch_flags, h1, h2, h3, h4]
  · by_cases h1 : triggered_flags &&& F.THROTTLE_FLAG = 0 <;>
    by_cases h2 : triggered_flags &&& F.STATE_FLAG = 0 <;>
    by_cases h3 : triggered_flags &&& F.SYNC_FLAG = 0 <;>
    by_cases h4 : triggered_flags &&& F.RX_FLAG = 0 <;>
    simp [dispatch_flags, h1, h2, h3, h4]
  · intro h
    refine ⟨[], (if triggered_flags &&& F.STATE_FLAG ≠ 0 then
        [CanAction.sendState, CanAction.clear F.STATE_FLAG] else []) ++
      (if triggered_flags &&& F.SYNC_FLAG ≠ 0 then
        [CanAction.sendSync, CanAction.clear F.SYNC_FLAG] else []) ++
      (if triggered_flags &&& F.RX_FLAG ≠ 0 then
        [CanAction.processCANRx, CanAction.clear F.RX_FLAG] else []), ?_⟩
    simp only [dispatch_flags, h, if_true, ne_eq, not_false_eq_true, List.nil_append,
      List.append_assoc]
  · intro h
    refine ⟨(if triggered_flags &&& F.THROTTLE_FLAG ≠ 0 then
        [CanAction.sendThrottle, CanAction.clear F.THROTTLE_FLAG] else []),
      (if triggered_flags &&& F.SYNC_FLAG ≠ 0 then
        [CanAction.sendSync, CanAction.clear F.SYNC_FLAG] else []) ++
      (if triggered_flags &&& F.RX_FLAG ≠ 0 then
        [CanAction.processCANRx, CanAction.clear F.RX_FLAG] else []), ?_⟩
    simp only [dispatch_flags, h, if_true, ne_eq, not_false_eq_true, List.append_assoc]
  · intro h
    refine ⟨(if triggered_flags &&& F.THROTTLE_FLAG ≠ 0 then
        [CanAction.sendThrottle, CanAction.clear F.THROTTLE_FLAG] else []) ++
      (if triggered_flags &&& F.STATE_FLAG ≠ 0 then
        [CanAction.sendState, CanAction.clear F.STATE_FLAG] else []),
      (if triggered_flags &&& F.RX_FLAG ≠ 0 then
        [CanAction.processCANRx, CanAction.clear F.RX_FLAG] else []), ?_⟩
    simp only [dispatch_flags, h, if_true, ne_eq, not_false_eq_true, List.append_assoc]
  · intro h
    refine ⟨(if triggered_flags &&& F.THROTTLE_FLAG ≠ 0 then
        [CanAction.sendThrottle, CanAction.clear F.THROTTLE_FLAG] else []) ++
      (if triggered_flags &&& F.STATE_FLAG ≠ 0 then
        [CanAction.sendState, CanAction.clear F.STATE_FLAG] else []) ++
      (if triggered_flags &&& F.SYNC_FLAG ≠ 0 then
        [CanAction.sendSync, CanAction.clear F.SYNC_FLAG] else []), [], ?_⟩
    simp only [dispatch_flags, h, if_true, ne_eq, not_false_eq_true, List.append_assoc,
      List.append_nil]
  · intro a ha flags heq
    subst heq
    revert ha
    simp only [dispatch_flags]
    split_ifs <;> simp

/-! ## Bit-level facts used by `read_mantissa` and `read_coefficient` -/

theorem not32_eq (v : Nat) (hv : v < 2 ^ 32) : not32 v = 2 ^ 32 - (v + 1) := by
  unfold not32
  apply Nat.eq_of_testBit_eq
  intro i
  have h : (0xFFFFFFFF : Nat) = 2 ^ 32 - 1 := by norm_num
  rw [h, Nat.testBit_xor, Nat.testBit_two_pow_sub_one, Nat.testBit_two_pow_sub_succ hv]
  by_cases hi : i < 32
  · simp [hi]
  · have hlt : v < 2 ^ i :=
      lt_of_lt_of_le hv (Nat.pow_le_pow_right (by norm_num) (by omega))
    simp [hi, Nat.testBit_lt_two_pow hlt]

theorem two_pow_split (n : Nat) (hn : n ≤ 32) : ∃ q, 2 ^ 32 = 2 ^ n * (q + 1) := by
  refine ⟨2 ^ (32 - n) - 1, ?_⟩
  have hpos : 0 < 2 ^ (32 - n) := by positivity
  have h : 2 ^ (32 - n) - 1 + 1 = 2 ^ (32 - n) := by omega
  rw [h, ← Nat.pow_add]
  congr 1
  omega

theorem not32_and_mask (v n : Nat) (hn : n ≤ 32) (hv : v < 2 ^ n) :
    not32 v &&& (2 ^ n - 1) = 2 ^ n - (v + 1) := by
  have hv32 : v < 2 ^ 32 := lt_of_lt_of_le hv (Nat.pow_le_pow_right (by norm_num) hn)
  obtain ⟨q, hq⟩ := two_pow_split n hn
  rw [Nat.and_pow_two_sub_one_eq_mod, not32_eq v hv32, hq]
  have h : 2 ^ n * (q + 1) - (v + 1) = (2 ^ n - (v + 1)) + 2 ^ n * q := by
    rw [Nat.mul_add, Nat.mul_one]
    omega
  rw [h, Nat.add_mul_mod_self_left]
  exact Nat.mod_eq_of_lt (by omega)

theorem neg_not32_and_mask (v n : Nat) (hn : n ≤ 32) (hv : v < 2 ^ n) (hpos : 0 < v) :
    ((not32 v + 1) % 2 ^ 32) &&& (2 ^ n - 1) = 2 ^ n - v := by
  have hv32 : v < 2 ^ 32 := lt_of_lt_of_le hv (Nat.pow_le_pow_right (by norm_num) hn)
  obtain ⟨q, hq⟩ := two_pow_split n hn
  rw [Nat.and_pow_two_sub_one_eq_mod, not32_eq v hv32]
  have h1 : (2 ^ 32 - (v + 1) + 1) % 2 ^ 32 = 2 ^ 32 - v := by
    have : 2 ^ 32 - (v + 1) + 1 = 2 ^ 32 - v := by omega
    rw [this]
    exact Nat.mod_eq_of_lt (by omega)
  rw [h1, hq]
  have h : 2 ^ n * (q + 1) - v = (2 ^ n - v) + 2 ^ n * q := by
    rw [Nat.mul_add, Nat.mul_one]
    omega
  rw [h, Nat.add_mul_mod_self_left]
  exact Nat.mod_eq_of_lt (by omega)

theorem or_two_pow_of_lt (x j : Nat) (hx : x < 2 ^ j) : x ||| 2 ^ j = x + 2 ^ j := by
  have h := Nat.mul_add_lt_is_or hx 1
  rw [Nat.mul_one] at h
  rw [Nat.or_comm, ← h, Nat.add_comm]

theorem and_two_pow_eq_zero_iff (x j : Nat) (hx : x < 2 ^ (j + 1)) :
    x &&& 2 ^ j = 0 ↔ x < 2 ^ j := by
  rw [Nat.and_two_pow]
  constructor
  · intro h
    by_contra hge
    have hle : 2 ^ j ≤ x := by omega
    obtain ⟨y, hy⟩ : ∃ y, x = 2 ^ j + y := ⟨x - 2 ^ j, by omega⟩
    have hylt : y < 2 ^ j := by
      rw [Nat.pow_succ] at hx
      omega
    have hbit : x.testBit j = true := by
      rw [hy, Nat.testBit_two_pow_add_eq, Nat.testBit_lt_two_pow hylt]
      rfl
    rw [hbit] at h
    have hpos : 0 < 2 ^ j := by positivity
    simp at h
  · intro h
    rw [Nat.testBit_lt_two_pow h]
    simp

theorem and_not32_two_pow (x j : Nat) (hj : j < 32) (hlo : 2 ^ j ≤ x) (hx : x < 2 ^ (j + 1)) :
    x &&& not32 (2 ^ j) = x - 2 ^ j := by
  obtain ⟨y, hy⟩ : ∃ y, x = 2 ^ j + y := ⟨x - 2 ^ j, by omega⟩
  have hylt : y < 2 ^ j := by
    rw [Nat.pow_succ] at hx
    omega
  have hsub : x - 2 ^ j = y := by omega
  rw [hsub]
  unfold not32
  have h : (0xFFFFFFFF : Nat) = 2 ^ 32 - 1 := by norm_num
  rw [h]
  apply Nat.eq_of_testBit_eq
  intro i
  rw [Nat.testBit_and, Nat.testBit_xor, Nat.testBit_two_pow_sub_one, Nat.testBit_two_pow]
  rcases Nat.lt_trichotomy i j with hlt | heq | hgt
  · have hne : ¬ j = i := by omega
    have hi32 : i < 32 := by omega
    rw [hy, Nat.testBit_two_pow_add_gt hlt]
    simp [hne, hi32]
  · subst heq
    simp [hj, Nat.testBit_lt_two_pow hylt]
  · have hxi : x < 2 ^ i :=
      lt_of_lt_of_le hx (Nat.pow_le_pow_right (by norm_num) (by omega))
    have hyi : y < 2 ^ i :=
      lt_of_lt_of_le hylt (Nat.pow_le_pow_right (by norm_num) (by omega))
    simp [Nat.testBit_lt_two_pow hxi, Nat.testBit_lt_two_pow hyi]

/-! ## The mantissa split of `read_mantissa` -/

theorem get_x_local_size_of_bits (d : FS3.Divider) (k : Nat)
    (hbits : Divider.get_num_interval_bits d = Except.ok k) (hk : k ≤ 8) :
    Divider.get_x_local_size d = Except.ok (23 - k) := by
  simp only [Divider.get_x_local_size, hbits, DIVIDER_MANTISSA_SIZE, bind, Except.bind, pure,
    Except.pure]
  congr 1
  omega

theorem neg_branch_arith (f P Q : Nat) (hQ : Q = 2 * P) (hf : f < P) (hQ32 : Q ≤ 2 ^ 32) :
    f + P < Q ∧ (Q - (f + P + 1) + 1) % 2 ^ 32 = P - f := by
  constructor
  · omega
  · rw [Nat.mod_eq_of_lt (by omega)]
    omega

theorem read_mantissa_eq (d : FS3.Divider) (k : Nat)
    (hbits : Divider.get_num_interval_bits d = Except.ok k) (hk : k ≤ 8) (m : Nat) :
    Divider.read_mantissa d m =
      Except.ok (m / 2 ^ (23 - k) % 2 ^ k, decide (m % 2 ^ (23 - k) < 2 ^ (22 - k)),
        if m % 2 ^ (23 - k) < 2 ^ (22 - k) then 2 ^ (22 - k) - m % 2 ^ (23 - k)
        else m % 2 ^ (23 - k) - 2 ^ (22 - k)) := by
  have hxs : 23 - k = (22 - k) + 1 := by omega
  have hflt : m % 2 ^ (23 - k) < 2 ^ ((22 - k) + 1) := by
    rw [← hxs]
    exact Nat.mod_lt _ (by positivity)
  have hidx : ((m >>> (23 - k)) &&& ((1 <<< k) - 1)) % 2 ^ 8 = m / 2 ^ (23 - k) % 2 ^ k := by
    rw [Nat.one_shiftLeft, Nat.and_pow_two_sub_one_eq_mod, Nat.shiftRight_eq_div_pow]
    apply Nat.mod_eq_of_lt
    have h1 : m / 2 ^ (23 - k) % 2 ^ k < 2 ^ k := Nat.mod_lt _ (by positivity)
    have h2 : 2 ^ k ≤ 2 ^ 8 := Nat.pow_le_pow_right (by norm_num) hk
    omega
  simp only [Divider.read_mantissa, hbits, get_x_local_size_of_bits d k hbits hk, bind,
    Except.bind, pure, Except.pure, hidx]
  have hsub : 23 - k - 1 = 22 - k := by omega
  rw [hsub, Nat.one_shiftLeft, Nat.one_shiftLeft, Nat.and_pow_two_sub_one_eq_mod]
  by_cases hneg : m % 2 ^ (23 - k) < 2 ^ (22 - k)
  · have hzero : m % 2 ^ (23 - k) &&& 2 ^ (22 - k) = 0 :=
      (and_two_pow_eq_zero_iff _ _ hflt).mpr hneg
    have hor := or_two_pow_of_lt _ _ hneg
    have h32 : 2 ^ (23 - k) ≤ 2 ^ 32 := Nat.pow_le_pow_right (by norm_num) (by omega)
    have hpow : 2 ^ (23 - k) = 2 * 2 ^ (22 - k) := by
      rw [hxs, Nat.pow_succ, Nat.mul_comm]
    obtain ⟨hvlt, hval⟩ := neg_branch_arith _ _ _ hpow hneg h32
    have hmask := not32_and_mask (m % 2 ^ (23 - k) + 2 ^ (22 - k)) (23 - k) (by omega) hvlt
    simp only [hzero, hneg, hor, hmask, hval, beq_self_eq_true, if_true, decide_True]
  · have hnz : ¬ (m % 2 ^ (23 - k) &&& 2 ^ (22 - k) = 0) := by
      rw [and_two_pow_eq_zero_iff _ _ hflt]
      exact hneg
    have hclr := and_not32_two_pow (m % 2 ^ (23 - k)) (22 - k) (by omega) (by omega) hflt
    have hbeq : (m % 2 ^ (23 - k) &&& 2 ^ (22 - k) == 0) = false := by
      simpa using hnz
    simp only [hbeq, hneg, hclr, if_false, decide_False, Bool.false_eq_true]

theorem testBit_eq_false_iff_mod_lt (m j : Nat) :
    m.testBit j = false ↔ m % 2 ^ (j + 1) < 2 ^ j := by
  have hlt : m % 2 ^ (j + 1) < 2 ^ (j + 1) := Nat.mod_lt _ (by positivity)
  have h := and_two_pow_eq_zero_iff (m % 2 ^ (j + 1)) j hlt
  rw [Nat.and_two_pow, Nat.testBit_mod_two_pow] at h
  have hpos : 0 < 2 ^ j := by positivity
  rw [← h]
  cases m.testBit j
  · simp
  · simp

theorem div_two_pow_lt (m k : Nat) (hk : k ≤ 23) (hm : m < 2 ^ 23) :
    m / 2 ^ (23 - k) < 2 ^ k := by
  rw [Nat.div_lt_iff_lt_mul (by positivity), ← Nat.pow_add]
  have h : k + (23 - k) = 23 := by omega
  rw [h]
  exact hm

/-- C17: for a table depth `N = 2^k` with `1 ≤ k ≤ 7` (a power of two between 2 and 128)
on a table of `N` rows, and every 23-bit mantissa `m`, `read_mantissa` sets `lut_index` to
the top `k` bits of `m`, that is `m >> (23 - k)`; it is below `N`, so the row that
`approximate` looks up exists. -/
theorem read_mantissa_lut_index (d : FS3.Divider) (k : Nat) (hk1 : 1 ≤ k) (hk7 : k ≤ 7)
    (hdepth : d.table_depth = 2 ^ k) (hlen : d.lookup_table.length = d.table_depth)
    (m : Nat) (hm : m < 2 ^ 23) :
    ∃ s_local x_local,
      Divider.read_mantissa d m = Except.ok (m >>> (23 - k), s_local, x_local) ∧
      m >>> (23 - k) < d.table_depth ∧
      ∃ row, d.lookup_table[m >>> (23 - k)]? = some row := by
  have hbits := get_num_interval_bits_two_pow d k hk7 hdepth
  have hlt : m / 2 ^ (23 - k) < 2 ^ k := div_two_pow_lt m k (by omega) hm
  have hidx : m / 2 ^ (23 - k) % 2 ^ k = m >>> (23 - k) := by
    rw [Nat.shiftRight_eq_div_pow]
    exact Nat.mod_eq_of_lt hlt
  have hlt2 : m >>> (23 - k) < d.lookup_table.length := by
    rw [hlen, hdepth, Nat.shiftRight_eq_div_pow]
    exact hlt
  have hrm := read_mantissa_eq d k hbits (by omega) m
  rw [hidx] at hrm
  exact ⟨_, _, hrm, by rw [← hlen]; exact hlt2, _, List.getElem?_eq_getElem hlt2⟩

/-- Witness for C17 at the sample divider (`N = 2`, `k = 1`) and the mantissa of
`3.1415927`. -/
theorem read_mantissa_lut_index_witness :
    sampleDivider.table_depth = 2 ^ 1 ∧
    sampleDivider.lookup_table.length = sampleDivider.table_depth ∧
    0x490FDB < 2 ^ 23 ∧
    ∃ s_local x_local,
      Divider.read_mantissa sampleDivider 0x490FDB =
        Except.ok (0x490FDB >>> (23 - 1), s_local, x_local) ∧
      0x490FDB >>> (23 - 1) < sampleDivider.table_depth ∧
      ∃ row, sampleDivider.lookup_table[0x490FDB >>> (23 - 1)]? = some row :=
  ⟨by decide, by decide, by decide,
   read_mantissa_lut_index sampleDivider 1 (by decide) (by decide) (by decide) (by decide)
     0x490FDB (by decide)⟩

/-- C18: with `k` interval bits (`1 ≤ k ≤ 7`), `mask = 2^(23-k) - 1` and
`field = m & mask` for a 23-bit mantissa `m`: when bit `22 - k` of `m` is 0,
`read_mantissa` returns `s_local = true` and `x_local = ((~v) + 1) & mask` with `v` the
field with bit `22 - k` set; when that bit is 1 it returns `s_local = false` and
`x_local` is the field with bit `22 - k` cleared. -/
theorem read_mantissa_fields (d : FS3.Divider) (k : Nat)
    (hbits : Divider.get_num_interval_bits d = Except.ok k) (hk1 : 1 ≤ k) (hk7 : k ≤ 7)
    (m : Nat) :
    ∃ lut_index s_local x_local,
      Divider.read_mantissa d m = Except.ok (lut_index, s_local, x_local) ∧
      (m.testBit (22 - k) = false →
        s_local = true ∧
        x_local = ((not32 ((m &&& (2 ^ (23 - k) - 1)) ||| 2 ^ (22 - k)) + 1) % 2 ^ 32) &&&
          (2 ^ (23 - k) - 1)) ∧
      (m.testBit (22 - k) = true →
        s_local = false ∧
        x_local = (m &&& (2 ^ (23 - k) - 1)) &&& not32 (2 ^ (22 - k))) := by
  have hxs : 23 - k = (22 - k) + 1 := by omega
  have hflt : m % 2 ^ (23 - k) < 2 ^ ((22 - k) + 1) := by
    rw [← hxs]
    exact Nat.mod_lt _ (by positivity)
  have hbit := testBit_eq_false_iff_mod_lt m (22 - k)
  rw [← hxs] at hbit
  have hpow : 2 ^ (23 - k) = 2 * 2 ^ (22 - k) := by
    rw [hxs, Nat.pow_succ, Nat.mul_comm]
  refine ⟨_, _, _, read_mantissa_eq d k hbits (by omega) m, ?_, ?_⟩
  · intro h0
    have hneg : m % 2 ^ (23 - k) < 2 ^ (22 - k) := hbit.mp h0
    have hpos : 0 < 2 ^ (22 - k) := by positivity
    have h32 : 2 ^ (23 - k) ≤ 2 ^ 32 := Nat.pow_le_pow_right (by norm_num) (by omega)
    have hvlt : m % 2 ^ (23 - k) + 2 ^ (22 - k) < 2 ^ (23 - k) :=
      (neg_branch_arith _ _ _ hpow hneg h32).1
    have hand : m &&& (2 ^ (23 - k) - 1) = m % 2 ^ (23 - k) :=
      Nat.and_pow_two_sub_one_eq_mod _ _
    refine ⟨by simp [hneg], ?_⟩
    rw [hand, or_two_pow_of_lt _ _ hneg,
      neg_not32_and_mask _ (23 - k) (by omega) hvlt (by omega), if_pos hneg]
    generalize m % 2 ^ (23 - k) = f at hneg hvlt ⊢
    generalize 2 ^ (23 - k) = Q at hpow hvlt ⊢
    generalize 2 ^ (22 - k) = P at hpow hvlt hneg ⊢
    omega
  · intro h1
    have hge : ¬ m % 2 ^ (23 - k) < 2 ^ (22 - k) := by
      intro hlt
      rw [hbit.mpr hlt] at h1
      cases h1
    have hand : m &&& (2 ^ (23 - k) - 1) = m % 2 ^ (23 - k) :=
      Nat.and_pow_two_sub_one_eq_mod _ _
    refine ⟨by simp [hge], ?_⟩
    rw [hand, and_not32_two_pow _ (22 - k) (by omega) (by omega) hflt, if_neg hge]

/-- Witness for C18 at the sample divider (`k = 1`) and the mantissa of `3.1415927`. -/
theorem read_mantissa_fields_witness :
    Divider.get_num_interval_bits sampleDivider = Except.ok 1 ∧ 1 ≤ 1 ∧ 1 ≤ 7 ∧
    ∃ lut_index s_local x_local,
      Divider.read_mantissa sampleDivider 0x490FDB =
        Except.ok (lut_index, s_local, x_local) ∧
      (Nat.testBit 0x490FDB (22 - 1) = false →
        s_local = true ∧
        x_local = ((not32 ((0x490FDB &&& (2 ^ (23 - 1) - 1)) ||| 2 ^ (22 - 1)) + 1) %
          2 ^ 32) &&& (2 ^ (23 - 1) - 1)) ∧
      (Nat.testBit 0x490FDB (22 - 1) = true →
        s_local = false ∧
        x_local = (0x490FDB &&& (2 ^ (23 - 1) - 1)) &&& not32 (2 ^ (22 - 1))) :=
  ⟨by decide, by decide, by decide,
   read_mantissa_fields sampleDivider 1 (by decide) (by decide) (by decide) 0x490FDB⟩

/-- C19: with `k` interval bits (`1 ≤ k ≤ 7`), `f = m mod 2^(23-k)` and `h = 2^(22-k)` for a
23-bit mantissa `m`, the outputs of `read_mantissa` satisfy `0 ≤ x_local ≤ h`, the signed
value (`-x_local` when `s_local`, else `x_local`) is `f - h`, and
`m = lut_index * 2^(23-k) + h + (signed value)`: the mantissa is recovered from the
outputs. -/
theorem read_mantissa_signed_offset (d : FS3.Divider) (k : Nat)
    (hbits : Divider.get_num_interval_bits d = Except.ok k) (hk1 : 1 ≤ k) (hk7 : k ≤ 7)
    (m : Nat) (hm : m < 2 ^ 23) :
    ∃ lut_index s_local x_local,
      Divider.read_mantissa d m = Except.ok (lut_index, s_local, x_local) ∧
      x_local ≤ 2 ^ (22 - k) ∧
      (if s_local = true then -(x_local : Int) else (x_local : Int)) =
        ((m % 2 ^ (23 - k) : Nat) : Int) - ((2 ^ (22 - k) : Nat) : Int) ∧
      (m : Int) = ((lut_index * 2 ^ (23 - k) + 2 ^ (22 - k) : Nat) : Int) +
        (if s_local = true then -(x_local : Int) else (x_local : Int)) := by
  have hxs : 23 - k = (22 - k) + 1 := by omega
  have hpow : 2 ^ (23 - k) = 2 * 2 ^ (22 - k) := by
    rw [hxs, Nat.pow_succ, Nat.mul_comm]
  have hflt : m % 2 ^ (23 - k) < 2 ^ (23 - k) := Nat.mod_lt _ (by positivity)
  have hlt : m / 2 ^ (23 - k) < 2 ^ k := div_two_pow_lt m k (by omega) hm
  have hidx : m / 2 ^ (23 - k) % 2 ^ k = m / 2 ^ (23 - k) := Nat.mod_eq_of_lt hlt
  have hdm : m = m / 2 ^ (23 - k) * 2 ^ (23 - k) + m % 2 ^ (23 - k) :=
    (Nat.div_add_mod' m _).symm
  refine ⟨_, _, _, read_mantissa_eq d k hbits (by omega) m, ?_⟩
  rw [hidx]
  generalize m / 2 ^ (23 - k) * 2 ^ (23 - k) = hi at hdm ⊢
  generalize m % 2 ^ (23 - k) = f at hdm hflt ⊢
  generalize 2 ^ (23 - k) = Q at hpow hflt ⊢
  generalize 2 ^ (22 - k) = P at hpow ⊢
  by_cases hneg : f < P
  · simp only [hneg, if_true, decide_True]
    refine ⟨by omega, by omega, by omega⟩
  · simp only [hneg, if_false, decide_False, Bool.false_eq_true]
    refine ⟨by omega, by omega, by omega⟩

/-- Witness for C19 at the sample divider (`k = 1`) and the mantissa of `3.1415927`. -/
theorem read_mantissa_signed_offset_witness :
    Divider.get_num_interval_bits sampleDivider = Except.ok 1 ∧ 0x490FDB < 2 ^ 23 ∧
    ∃ lut_index s_local x_local,
      Divider.read_mantissa sampleDivider 0x490FDB =
        Except.ok (lut_index, s_local, x_local) ∧
      x_local ≤ 2 ^ (22 - 1) ∧
      (if s_local = true then -(x_local : Int) else (x_local : Int)) =
        ((0x490FDB % 2 ^ (23 - 1) : Nat) : Int) - ((2 ^ (22 - 1) : Nat) : Int) ∧
      ((0x490FDB : Nat) : Int) = ((lut_index * 2 ^ (23 - 1) + 2 ^ (22 - 1) : Nat) : Int) +
        (if s_local = true then -(x_local : Int) else (x_local : Int)) :=
  ⟨by decide, by decide,
   read_mantissa_signed_offset sampleDivider 1 (by decide) (by decide) (by decide) 0x490FDB
     (by decide)⟩

/-! ## Coefficient decoding -/

theorem packed_coefficient_eq (t s b f : Nat) (hb : b < 2 ^ 8) (hf : f < 2 ^ t) :
    (s <<< (DIVIDER_EXPONENT_SIZE + t)) ||| (b <<< t) ||| f = 2 ^ t * (2 ^ 8 * s + b) + f := by
  have hbt : 2 ^ t * b < 2 ^ (8 + t) := by
    rw [Nat.pow_add, Nat.mul_comm (2 ^ 8)]
    exact Nat.mul_lt_mul_of_pos_left hb (by positivity)
  have h1 : s <<< (8 + t) ||| b <<< t = 2 ^ (8 + t) * s + 2 ^ t * b := by
    rw [Nat.shiftLeft_eq, Nat.shiftLeft_eq, Nat.mul_comm s, Nat.mul_comm b]
    exact (Nat.mul_add_lt_is_or hbt s).symm
  have h2 : 2 ^ (8 + t) * s + 2 ^ t * b = 2 ^ t * (2 ^ 8 * s + b) := by
    rw [Nat.pow_add]
    ring
  show (s <<< (8 + t)) ||| (b <<< t) ||| f = _
  rw [h1, h2]
  exact (Nat.mul_add_lt_is_or hf _).symm

/-- C20: for every term size `t ≤ 54`, sign bit `s`, biased exponent `0 ≤ b ≤ 254` and
mantissa field `f < 2^t`, `read_coefficient` applied to the packed word
`(s << (8 + t)) | (b << t) | f` returns the sign `s`, the exponent `b - 127`, and the
mantissa `f + 2^t` when `b > 0` but `f` when `b = 0`: the implied leading one is applied
only for a non-zero biased exponent. -/
theorem read_coefficient_packed (t s b f : Nat) (ht : t ≤ 54) (hs : s ≤ 1) (hb : b ≤ 254)
    (hf : f < 2 ^ t) :
    Divider.read_coefficient ((s <<< (DIVIDER_EXPONENT_SIZE + t)) ||| (b <<< t) ||| f) t =
      Except.ok (decide (s = 1), (b : Int) - 127, if b > 0 then f + 2 ^ t else f) := by
  have hpos : 0 < 2 ^ t := by positivity
  have hword := packed_coefficient_eq t s b f (by norm_num; omega) hf
  have hdiv : (2 ^ t * (2 ^ 8 * s + b) + f) / 2 ^ t = 2 ^ 8 * s + b := by
    rw [Nat.mul_add_div hpos, Nat.div_eq_of_lt hf, Nat.add_zero]
  have hmod : (2 ^ t * (2 ^ 8 * s + b) + f) % 2 ^ t = f := by
    rw [Nat.mul_add_mod, Nat.mod_eq_of_lt hf]
  have hexp : (2 ^ 8 * s + b) % 2 ^ 8 = b := by
    rw [Nat.mul_add_mod]
    exact Nat.mod_eq_of_lt (by norm_num; omega)
  have hsign : (2 ^ t * (2 ^ 8 * s + b) + f) / 2 ^ (8 + t) = s := by
    rw [Nat.add_comm 8 t, Nat.pow_add, ← Nat.div_div_eq_div_mul, hdiv,
      Nat.mul_add_div (by norm_num), Nat.div_eq_of_lt (by norm_num; omega), Nat.add_zero]
  have hguard : ¬ 64 ≤ 8 + t := by omega
  have hbmod : b % 2 ^ 8 = b := Nat.mod_eq_of_lt (by norm_num; omega)
  have h2t : 2 ^ t < 2 ^ 64 := Nat.pow_lt_pow_right (by norm_num) (by omega)
  rw [hword]
  simp only [Divider.read_coefficient, DIVIDER_EXPONENT_SIZE, hguard, if_false,
    Nat.one_shiftLeft, Nat.and_pow_two_sub_one_eq_mod, Nat.shiftRight_eq_div_pow, hdiv,
    hmod, hexp, hsign, Nat.and_one_is_mod, Nat.mod_mod, hbmod]
  have hsignb : (s % 2 != 0) = decide (s = 1) := by
    interval_cases s <;> rfl
  have hexpv : toInt8 ((b : Int) - 127) = (b : Int) - 127 := by
    unfold toInt8
    omega
  rw [hsignb, hexpv]
  by_cases hb0 : b > 0
  · simp only [hb0, if_true, Nat.one_shiftLeft, Nat.mod_eq_of_lt h2t,
      or_two_pow_of_lt f t hf]
  · simp only [hb0, if_false, Nat.zero_shiftLeft, Nat.zero_mod, Nat.or_zero]

/-- Witness for C20 at the single-precision pattern of `-0.16` (0xBE23D70A): term size 23,
sign 1, biased exponent 124, mantissa field 0x23D70A. -/
theorem read_coefficient_packed_witness :
    23 ≤ 54 ∧ 1 ≤ 1 ∧ 124 ≤ 254 ∧ 0x23D70A < 2 ^ 23 ∧
    Divider.read_coefficient
      ((1 <<< (DIVIDER_EXPONENT_SIZE + 23)) ||| (124 <<< 23) ||| 0x23D70A) 23 =
      Except.ok (decide (1 = 1), ((124 : Nat) : Int) - 127,
        if 124 > 0 then 0x23D70A + 2 ^ 23 else 0x23D70A) :=
  ⟨by decide, by decide, by decide, by decide,
   read_coefficient_packed 23 1 124 0x23D70A (by decide) (by decide) (by decide) (by decide)⟩

/-! ## Dependence of the reciprocal's accuracy on the table -/

/-- A relative-error bound for `reciprocal` needs the entries of the table: on the
well-formed two-row table whose constant coefficients are the negated ones of
`sampleTable`, `y_local` wraps modulo `2^64` and the reciprocal of the least normal single
(0x00800000) is `+inf`, while on `sampleTable` it is the finite 0x7E75C28F. -/
theorem reciprocal_overflow_of_negative_constant :
    (∀ row ∈ [[0xBF4CCCCD, 0xBE23D70A], [0xBF124925, 0xBDA72F05]],
      row_well_formed 23 23 22 row = true) ∧
    Divider.reciprocal ⟨[[0xBF4CCCCD, 0xBE23D70A], [0xBF124925, 0xBDA72F05]], 23, 23, 2⟩
      0x00800000 = Except.ok F32_INFINITY ∧
    Divider.reciprocal sampleDivider 0x00800000 = Except.ok 0x7E75C28F := by
  decide

/-! ## Alignment and the stages of `approximate` -/

/-- Counterexample to C22 as stated: `align_mantissa` does not shift left for a negative
difference: with `e_common = 0` and `adjustment = 1` the source evaluates `mantissa << -1`,
a shift by a negative count, which is undefined, where the statement has `1 << 1 = 2`; the
same holds of the right shift for a difference of 64 or more. For a difference from 1 to
63 the mantissa is shifted right by it, and for 0 it is returned as it is. -/
theorem align_mantissa_negative_difference :
    Divider.align_mantissa 1 0 1 = Except.error DividerError.undefined_shift ∧
    Divider.align_mantissa 1 (-128) 127 = Except.error DividerError.undefined_shift ∧
    Divider.align_mantissa 1 64 0 = Except.error DividerError.undefined_shift ∧
    Divider.align_mantissa 12 2 0 = Except.ok 3 ∧
    Divider.align_mantissa 12 5 5 = Except.ok 12 := by
  decide

theorem align_mantissa_eq (m : Nat) (e_common adjustment : Int) :
    Divider.align_mantissa m e_common adjustment =
      if e_common - adjustment < 0 ∨ 64 ≤ e_common - adjustment then
        Except.error DividerError.undefined_shift
      else if e_common - adjustment = 0 then Except.ok (m % 2 ^ 64)
      else Except.ok (m >>> (e_common - adjustment).toNat) := by
  unfold Divider.align_mantissa
  simp only
  by_cases hpos : e_common - adjustment > 0
  · by_cases h64 : e_common - adjustment < 64
    · have h1 : ¬ (e_common - adjustment < 0 ∨ 64 ≤ e_common - adjustment) := by omega
      have h2 : ¬ e_common - adjustment = 0 := by omega
      simp only [hpos, h64, h1, h2, if_true, if_false]
    · have h1 : e_common - adjustment < 0 ∨ 64 ≤ e_common - adjustment := by omega
      simp only [hpos, h64, h1, if_true, if_false]
  · by_cases h0 : 0 ≤ e_common - adjustment
    · have hz : e_common - adjustment = 0 := by omega
      simp [hz]
    · have h1 : e_common - adjustment < 0 ∨ 64 ≤ e_common - adjustment := by omega
      simp only [hpos, h0, h1, if_true, if_false]

/-- C22: for every 64-bit mantissa `m` and every pair `e_common`, `adjustment` whose
difference `e_common - adjustment` is between 0 and 63 (signed 8-bit pairs included),
`align_mantissa` returns `m` shifted right by that difference when it is positive and `m`
itself when it is zero. -/
theorem align_mantissa_in_range (m : Nat) (e_common adjustment : Int) (hm : m < 2 ^ 64)
    (h0 : 0 ≤ e_common - adjustment) (h63 : e_common - adjustment ≤ 63) :
    (0 < e_common - adjustment →
      Divider.align_mantissa m e_common adjustment =
        Except.ok (m >>> (e_common - adjustment).toNat)) ∧
    (e_common - adjustment = 0 → Divider.align_mantissa m e_common adjustment = Except.ok m) ∧
    Divider.align_mantissa m e_common adjustment =
      Except.ok (m / 2 ^ (e_common - adjustment).toNat) := by
  have hrange : ¬ (e_common - adjustment < 0 ∨ 64 ≤ e_common - adjustment) := by omega
  refine ⟨?_, ?_, ?_⟩
  · intro hpos
    rw [align_mantissa_eq, if_neg hrange, if_neg (by omega)]
  · intro hz
    rw [align_mantissa_eq, if_neg hrange, if_pos hz, Nat.mod_eq_of_lt hm]
  · rw [align_mantissa_eq, if_neg hrange]
    by_cases hz : e_common - adjustment = 0
    · rw [if_pos hz, hz, Nat.mod_eq_of_lt hm]
      simp
    · rw [if_neg hz, Nat.shiftRight_eq_div_pow]

/-- Witness for C22 at the mantissa 12 with the differences 2 and 0, and at the signed
8-bit extremes `e_common = 31`, `adjustment = -32` (difference 63). -/
theorem align_mantissa_in_range_witness :
    Divider.align_mantissa 12 2 0 = Except.ok (12 >>> 2) ∧
    Divider.align_mantissa 12 5 5 = Except.ok 12 ∧
    Divider.align_mantissa (2 ^ 64 - 1) 31 (-32) = Except.ok ((2 ^ 64 - 1) / 2 ^ 63) :=
  ⟨(align_mantissa_in_range 12 2 0 (by decide) (by decide) (by decide)).1 (by decide),
   (align_mantissa_in_range 12 5 5 (by decide) (by decide) (by decide)).2.1 (by decide),
   (align_mantissa_in_range (2 ^ 64 - 1) 31 (-32) (by decide) (by decide) (by decide)).2.2⟩

theorem read_coefficient_mantissa_lt (c t : Nat) (s : Bool) (e : Int) (m : Nat)
    (h : Divider.read_coefficient c t = Except.ok (s, e, m)) :
    t ≤ 55 ∧ m < 2 ^ (t + 1) ∧ -128 ≤ e ∧ e ≤ 127 := by
  unfold Divider.read_coefficient at h
  by_cases hg : 64 ≤ DIVIDER_EXPONENT_SIZE + t
  · simp [hg] at h
  · simp only [hg, if_false, Except.ok.injEq, Prod.mk.injEq] at h
    obtain ⟨_, he, hm⟩ := h
    have ht : t ≤ 55 := by
      unfold DIVIDER_EXPONENT_SIZE at hg
      omega
    refine ⟨ht, ?_, ?_, ?_⟩
    · rw [← hm]
      apply Nat.or_lt_two_pow
      · rw [Nat.one_shiftLeft, Nat.and_pow_two_sub_one_eq_mod]
        exact lt_trans (Nat.mod_lt _ (by positivity))
          (Nat.pow_lt_pow_right (by norm_num) (by omega))
      · apply lt_of_le_of_lt (Nat.mod_le _ _)
        split
        · rw [Nat.one_shiftLeft]
          exact Nat.pow_lt_pow_right (by norm_num) (by omega)
        · rw [Nat.zero_shiftLeft]
          positivity
    · rw [← he]
      unfold toInt8
      omega
    · rw [← he]
      unfold toInt8
      omega

theorem approximate_eq_stages (d : FS3.Divider) (lut_index : Nat) (s_local : Bool)
    (x_local x_local_size c0 c1 : Nat)
    (hxs : Divider.get_x_local_size d = Except.ok x_local_size)
    (hrow : d.lookup_table[lut_index]? = some [c0, c1]) :
    Divider.approximate d lut_index s_local x_local =
      (approximate_align_args d x_local_size c0 c1 s_local x_local).bind approximate_sum := by
  simp only [Divider.approximate, hxs, hrow, approximate_align_args, approximate_sum, bind,
    Except.bind, pure, Except.pure]
  cases h0 : Divider.read_coefficient c0 d.constant_term_size with
  | error e => rfl
  | ok r0 =>
    obtain ⟨s0, e0, m0⟩ := r0
    cases h1 : Divider.read_coefficient c1 d.linear_term_size with
    | error e => rfl
    | ok r1 =>
      obtain ⟨s1, e1, m1⟩ := r1
      rfl

theorem approximate_align_args_ok (d : FS3.Divider) (x_local_size c0 c1 : Nat)
    (s_local : Bool) (x_local : Nat) (a : AlignArgs)
    (h : approximate_align_args d x_local_size c0 c1 s_local x_local = Except.ok a) :
    ∃ s0 e0 m0 s1 e1 m1,
      Divider.read_coefficient c0 d.constant_term_size = Except.ok (s0, e0, m0) ∧
      Divider.read_coefficient c1 d.linear_term_size = Except.ok (s1, e1, m1) ∧
      a = { s_m0 := if s0 then -1 else 1
            m0 := m0
            s_m1 := if s1 != s_local then -1 else 1
            m1 := (m1 * x_local) % 2 ^ 64
            adjustment0 := e0
            adjustment1 := toInt8 (e1 - ((x_local_size : Int) - 1))
            e_common := max e0 (toInt8 (e1 - ((x_local_size : Int) - 1))) } := by
  unfold approximate_align_args at h
  cases h0 : Divider.read_coefficient c0 d.constant_term_size with
  | error e => simp [h0, bind, Except.bind] at h
  | ok r0 =>
    obtain ⟨s0, e0, m0⟩ := r0
    cases h1 : Divider.read_coefficient c1 d.linear_term_size with
    | error e => simp [h0, h1, bind, Except.bind] at h
    | ok r1 =>
      obtain ⟨s1, e1, m1⟩ := r1
      simp only [h0, h1, bind, Except.bind, pure, Except.pure, Except.ok.injEq] at h
      exact ⟨s0, e0, m0, s1, e1, m1, rfl, rfl, h.symm⟩

/-- C26: in a call of `approximate` on a row `[c0, c1]`, the two shift amounts
`e_common - adjustment0` and `e_common - adjustment1` passed to `align_mantissa` are
non-negative and one of them is zero; `align_mantissa` therefore never shifts left by a
non-zero amount, and the operand with the larger adjustment is returned unshifted. -/
theorem approximate_shift_amounts (d : FS3.Divider) (x_local_size c0 c1 : Nat)
    (s_local : Bool) (x_local : Nat) (a : AlignArgs)
    (h : approximate_align_args d x_local_size c0 c1 s_local x_local = Except.ok a) :
    0 ≤ a.e_common - a.adjustment0 ∧ 0 ≤ a.e_common - a.adjustment1 ∧
    (a.e_common - a.adjustment0 = 0 ∨ a.e_common - a.adjustment1 = 0) ∧
    (a.adjustment1 ≤ a.adjustment0 →
      Divider.align_mantissa a.m0 a.e_common a.adjustment0 = Except.ok a.m0) ∧
    (a.adjustment0 ≤ a.adjustment1 →
      Divider.align_mantissa a.m1 a.e_common a.adjustment1 = Except.ok a.m1) ∧
    (∀ lut_index, Divider.get_x_local_size d = Except.ok x_local_size →
      d.lookup_table[lut_index]? = some [c0, c1] →
      Divider.approximate d lut_index s_local x_local = approximate_sum a) := by
  obtain ⟨s0, e0, m0, s1, e1, m1, h0, h1, ha⟩ :=
    approximate_align_args_ok d x_local_size c0 c1 s_local x_local a h
  have hm0 := (read_coefficient_mantissa_lt _ _ _ _ _ h0)
  have hm0lt : m0 < 2 ^ 64 :=
    lt_of_lt_of_le hm0.2.1 (Nat.pow_le_pow_right (by norm_num) (by omega))
  have hm1lt : (m1 * x_local) % 2 ^ 64 < 2 ^ 64 := Nat.mod_lt _ (by positivity)
  have hlink : ∀ lut_index, Divider.get_x_local_size d = Except.ok x_local_size →
      d.lookup_table[lut_index]? = some [c0, c1] →
      Divider.approximate d lut_index s_local x_local = approximate_sum a := by
    intro lut_index hxs hrow
    rw [approximate_eq_stages d lut_index s_local x_local x_local_size c0 c1 hxs hrow, h]
    rfl
  refine ⟨?_, ?_, ?_, ?_, ?_, hlink⟩ <;> clear hlink h <;> subst ha <;> simp only <;>
    generalize toInt8 (e1 - ((x_local_size : Int) - 1)) = a1
  · have := le_max_left e0 a1
    omega
  · have := le_max_right e0 a1
    omega
  · rcases max_choice e0 a1 with hc | hc <;> rw [hc] <;> omega
  · intro hle
    rw [max_eq_left hle, align_mantissa_eq, sub_self]
    simp only [lt_self_iff_false, false_or, if_true]
    rw [if_neg (by omega), Nat.mod_eq_of_lt hm0lt]
  · intro hle
    rw [max_eq_right hle, align_mantissa_eq, sub_self]
    simp only [lt_self_iff_false, false_or, if_true]
    rw [if_neg (by omega), Nat.mod_eq_of_lt hm1lt]

/-- Witness for C26 at row 0 of the sample table, with `x_local_size = 22`. -/
theorem approximate_shift_amounts_witness :
    approximate_align_args sampleDivider 22 0x3F4CCCCD 0xBE23D70A true 454693 =
      Except.ok ⟨1, 0xCCCCCD, 1, 0xA3D70A * 454693, -1, -24, -1⟩ ∧
    0 ≤ (-1 : Int) - (-1) ∧ 0 ≤ (-1 : Int) - (-24) ∧
    ((-1 : Int) - (-1) = 0 ∨ (-1 : Int) - (-24) = 0) :=
  ⟨by decide,
   (approximate_shift_amounts sampleDivider 22 0x3F4CCCCD 0xBE23D70A true 454693
      ⟨1, 0xCCCCCD, 1, 0xA3D70A * 454693, -1, -24, -1⟩ (by decide)).1,
   (approximate_shift_amounts sampleDivider 22 0x3F4CCCCD 0xBE23D70A true 454693
      ⟨1, 0xCCCCCD, 1, 0xA3D70A * 454693, -1, -24, -1⟩ (by decide)).2.1,
   (approximate_shift_amounts sampleDivider 22 0x3F4CCCCD 0xBE23D70A true 454693
      ⟨1, 0xCCCCCD, 1, 0xA3D70A * 454693, -1, -24, -1⟩ (by decide)).2.2.1⟩

/-- C28: for a fixed divider, two normal inputs with the same mantissa field, whatever
their signs and exponent fields, give the same `lut_index`, `s_local`, `x_local` and
`y_local` (or the same failure); `y_local_of` is the intermediate from which `reciprocal`
computes its result. -/
theorem y_local_depends_on_mantissa (d : FS3.Divider) (x x2 : Nat)
    (hx : fpclassify x = FPClass.FP_NORMAL) (hx2 : fpclassify x2 = FPClass.FP_NORMAL)
    (hm : manField x = manField x2) :
    y_local_of d x = y_local_of d x2 ∧
    Divider.reciprocal d x = (y_local_of d x).map
      (fun r => copysign (Divider.expand_range (Divider.reduce_range x).1 r.2) x) ∧
    Divider.reciprocal d x2 = (y_local_of d x2).map
      (fun r => copysign (Divider.expand_range (Divider.reduce_range x2).1 r.2) x2) := by
  have hlink : ∀ z, fpclassify z = FPClass.FP_NORMAL →
      Divider.reciprocal d z = (y_local_of d z).map
        (fun r => copysign (Divider.expand_range (Divider.reduce_range z).1 r.2) z) := by
    intro z hz
    rw [reciprocal_normal d z hz]
    simp only [abs_reciprocal, y_local_of, reduce_range_eq]
    cases hrm : Divider.read_mantissa d (manField z) with
    | error e => rfl
    | ok t =>
      obtain ⟨i, s, xl⟩ := t
      cases hap : Divider.approximate d i s xl with
      | error e => simp [bind, Except.bind, Except.map, hap]
      | ok y => simp [bind, Except.bind, Except.map, hap, pure, Except.pure]
  refine ⟨?_, hlink x hx, hlink x2 hx2⟩
  simp only [y_local_of, reduce_range_eq, hm]

/-- Witness for C28 at `3.1415927` (0x40490FDB) and `-0.7853982` (0xBF490FDB), which share
the mantissa field 0x490FDB. -/
theorem y_local_depends_on_mantissa_witness :
    fpclassify 0x40490FDB = FPClass.FP_NORMAL ∧ fpclassify 0xBF490FDB = FPClass.FP_NORMAL ∧
    manField 0x40490FDB = manField 0xBF490FDB ∧
    y_local_of sampleDivider 0x40490FDB = y_local_of sampleDivider 0xBF490FDB :=
  ⟨by decide, by decide, by decide,
   (y_local_depends_on_mantissa sampleDivider 0x40490FDB 0xBF490FDB (by decide) (by decide)
     (by decide)).1⟩

/-! ## The signed sum of `approximate` -/

theorem toInt8_of_range (z : Int) (hlo : -128 ≤ z) (hhi : z ≤ 127) : toInt8 z = z := by
  unfold toInt8
  omega

theorem ceilLog2Aux_le (fuel k n : Nat) : ceilLog2Aux fuel k n ≤ k + fuel := by
  induction fuel generalizing k with
  | zero => simp [ceilLog2Aux]
  | succ f ih =>
    unfold ceilLog2Aux
    split
    · omega
    · have := ih (k + 1)
      omega

theorem get_x_local_size_range (d : FS3.Divider) (x_local_size : Nat)
    (h : Divider.get_x_local_size d = Except.ok x_local_size) :
    15 ≤ x_local_size ∧ x_local_size ≤ 23 := by
  unfold Divider.get_x_local_size Divider.get_num_interval_bits at h
  by_cases h0 : d.table_depth = 0
  · simp [h0, bind, Except.bind] at h
  · have hle : ceilLog2 d.table_depth ≤ 8 := by
      unfold ceilLog2
      have := ceilLog2Aux_le 8 0 d.table_depth
      omega
    simp only [h0, if_false, bind, Except.bind, pure, Except.pure, Except.ok.injEq,
      DIVIDER_MANTISSA_SIZE] at h
    omega

theorem signed_sum_mod (sigma0 sigma1 : Int) (h0 : sigma0 = 1 ∨ sigma0 = -1)
    (h1 : sigma1 = 1 ∨ sigma1 = -1) (A B : Nat) :
    ((toUInt64 sigma0 * A) % 2 ^ 64 + (toUInt64 sigma1 * B) % 2 ^ 64) % 2 ^ 64 =
      toUInt64 (sigma0 * A + sigma1 * B) := by
  unfold toUInt64
  rcases h0 with rfl | rfl <;> rcases h1 with rfl | rfl <;> simp <;> omega

theorem approximate_sum_eq (a : AlignArgs) (h0 : a.s_m0 = 1 ∨ a.s_m0 = -1)
    (h1 : a.s_m1 = 1 ∨ a.s_m1 = -1) (hm0 : a.m0 < 2 ^ 64) (hm1 : a.m1 < 2 ^ 64)
    (hs0 : 0 ≤ a.e_common - a.adjustment0) (hs0' : a.e_common - a.adjustment0 < 64)
    (hs1 : 0 ≤ a.e_common - a.adjustment1) (hs1' : a.e_common - a.adjustment1 < 64) :
    Divider.align_mantissa a.m0 a.e_common a.adjustment0 =
      Except.ok (a.m0 >>> (a.e_common - a.adjustment0).toNat) ∧
    Divider.align_mantissa a.m1 a.e_common a.adjustment1 =
      Except.ok (a.m1 >>> (a.e_common - a.adjustment1).toNat) ∧
    approximate_sum a = Except.ok (toUInt64
      (a.s_m0 * ((a.m0 >>> (a.e_common - a.adjustment0).toNat : Nat) : Int)
        + a.s_m1 * ((a.m1 >>> (a.e_common - a.adjustment1).toNat : Nat) : Int))) := by
  have halign : ∀ (m : Nat) (adj : Int), m < 2 ^ 64 → 0 ≤ a.e_common - adj →
      a.e_common - adj < 64 →
      Divider.align_mantissa m a.e_common adj =
        Except.ok (m >>> (a.e_common - adj).toNat) := by
    intro m adj hm hlo hhi
    rw [align_mantissa_eq, if_neg (by omega)]
    by_cases hz : a.e_common - adj = 0
    · rw [if_pos hz, hz, Nat.mod_eq_of_lt hm]
      rfl
    · rw [if_neg hz]
  have hA := halign a.m0 a.adjustment0 hm0 hs0 hs0'
  have hB := halign a.m1 a.adjustment1 hm1 hs1 hs1'
  refine ⟨hA, hB, ?_⟩
  simp only [approximate_sum, hA, hB, bind, Except.bind, pure, Except.pure]
  rw [signed_sum_mod a.s_m0 a.s_m1 h0 h1]

theorem sign_cases (b : Bool) : (if b = true then (-1 : Int) else 1) = 1 ∨
    (if b = true then (-1 : Int) else 1) = -1 := by
  cases b <;> simp

/-- C21: for a row `[c0, c1]` whose coefficients decode to `(s_c0, e_c0, m_c0)` and
`(s_c1, e_c1, m_c1)`, when `e_c1 - (x_local_size - 1)` fits `int8_t`, the product
`m_c1 * x_local` is below `2^64` and the two adjustments are less than 64 apart,
`approximate` returns the signed sum of the specification reduced modulo `2^64`; when
that sum is non-negative and below `2^64` the returned `y_local` equals it. -/
theorem approximate_eq_spec (d : FS3.Divider) (lut_index : Nat) (s_local : Bool)
    (x_local x_local_size c0 c1 : Nat)
    (hxs : Divider.get_x_local_size d = Except.ok x_local_size)
    (hrow : d.lookup_table[lut_index]? = some [c0, c1])
    (s0 : Bool) (e0 : Int) (m0 : Nat) (s1 : Bool) (e1 : Int) (m1 : Nat)
    (h0 : Divider.read_coefficient c0 d.constant_term_size = Except.ok (s0, e0, m0))
    (h1 : Divider.read_coefficient c1 d.linear_term_size = Except.ok (s1, e1, m1))
    (hwrap : -128 ≤ e1 - ((x_local_size : Int) - 1))
    (hprod : m1 * x_local < 2 ^ 64)
    (hgap : |e0 - (e1 - ((x_local_size : Int) - 1))| < 64) :
    ∃ y_local, Divider.approximate d lut_index s_local x_local = Except.ok y_local ∧
      y_local = toUInt64 (approximate_spec s0 e0 m0 s1 e1 m1 x_local_size s_local x_local) ∧
      (0 ≤ approximate_spec s0 e0 m0 s1 e1 m1 x_local_size s_local x_local →
        approximate_spec s0 e0 m0 s1 e1 m1 x_local_size s_local x_local < 2 ^ 64 →
        (y_local : Int) = approximate_spec s0 e0 m0 s1 e1 m1 x_local_size s_local x_local) := by
  have hr0 := read_coefficient_mantissa_lt _ _ _ _ _ h0
  have hr1 := read_coefficient_mantissa_lt _ _ _ _ _ h1
  have hxr := get_x_local_size_range d x_local_size hxs
  have hm0lt : m0 < 2 ^ 64 :=
    lt_of_lt_of_le hr0.2.1 (Nat.pow_le_pow_right (by norm_num) (by omega))
  have ha1 : toInt8 (e1 - ((x_local_size : Int) - 1)) = e1 - ((x_local_size : Int) - 1) :=
    toInt8_of_range _ hwrap (by omega)
  have hargs : approximate_align_args d x_local_size c0 c1 s_local x_local = Except.ok
      { s_m0 := if s0 then -1 else 1
        m0 := m0
        s_m1 := if s1 != s_local then -1 else 1
        m1 := m1 * x_local
        adjustment0 := e0
        adjustment1 := e1 - ((x_local_size : Int) - 1)
        e_common := max e0 (e1 - ((x_local_size : Int) - 1)) } := by
    simp only [approximate_align_args, h0, h1, bind, Except.bind, pure, Except.pure, ha1,
      Nat.mod_eq_of_lt hprod]
  rw [abs_lt] at hgap
  have hmax0 := le_max_left e0 (e1 - ((x_local_size : Int) - 1))
  have hmax1 := le_max_right e0 (e1 - ((x_local_size : Int) - 1))
  have hmaxc := max_choice e0 (e1 - ((x_local_size : Int) - 1))
  have hsum := approximate_sum_eq
    { s_m0 := if s0 then -1 else 1
      m0 := m0
      s_m1 := if s1 != s_local then -1 else 1
      m1 := m1 * x_local
      adjustment0 := e0
      adjustment1 := e1 - ((x_local_size : Int) - 1)
      e_common := max e0 (e1 - ((x_local_size : Int) - 1)) }
    (sign_cases s0) (sign_cases (s1 != s_local)) hm0lt hprod
    (by simp only; omega) (by rcases hmaxc with h | h <;> simp only [h] <;> omega)
    (by simp only; omega) (by rcases hmaxc with h | h <;> simp only [h] <;> omega)
  have hval : Divider.approximate d lut_index s_local x_local = Except.ok (toUInt64
      (approximate_spec s0 e0 m0 s1 e1 m1 x_local_size s_local x_local)) := by
    rw [approximate_eq_stages d lut_index s_local x_local x_local_size c0 c1 hxs hrow, hargs]
    exact hsum.2.2
  refine ⟨_, hval, rfl, ?_⟩
  intro hnonneg hlt
  unfold toUInt64
  omega

/-- Witness for C21 at row 1 of the sample table with the outputs of `read_mantissa` for the
mantissa of `3.1415927`. -/
theorem approximate_eq_spec_witness :
    ∃ y_local, Divider.approximate sampleDivider 1 true 1503269 = Except.ok y_local ∧
      y_local = toUInt64
        (approximate_spec false (-1) 0x924925 true (-4) 0xA72F05 22 true 1503269) ∧
      (0 ≤ approximate_spec false (-1) 0x924925 true (-4) 0xA72F05 22 true 1503269 →
        approximate_spec false (-1) 0x924925 true (-4) 0xA72F05 22 true 1503269 < 2 ^ 64 →
        (y_local : Int) =
          approximate_spec false (-1) 0x924925 true (-4) 0xA72F05 22 true 1503269) :=
  approximate_eq_spec sampleDivider 1 true 1503269 22 0x3F124925 0xBDA72F05 (by decide)
    (by decide) false (-1) 0x924925 true (-4) 0xA72F05 (by decide) (by decide) (by decide)
    (by decide) (by decide)

/-- Counterexample to C21 as stated: in a two-row table (`x_local_size = 22`) whose row 0
has the constant coefficient 0x71CCCCCD (exponent 100) and the linear coefficient
0x8523D70A (exponent -117), `e_c1 - (x_local_size - 1) = -138` does not fit `int8_t` and
`adjustment1` becomes 118; `approximate` returns 10737418051 where the signed sum of the
claim is 13421773. With the linear coefficient 0xBE23D70A (exponent -3) the adjustments
are 124 apart and the shift of `m1` is undefined. With a linear term size of 50 and the
linear coefficient `127 << 50` (mantissa `2^50`), the product with `x_local = 2^21` is
`2^71`, which `uint64_t` reduces to 0 before the shift by 21. With a linear term size of
42, equal adjustments and the mantissas `2^24 - 1` and `2^43 - 1`, the sum
`(2^24 - 1) + (2^43 - 1) * 2^21` is positive but not below `2^64`, and the returned
`y_local` is the sum less `2^64`. -/
theorem approximate_differs_from_spec :
    Divider.read_coefficient 0x71CCCCCD 23 = Except.ok (false, 100, 0xCCCCCD) ∧
    Divider.read_coefficient 0x8523D70A 23 = Except.ok (true, -117, 0xA3D70A) ∧
    Divider.approximate
      ⟨[[0x71CCCCCD, 0x8523D70A], [0x71CCCCCD, 0x8523D70A]], 23, 23, 2⟩ 0 true 1000 =
      Except.ok 10737418051 ∧
    toUInt64 (approximate_spec false 100 0xCCCCCD true (-117) 0xA3D70A 22 true 1000) =
      13421773 ∧
    Divider.read_coefficient 0xBE23D70A 23 = Except.ok (true, -3, 0xA3D70A) ∧
    Divider.approximate
      ⟨[[0x71CCCCCD, 0xBE23D70A], [0x71CCCCCD, 0xBE23D70A]], 23, 23, 2⟩ 0 true 1000 =
      Except.error DividerError.undefined_shift ∧
    Divider.read_coefficient 0x3F800000 23 = Except.ok (false, 0, 2 ^ 23) ∧
    Divider.read_coefficient 0x1FC000000000000 50 = Except.ok (false, 0, 2 ^ 50) ∧
    Divider.approximate
      ⟨[[0x3F800000, 0x1FC000000000000], [0x3F800000, 0x1FC000000000000]], 23, 50, 2⟩
      0 true (2 ^ 21) = Except.ok 8388608 ∧
    toUInt64 (approximate_spec false 0 (2 ^ 23) false 0 (2 ^ 50) 22 true (2 ^ 21)) =
      18445618173811097600 ∧
    Divider.read_coefficient 0x3FFFFFFF 23 = Except.ok (false, 0, 2 ^ 24 - 1) ∧
    Divider.read_coefficient 0x653FFFFFFFFFF 42 = Except.ok (true, 21, 2 ^ 43 - 1) ∧
    Divider.approximate
      ⟨[[0x3FFFFFFF, 0x653FFFFFFFFFF], [0x3FFFFFFF, 0x653FFFFFFFFFF]], 23, 42, 2⟩
      0 true (2 ^ 21) = Except.ok 14680063 ∧
    approximate_spec false 0 (2 ^ 24 - 1) true 21 (2 ^ 43 - 1) 22 true (2 ^ 21) =
      18446744073724231679 :=
  ⟨by decide, by decide, by decide, by decide, by decide, by decide, by decide, by decide,
   by decide, by decide, by decide, by decide, by decide, by decide⟩

/-! ## Magnitude of the intermediates of `approximate` -/

theorem align_mantissa_le (m : Nat) (e_common adjustment : Int) (A : Nat)
    (h : Divider.align_mantissa m e_common adjustment = Except.ok A) : A ≤ m := by
  rw [align_mantissa_eq] at h
  split_ifs at h with h1 h2
  · simp only [Except.ok.injEq] at h
    rw [← h]
    exact Nat.mod_le _ _
  · simp only [Except.ok.injEq] at h
    rw [← h, Nat.shiftRight_eq_div_pow]
    exact Nat.div_le_self _ _

theorem read_mantissa_x_local_le (d : FS3.Divider) (k : Nat)
    (hbits : Divider.get_num_interval_bits d = Except.ok k) (hk : k ≤ 8) (m : Nat) :
    ∃ lut_index s_local x_local,
      Divider.read_mantissa d m = Except.ok (lut_index, s_local, x_local) ∧
      x_local ≤ 2 ^ (22 - k) := by
  refine ⟨_, _, _, read_mantissa_eq d k hbits hk m, ?_⟩
  have hlt : m % 2 ^ (23 - k) < 2 ^ (23 - k) := Nat.mod_lt _ (by positivity)
  have hpow : 2 ^ (23 - k) = 2 * 2 ^ (22 - k) := by
    have hxs : 23 - k = (22 - k) + 1 := by omega
    rw [hxs, Nat.pow_succ, Nat.mul_comm]
  split_ifs <;> omega

/-- C27: with both term sizes 23 and a table depth `2^k`, `1 ≤ k ≤ 7`, for every 23-bit
input mantissa and every row `[c0, c1]` of the table: the product `m_linear * x_local` of
`approximate` is below `2^45` (so `m1` is that product, unreduced), every aligned operand
that `align_mantissa` returns is below `2^45`, and the returned `y_local` is the signed
sum itself when that sum is non-negative and the sum plus `2^64` when it is negative.
Both aligned operands exist when the two adjustments are less than 64 apart. -/
theorem approximate_intermediates_bounded (d : FS3.Divider) (k : Nat) (hk1 : 1 ≤ k)
    (hk7 : k ≤ 7) (hc : d.constant_term_size = 23) (hl : d.linear_term_size = 23)
    (hdepth : d.table_depth = 2 ^ k) (mantissa : Nat) (row_index c0 c1 : Nat)
    (hrow : d.lookup_table[row_index]? = some [c0, c1]) :
    ∃ lut_index s_local x_local s0 e0 m_constant s1 e1 m_linear,
      Divider.read_mantissa d mantissa = Except.ok (lut_index, s_local, x_local) ∧
      Divider.read_coefficient c0 23 = Except.ok (s0, e0, m_constant) ∧
      Divider.read_coefficient c1 23 = Except.ok (s1, e1, m_linear) ∧
      m_linear * x_local < 2 ^ 45 ∧ m_constant < 2 ^ 45 ∧
      approximate_align_args d (23 - k) c0 c1 s_local x_local = Except.ok
        { s_m0 := if s0 then -1 else 1
          m0 := m_constant
          s_m1 := if s1 != s_local then -1 else 1
          m1 := m_linear * x_local
          adjustment0 := e0
          adjustment1 := toInt8 (e1 - (((23 - k : Nat) : Int) - 1))
          e_common := max e0 (toInt8 (e1 - (((23 - k : Nat) : Int) - 1))) } ∧
      (∀ m0_aligned m1_aligned,
        Divider.align_mantissa m_constant
          (max e0 (toInt8 (e1 - (((23 - k : Nat) : Int) - 1)))) e0 = Except.ok m0_aligned →
        Divider.align_mantissa (m_linear * x_local)
          (max e0 (toInt8 (e1 - (((23 - k : Nat) : Int) - 1))))
          (toInt8 (e1 - (((23 - k : Nat) : Int) - 1))) = Except.ok m1_aligned →
        m0_aligned < 2 ^ 45 ∧ m1_aligned < 2 ^ 45 ∧
        Divider.approximate d row_index s_local x_local = Except.ok (toUInt64
          ((if s0 then -1 else 1) * (m0_aligned : Int)
            + (if s1 != s_local then -1 else 1) * (m1_aligned : Int))) ∧
        (0 ≤ (if s0 then -1 else 1) * (m0_aligned : Int)
            + (if s1 != s_local then -1 else 1) * (m1_aligned : Int) →
          (toUInt64 ((if s0 then -1 else 1) * (m0_aligned : Int)
            + (if s1 != s_local then -1 else 1) * (m1_aligned : Int)) : Int) =
            (if s0 then -1 else 1) * (m0_aligned : Int)
              + (if s1 != s_local then -1 else 1) * (m1_aligned : Int)) ∧
        ((if s0 then -1 else 1) * (m0_aligned : Int)
            + (if s1 != s_local then -1 else 1) * (m1_aligned : Int) < 0 →
          (toUInt64 ((if s0 then -1 else 1) * (m0_aligned : Int)
            + (if s1 != s_local then -1 else 1) * (m1_aligned : Int)) : Int) =
            (if s0 then -1 else 1) * (m0_aligned : Int)
              + (if s1 != s_local then -1 else 1) * (m1_aligned : Int) + 2 ^ 64)) ∧
      (|e0 - toInt8 (e1 - (((23 - k : Nat) : Int) - 1))| < 64 →
        ∃ m0_aligned m1_aligned,
          Divider.align_mantissa m_constant
            (max e0 (toInt8 (e1 - (((23 - k : Nat) : Int) - 1)))) e0 =
            Except.ok m0_aligned ∧
          Divider.align_mantissa (m_linear * x_local)
            (max e0 (toInt8 (e1 - (((23 - k : Nat) : Int) - 1))))
            (toInt8 (e1 - (((23 - k : Nat) : Int) - 1))) = Except.ok m1_aligned) := by
  have hbits := get_num_interval_bits_two_pow d k hk7 hdepth
  have hxs := get_x_local_size_two_pow d k hk7 hdepth
  obtain ⟨lut_index, s_local, x_local, hrm, hxl⟩ :=
    read_mantissa_x_local_le d k hbits (by omega) mantissa
  have hxl21 : x_local ≤ 2 ^ 21 :=
    le_trans hxl (Nat.pow_le_pow_right (by norm_num) (by omega))
  obtain ⟨r0, h0⟩ : ∃ r, Divider.read_coefficient c0 23 = Except.ok r := by
    unfold Divider.read_coefficient
    exact ⟨_, rfl⟩
  obtain ⟨r1, h1⟩ : ∃ r, Divider.read_coefficient c1 23 = Except.ok r := by
    unfold Divider.read_coefficient
    exact ⟨_, rfl⟩
  obtain ⟨s0, e0, m0⟩ := r0
  obtain ⟨s1, e1, m1⟩ := r1
  have hb0 := (read_coefficient_mantissa_lt _ _ _ _ _ h0).2.1
  have hb1 := (read_coefficient_mantissa_lt _ _ _ _ _ h1).2.1
  have hprod : m1 * x_local < 2 ^ 45 := by
    have h24 : m1 < 2 ^ 24 := hb1
    calc m1 * x_local ≤ m1 * 2 ^ 21 := Nat.mul_le_mul_left _ hxl21
      _ < 2 ^ 24 * 2 ^ 21 := Nat.mul_lt_mul_of_pos_right h24 (by norm_num)
      _ = 2 ^ 45 := by norm_num
  have hm0 : m0 < 2 ^ 45 := lt_trans hb0 (by norm_num)
  have hargs : approximate_align_args d (23 - k) c0 c1 s_local x_local = Except.ok
      { s_m0 := if s0 then -1 else 1
        m0 := m0
        s_m1 := if s1 != s_local then -1 else 1
        m1 := m1 * x_local
        adjustment0 := e0
        adjustment1 := toInt8 (e1 - (((23 - k : Nat) : Int) - 1))
        e_common := max e0 (toInt8 (e1 - (((23 - k : Nat) : Int) - 1))) } := by
    simp only [approximate_align_args, hc, hl, h0, h1, bind, Except.bind, pure, Except.pure,
      Nat.mod_eq_of_lt (lt_trans hprod (by norm_num : 2 ^ 45 < 2 ^ 64))]
  refine ⟨lut_index, s_local, x_local, s0, e0, m0, s1, e1, m1, hrm, h0, h1, hprod, hm0, hargs,
    ?_, ?_⟩
  · intro A B hA hB
    have hAlt : A < 2 ^ 45 := lt_of_le_of_lt (align_mantissa_le _ _ _ _ hA) hm0
    have hBlt : B < 2 ^ 45 := lt_of_le_of_lt (align_mantissa_le _ _ _ _ hB) hprod
    refine ⟨hAlt, hBlt, ?_, ?_, ?_⟩
    · rw [approximate_eq_stages d row_index s_local x_local (23 - k) c0 c1 hxs hrow, hargs]
      simp only [Except.bind, approximate_sum, hA, hB, bind, pure, Except.pure]
      rw [signed_sum_mod _ _ (sign_cases s0) (sign_cases (s1 != s_local))]
    · intro hnonneg
      unfold toUInt64
      rcases sign_cases s0 with h | h <;> rcases sign_cases (s1 != s_local) with h2 | h2 <;>
        rw [h, h2] at hnonneg ⊢ <;> omega
    · intro hneg
      unfold toUInt64
      rcases sign_cases s0 with h | h <;> rcases sign_cases (s1 != s_local) with h2 | h2 <;>
        rw [h, h2] at hneg ⊢ <;> omega
  · intro hgap
    rw [abs_lt] at hgap
    generalize toInt8 (e1 - (((23 - k : Nat) : Int) - 1)) = a1 at hgap ⊢
    have hmax0 := le_max_left e0 a1
    have hmax1 := le_max_right e0 a1
    obtain ⟨A, hA⟩ := align_mantissa_defined m0 (max e0 a1) e0 (by omega)
      (by rcases max_choice e0 a1 with h | h <;> rw [h] <;> omega)
    obtain ⟨B, hB⟩ := align_mantissa_defined (m1 * x_local) (max e0 a1) a1 (by omega)
      (by rcases max_choice e0 a1 with h | h <;> rw [h] <;> omega)
    exact ⟨A, B, hA, hB⟩

/-- Witness for C27 on the sample divider (depth `2^1`), the mantissa field 0x490FDB of
`3.1415927` and row 0 of the table. -/
theorem approximate_intermediates_bounded_witness :
    (1 ≤ 1 ∧ 1 ≤ 7) ∧ sampleDivider.constant_term_size = 23 ∧
    sampleDivider.linear_term_size = 23 ∧ sampleDivider.table_depth = 2 ^ 1 ∧
    sampleDivider.lookup_table[0]? = some [0x3F4CCCCD, 0xBE23D70A] ∧
    ∃ lut_index s_local x_local s0 e0 m_constant s1 e1 m_linear,
      Divider.read_mantissa sampleDivider 0x490FDB =
        Except.ok (lut_index, s_local, x_local) ∧
      Divider.read_coefficient 0x3F4CCCCD 23 = Except.ok (s0, e0, m_constant) ∧
      Divider.read_coefficient 0xBE23D70A 23 = Except.ok (s1, e1, m_linear) ∧
      m_linear * x_local < 2 ^ 45 ∧ m_constant < 2 ^ 45 := by
  refine ⟨by decide, by decide, by decide, by decide, by decide, ?_⟩
  obtain ⟨lut_index, s_local, x_local, s0, e0, m_constant, s1, e1, m_linear, h1, h2, h3, h4,
    h5, _⟩ := approximate_intermediates_bounded sampleDivider 1 (by decide) (by decide)
      (by decide) (by decide) (by decide) 0x490FDB 0 0x3F4CCCCD 0xBE23D70A (by decide)
  exact ⟨lut_index, s_local, x_local, s0, e0, m_constant, s1, e1, m_linear, h1, h2, h3, h4, h5⟩

/-! ## The buffer invariant of the console -/

namespace Console

theorem Read_buffer_eq_store (con : Console) (received : Option Nat) :
    (Read con received).2.input_buffer =
      match Read_store con received with
      | some (i, v) => con.input_buffer.set i v
      | none => con.input_buffer := by
  cases received with
  | none => rfl
  | some c =>
    simp only [Read, Read_store]
    split_ifs <;> rfl

theorem fresh_invariant :
    fresh.input_buffer.length = 256 ∧ fresh.characters_read ≤ 255 ∧
    ∀ i : Nat, fresh.characters_read ≤ i → i < 256 → fresh.input_buffer[i]? = some 0 := by
  refine ⟨List.length_replicate _ _, Nat.zero_le _, ?_⟩
  intro i _ hi
  simp only [fresh, INPUT_BUFFER_SIZE]
  rw [List.getElem?_replicate]
  simp [hi]

theorem step_invariant (con : Console) (call : ConsoleCall)
    (hlen : con.input_buffer.length = 256) (hcount : con.characters_read ≤ 255)
    (hzero : ∀ i : Nat, con.characters_read ≤ i → i < 256 → con.input_buffer[i]? = some 0) :
    (step con call).input_buffer.length = 256 ∧ (step con call).characters_read ≤ 255 ∧
    ∀ i : Nat, (step con call).characters_read ≤ i → i < 256 →
      (step con call).input_buffer[i]? = some 0 := by
  cases call with
  | GetInput =>
    refine ⟨List.length_replicate _ _, Nat.zero_le _, ?_⟩
    intro i _ hi
    simp only [step, GetInput, INPUT_BUFFER_SIZE]
    rw [List.getElem?_replicate]
    simp [hi]
  | Read received =>
    cases received with
    | none => exact ⟨hlen, hcount, hzero⟩
    | some c =>
      simp only [step, Read, INPUT_BUFFER_SIZE]
      split_ifs with h1 h2 h3 h4
      · exact ⟨hlen, hcount, hzero⟩
      · refine ⟨by simpa using hlen, by simp only; omega, ?_⟩
        intro i hle hi
        simp only at hle ⊢
        by_cases heq : con.characters_read - 1 = i
        · subst heq
          rw [List.getElem?_set_self (by omega)]
        · rw [List.getElem?_set_ne heq]
          exact hzero i (by omega) hi
      · exact ⟨hlen, hcount, hzero⟩
      · refine ⟨by simpa using hlen, by simp only; omega, ?_⟩
        intro i hle hi
        simp only at hle ⊢
        rw [List.getElem?_set_ne (by omega)]
        exact hzero i (by omega) hi
      · exact ⟨hlen, hcount, hzero⟩

theorem foldl_step_invariant (calls : List ConsoleCall) (con : Console)
    (hlen : con.input_buffer.length = 256) (hcount : con.characters_read ≤ 255)
    (hzero : ∀ i : Nat, con.characters_read ≤ i → i < 256 → con.input_buffer[i]? = some 0) :
    (calls.foldl step con).input_buffer.length = 256 ∧
    (calls.foldl step con).characters_read ≤ 255 ∧
    ∀ i : Nat, (calls.foldl step con).characters_read ≤ i → i < 256 →
      (calls.foldl step con).input_buffer[i]? = some 0 := by
  induction calls generalizing con with
  | nil => exact ⟨hlen, hcount, hzero⟩
  | cons call rest ih =>
    obtain ⟨h1, h2, h3⟩ := step_invariant con call hlen hcount hzero
    exact ih (step con call) h1 h2 h3

/-- C29: after every sequence of `Read` and `GetInput` calls on a fresh console, whatever
the characters received, `input_buffer` has its 256 bytes, `characters_read ≤ 255` and
every byte at an index from `characters_read` on is 0; in particular byte 255 is 0, so the
buffer is NUL-terminated and `GetInput` finds the end of the string. A further `Read`
stores only at an index below 256, a character other than line feed, carriage return,
backspace and delete received with 255 characters buffered leaves the console unchanged,
and `GetInput` leaves the buffer all zero with `characters_read = 0`. -/
theorem run_buffer_invariant (calls : List ConsoleCall) :
    (run calls).input_buffer.length = 256 ∧
    (run calls).characters_read ≤ INPUT_BUFFER_SIZE - 1 ∧ INPUT_BUFFER_SIZE - 1 = 255 ∧
    (∀ i : Nat, (run calls).characters_read ≤ i → i < 256 →
      (run calls).input_buffer[i]? = some 0) ∧
    (run calls).input_buffer[255]? = some 0 ∧
    (∀ received,
      (Read (run calls) received).2.input_buffer =
        (match Read_store (run calls) received with
         | some (i, v) => (run calls).input_buffer.set i v
         | none => (run calls).input_buffer) ∧
      ∀ i v, Read_store (run calls) received = some (i, v) → i < 256) ∧
    (∀ c, (run calls).characters_read = 255 → ¬ (c = 10 ∨ c = 13 ∨ c = 8 ∨ c = 127) →
      Read (run calls) (some c) = (false, run calls)) ∧
    (GetInput (run calls)).1 =
      some ((run calls).input_buffer.takeWhile (fun b => b ≠ 0)) ∧
    (GetInput (run calls)).2.input_buffer = List.replicate 256 0 ∧
    (GetInput (run calls)).2.characters_read = 0 := by
  obtain ⟨hlen, hcount, hzero⟩ := foldl_step_invariant calls fresh fresh_invariant.1
    fresh_invariant.2.1 fresh_invariant.2.2
  have hlast : (run calls).input_buffer[255]? = some 0 := hzero 255 hcount (by norm_num)
  refine ⟨hlen, hcount, rfl, hzero, hlast, ?_, ?_, ?_, rfl, rfl⟩
  · intro received
    refine ⟨Read_buffer_eq_store _ _, ?_⟩
    intro i v hst
    have hc : (run calls).characters_read ≤ 255 := hcount
    cases received with
    | none => simp [Read_store] at hst
    | some c =>
      simp only [Read_store, INPUT_BUFFER_SIZE] at hst
      split_ifs at hst <;> simp only [Option.some.injEq, Prod.mk.injEq] at hst <;> omega
  · intro c h255 hc
    have h1 : ¬ (c = 10 ∨ c = 13) := by omega
    have h2 : ¬ (c = 8 ∨ c = 127) := by omega
    simp [Read, h1, h2, h255, INPUT_BUFFER_SIZE]
  · have hmem : 0 ∈ (run calls).input_buffer := by
      rw [List.mem_iff_getElem?]
      exact ⟨255, hlast⟩
    simp [GetInput, hmem]

end Console

/-! ## Invariance of `approximate` under a common exponent shift -/

theorem read_coefficient_fields (c t : Nat) (ht : t ≤ 55) :
    Divider.read_coefficient c t =
      Except.ok (sign_field c t != 0,
        toInt8 ((biased_exponent_field c t : Int) - 127),
        mantissa_field c t |||
          (((if biased_exponent_field c t > 0 then 1 else 0) <<< t) % 2 ^ 64)) := by
  have hg : ¬ 64 ≤ 8 + t := by omega
  have hb : ((c >>> t) &&& ((1 <<< 8) - 1)) % 2 ^ 8 = c / 2 ^ t % 2 ^ 8 := by
    rw [Nat.one_shiftLeft, Nat.and_pow_two_sub_one_eq_mod, Nat.shiftRight_eq_div_pow,
      Nat.mod_mod]
  have hs : (c >>> (8 + t)) &&& 1 = c / 2 ^ (8 + t) % 2 := by
    rw [Nat.and_one_is_mod, Nat.shiftRight_eq_div_pow]
  have hm : c &&& ((1 <<< t) - 1) = c % 2 ^ t := by
    rw [Nat.one_shiftLeft, Nat.and_pow_two_sub_one_eq_mod]
  simp only [Divider.read_coefficient, DIVIDER_EXPONENT_SIZE, hg, if_false, hb, hs, hm,
    sign_field, biased_exponent_field, mantissa_field]

theorem read_coefficient_wide (c t : Nat) (ht : ¬ t ≤ 55) :
    Divider.read_coefficient c t = Except.error DividerError.undefined_shift := by
  have hg : 64 ≤ 8 + t := by omega
  simp only [Divider.read_coefficient, DIVIDER_EXPONENT_SIZE, hg, if_true]

theorem approximate_sum_shift (s_m0 : Int) (m0 : Nat) (s_m1 : Int) (m1 : Nat)
    (adjustment0 adjustment1 delta : Int) :
    approximate_sum ⟨s_m0, m0, s_m1, m1, adjustment0 + delta, adjustment1 + delta,
      max (adjustment0 + delta) (adjustment1 + delta)⟩ =
    approximate_sum ⟨s_m0, m0, s_m1, m1, adjustment0, adjustment1,
      max adjustment0 adjustment1⟩ := by
  simp only [approximate_sum, Divider.align_mantissa, max_add_add_right,
    add_sub_add_right_eq_sub]

theorem ceilLog2Aux_ge (fuel k n : Nat) : k ≤ ceilLog2Aux fuel k n := by
  induction fuel generalizing k with
  | zero => simp [ceilLog2Aux]
  | succ f ih =>
    unfold ceilLog2Aux
    split
    · omega
    · have := ih (k + 1)
      omega

theorem get_x_local_size_two_intervals (d : FS3.Divider) (hdepth : 2 ≤ d.table_depth) :
    ∃ x_local_size, Divider.get_x_local_size d = Except.ok x_local_size ∧
      15 ≤ x_local_size ∧ x_local_size ≤ 22 := by
  have h0 : ¬ d.table_depth = 0 := by omega
  have hle : ceilLog2 d.table_depth ≤ 8 := by
    unfold ceilLog2
    have := ceilLog2Aux_le 8 0 d.table_depth
    omega
  have hge : 1 ≤ ceilLog2 d.table_depth := by
    unfold ceilLog2 ceilLog2Aux
    have h1 : ¬ d.table_depth ≤ 2 ^ 0 := by
      norm_num
      omega
    rw [if_neg h1]
    exact ceilLog2Aux_ge 7 1 d.table_depth
  refine ⟨(DIVIDER_MANTISSA_SIZE + 2 ^ 8 - ceilLog2 d.table_depth % 2 ^ 8) % 2 ^ 8, ?_, ?_, ?_⟩
  · simp only [Divider.get_x_local_size, Divider.get_num_interval_bits, h0, if_false, bind,
      Except.bind, pure, Except.pure]
  · unfold DIVIDER_MANTISSA_SIZE
    omega
  · unfold DIVIDER_MANTISSA_SIZE
    omega

theorem approximate_congr_row (d d2 : FS3.Divider) (lut_index : Nat) (s_local : Bool)
    (x_local : Nat) (hc : d2.constant_term_size = d.constant_term_size)
    (hl : d2.linear_term_size = d.linear_term_size) (hd : d2.table_depth = d.table_depth)
    (hrow : d2.lookup_table[lut_index]? = d.lookup_table[lut_index]?) :
    Divider.approximate d2 lut_index s_local x_local =
      Divider.approximate d lut_index s_local x_local := by
  simp only [Divider.approximate, Divider.get_x_local_size, Divider.get_num_interval_bits, hc,
    hl, hd, hrow]

theorem approximate_align_args_shift (d : FS3.Divider) (x_local_size c0 c1 c0' c1' : Nat)
    (delta : Int) (s_local : Bool) (x_local : Nat) (hxs1 : 1 ≤ x_local_size)
    (hxs : x_local_size ≤ 22)
    (hs0 : sign_field c0' d.constant_term_size = sign_field c0 d.constant_term_size)
    (hm0 : mantissa_field c0' d.constant_term_size = mantissa_field c0 d.constant_term_size)
    (hs1 : sign_field c1' d.linear_term_size = sign_field c1 d.linear_term_size)
    (hm1 : mantissa_field c1' d.linear_term_size = mantissa_field c1 d.linear_term_size)
    (hb0 : (biased_exponent_field c0' d.constant_term_size : Int) =
      biased_exponent_field c0 d.constant_term_size + delta)
    (hb1 : (biased_exponent_field c1' d.linear_term_size : Int) =
      biased_exponent_field c1 d.linear_term_size + delta)
    (hr0 : 20 ≤ biased_exponent_field c0 d.constant_term_size ∧
      biased_exponent_field c0 d.constant_term_size ≤ 254)
    (hr0' : 20 ≤ biased_exponent_field c0' d.constant_term_size ∧
      biased_exponent_field c0' d.constant_term_size ≤ 254)
    (hr1 : 20 ≤ biased_exponent_field c1 d.linear_term_size ∧
      biased_exponent_field c1 d.linear_term_size ≤ 254)
    (hr1' : 20 ≤ biased_exponent_field c1' d.linear_term_size ∧
      biased_exponent_field c1' d.linear_term_size ≤ 254) :
    (approximate_align_args d x_local_size c0' c1' s_local x_local).bind approximate_sum =
      (approximate_align_args d x_local_size c0 c1 s_local x_local).bind approximate_sum := by
  by_cases ht0 : d.constant_term_size ≤ 55
  · by_cases ht1 : d.linear_term_size ≤ 55
    · have hp0 : biased_exponent_field c0 d.constant_term_size > 0 := by omega
      have hp0' : biased_exponent_field c0' d.constant_term_size > 0 := by omega
      have hp1 : biased_exponent_field c1 d.linear_term_size > 0 := by omega
      have hp1' : biased_exponent_field c1' d.linear_term_size > 0 := by omega
      have he0 : toInt8 ((biased_exponent_field c0 d.constant_term_size : Int) - 127) =
          (biased_exponent_field c0 d.constant_term_size : Int) - 127 :=
        toInt8_of_range _ (by omega) (by omega)
      have he0' : toInt8 ((biased_exponent_field c0' d.constant_term_size : Int) - 127) =
          ((biased_exponent_field c0 d.constant_term_size : Int) - 127) + delta := by
        rw [toInt8_of_range _ (by omega) (by omega)]
        omega
      have he1 : toInt8 ((biased_exponent_field c1 d.linear_term_size : Int) - 127) =
          (biased_exponent_field c1 d.linear_term_size : Int) - 127 :=
        toInt8_of_range _ (by omega) (by omega)
      have he1' : toInt8 ((biased_exponent_field c1' d.linear_term_size : Int) - 127) =
          (biased_exponent_field c1' d.linear_term_size : Int) - 127 :=
        toInt8_of_range _ (by omega) (by omega)
      have ha1 : toInt8 ((biased_exponent_field c1 d.linear_term_size : Int) - 127
            - ((x_local_size : Int) - 1)) =
          (biased_exponent_field c1 d.linear_term_size : Int) - 127
            - ((x_local_size : Int) - 1) :=
        toInt8_of_range _ (by omega) (by omega)
      have ha1' : toInt8 ((biased_exponent_field c1' d.linear_term_size : Int) - 127
            - ((x_local_size : Int) - 1)) =
          ((biased_exponent_field c1 d.linear_term_size : Int) - 127
            - ((x_local_size : Int) - 1)) + delta := by
        rw [toInt8_of_range _ (by omega) (by omega)]
        omega
      simp only [approximate_align_args, read_coefficient_fields _ _ ht0,
        read_coefficient_fields _ _ ht1, bind, Except.bind, pure, Except.pure, hs0, hm0, hs1,
        hm1, hp0, hp0', hp1, hp1', if_true, he0, he0', he1, he1', ha1, ha1']
      exact approximate_sum_shift _ _ _ _ _ _ _
    · simp only [approximate_align_args, read_coefficient_wide _ _ ht1,
        read_coefficient_fields _ _ ht0, bind, Except.bind]
  · simp only [approximate_align_args, read_coefficient_wide _ _ ht0, bind, Except.bind]

/-- C25: in a table of at least two intervals, replacing a row `[c0, c1]` by a row
`[c0', c1']` with the same sign and mantissa fields and with both biased exponent fields
changed by the same integer `delta` (all four biased exponents in 20..254) leaves the
outcome of `approximate` unchanged, for every row index, `s_local` and `x_local`: the same
`y_local`, or the same failure. The result of `reciprocal` is therefore unchanged for
every input. -/
theorem approximate_exponent_shift (d : FS3.Divider) (lut_index c0 c1 c0' c1' : Nat)
    (delta : Int) (hdepth : 2 ≤ d.table_depth)
    (hrow : d.lookup_table[lut_index]? = some [c0, c1])
    (hs0 : sign_field c0' d.constant_term_size = sign_field c0 d.constant_term_size)
    (hm0 : mantissa_field c0' d.constant_term_size = mantissa_field c0 d.constant_term_size)
    (hs1 : sign_field c1' d.linear_term_size = sign_field c1 d.linear_term_size)
    (hm1 : mantissa_field c1' d.linear_term_size = mantissa_field c1 d.linear_term_size)
    (hb0 : (biased_exponent_field c0' d.constant_term_size : Int) =
      biased_exponent_field c0 d.constant_term_size + delta)
    (hb1 : (biased_exponent_field c1' d.linear_term_size : Int) =
      biased_exponent_field c1 d.linear_term_size + delta)
    (hr0 : 20 ≤ biased_exponent_field c0 d.constant_term_size ∧
      biased_exponent_field c0 d.constant_term_size ≤ 254)
    (hr0' : 20 ≤ biased_exponent_field c0' d.constant_term_size ∧
      biased_exponent_field c0' d.constant_term_size ≤ 254)
    (hr1 : 20 ≤ biased_exponent_field c1 d.linear_term_size ∧
      biased_exponent_field c1 d.linear_term_size ≤ 254)
    (hr1' : 20 ≤ biased_exponent_field c1' d.linear_term_size ∧
      biased_exponent_field c1' d.linear_term_size ≤ 254) :
    (∀ i s_local x_local,
      Divider.approximate (with_row d lut_index c0' c1') i s_local x_local =
        Divider.approximate d i s_local x_local) ∧
    (∀ x_dec, Divider.reciprocal (with_row d lut_index c0' c1') x_dec =
      Divider.reciprocal d x_dec) := by
  obtain ⟨xs, hxs, hxs15, hxs22⟩ := get_x_local_size_two_intervals d hdepth
  have hlt : lut_index < d.lookup_table.length := by
    by_contra hge
    rw [List.getElem?_eq_none (by omega)] at hrow
    exact Option.noConfusion hrow
  have happ : ∀ i s_local x_local,
      Divider.approximate (with_row d lut_index c0' c1') i s_local x_local =
        Divider.approximate d i s_local x_local := by
    intro i s_local x_local
    by_cases hi : lut_index = i
    · subst hi
      have hxs' : Divider.get_x_local_size (with_row d lut_index c0' c1') = Except.ok xs := hxs
      have hrow' : (with_row d lut_index c0' c1').lookup_table[lut_index]? =
          some [c0', c1'] := by
        simp only [with_row]
        rw [List.getElem?_set_self hlt]
      rw [approximate_eq_stages _ lut_index s_local x_local xs c0' c1' hxs' hrow',
        approximate_eq_stages d lut_index s_local x_local xs c0 c1 hxs hrow]
      exact approximate_align_args_shift d xs c0 c1 c0' c1' delta s_local x_local (by omega)
        hxs22 hs0 hm0 hs1 hm1 hb0 hb1 hr0 hr0' hr1 hr1'
    · refine approximate_congr_row d (with_row d lut_index c0' c1') i s_local x_local rfl rfl
        rfl ?_
      simp only [with_row]
      rw [List.getElem?_set_ne hi]
  refine ⟨happ, ?_⟩
  intro x_dec
  have hrm : ∀ m, Divider.read_mantissa (with_row d lut_index c0' c1') m =
      Divider.read_mantissa d m := fun _ => rfl
  simp only [Divider.reciprocal, hrm, happ]

/-- Witness for C25 on the sample divider: row 0 with both biased exponents raised by 3,
from (126, 124) to (129, 127). -/
theorem approximate_exponent_shift_witness :
    2 ≤ sampleDivider.table_depth ∧
    biased_exponent_field 0x40CCCCCD 23 = 129 ∧ biased_exponent_field 0x3F4CCCCD 23 = 126 ∧
    biased_exponent_field 0xBFA3D70A 23 = 127 ∧ biased_exponent_field 0xBE23D70A 23 = 124 ∧
    (∀ i s_local x_local,
      Divider.approximate (with_row sampleDivider 0 0x40CCCCCD 0xBFA3D70A) i s_local x_local =
        Divider.approximate sampleDivider i s_local x_local) ∧
    (∀ x_dec, Divider.reciprocal (with_row sampleDivider 0 0x40CCCCCD 0xBFA3D70A) x_dec =
      Divider.reciprocal sampleDivider x_dec) :=
  ⟨by decide, by decide, by decide, by decide, by decide,
   approximate_exponent_shift sampleDivider 0 0x3F4CCCCD 0xBE23D70A 0x40CCCCCD 0xBFA3D70A 3
     (by decide) (by decide) (by decide) (by decide) (by decide) (by decide) (by decide)
     (by decide) (by decide) (by decide) (by decide) (by decide)⟩

/-- Counterexample to C25 as stated: in a one-interval table (`x_local_size = 23`) the row
with biased exponents (227, 20) and the row with both raised by 1 to (228, 21), all four in
20..254, do not give the same outcome. For the linear exponent field 20 the difference
`e_linear - (x_local_size - 1) = -129` does not fit `int8_t` and `adjustment1` becomes 127,
so `approximate` returns `2^64 - 10737418000`; for the field 21 it is -128, and the shift
of `m1` by `101 - (-128) = 229` bits is undefined. -/
theorem approximate_exponent_shift_one_interval :
    biased_exponent_field 0x71CCCCCD 23 = 227 ∧ biased_exponent_field 0x0A23D70A 23 = 20 ∧
    0x724CCCCD = 0x71CCCCCD + 1 * 2 ^ 23 ∧ 0x0AA3D70A = 0x0A23D70A + 1 * 2 ^ 23 ∧
    biased_exponent_field 0x724CCCCD 23 = 228 ∧ biased_exponent_field 0x0AA3D70A 23 = 21 ∧
    Divider.approximate ⟨[[0x71CCCCCD, 0x0A23D70A]], 23, 23, 1⟩ 0 true 1000 =
      Except.ok 18446744062972133616 ∧
    Divider.approximate
      (with_row ⟨[[0x71CCCCCD, 0x0A23D70A]], 23, 23, 1⟩ 0 0x724CCCCD 0x0AA3D70A) 0 true 1000 =
      Except.error DividerError.undefined_shift := by
  decide

/-! ## The parser -/

theorem to_string_ne_invalid_opcode (x : Nat) : to_string x ≠ "error: invalid opcode".toList := by
  unfold to_string
  simp only
  by_cases hinf : expField x = 255
  · rw [if_pos hinf]
    by_cases hs : signBit x = 1 <;> by_cases hm : manField x = 0 <;>
      simp only [hs, hm, if_true, if_false] <;> decide
  · rw [if_neg hinf]
    intro h
    have hmem : '.' ∈ "error: invalid opcode".toList := by
      rw [← h]
      simp
    revert hmem
    decide

theorem extract_string_fst (command : List Char) :
    (Parser.extract_string { chars := command, good := true }).1 = first_token command := by
  unfold Parser.extract_string first_token
  simp only [if_true]
  by_cases h : command.dropWhile Parser.isspace = []
  · simp [h]
  · simp [h]

theorem get_opcode_eq (command : List Char) :
    Parser.get_opcode { chars := command, good := true } =
      (if first_token command = ['r', 'c', 'p'] then Opcode.RCP
       else if first_token command = ['d', 'i', 'v'] then Opcode.DIV else Opcode.UNK,
       (Parser.extract_string { chars := command, good := true }).2) := by
  unfold Parser.get_opcode
  rw [← extract_string_fst]
  generalize Parser.extract_string { chars := command, good := true } = r
  obtain ⟨tok, s⟩ := r
  simp only
  split_ifs <;> rfl

theorem extract_string_snd (command : List Char) (h : first_token command ≠ []) :
    (Parser.extract_string { chars := command, good := true }).2 =
      { chars := (command.dropWhile Parser.isspace).dropWhile (fun c => !Parser.isspace c)
        good := decide ((command.dropWhile Parser.isspace).dropWhile
          (fun c => !Parser.isspace c) ≠ []) } := by
  have hne : ¬ command.dropWhile Parser.isspace = [] := by
    intro he
    apply h
    unfold first_token
    rw [he]
    rfl
  unfold Parser.extract_string
  simp only [if_true, hne, if_false]

theorem extract_float_after_opcode (num_get : List Char → Option Nat × List Char)
    (command : List Char) (h : first_token command ≠ []) :
    Parser.extract_float num_get (Parser.extract_string { chars := command, good := true }).2 =
      if after_token command = [] then (none, { chars := [], good := false })
      else
        match num_get (after_token command) with
        | (some v, after) => (some v, { chars := after, good := decide (after ≠ []) })
        | (none, after) => (some F32_ZERO, { chars := after, good := false }) := by
  rw [extract_string_snd command h]
  unfold Parser.extract_float after_token
  by_cases hafter : (command.dropWhile Parser.isspace).dropWhile
      (fun c => !Parser.isspace c) = []
  · simp [hafter]
  · simp only [hafter, ne_eq, not_false_eq_true, decide_True, if_true]

theorem extract_float_next (num_get : List Char → Option Nat × List Char)
    (rest : List Char) :
    Parser.extract_float num_get { chars := rest, good := decide (rest ≠ []) } =
      if rest.dropWhile Parser.isspace = [] then (none, { chars := [], good := false })
      else
        match num_get (rest.dropWhile Parser.isspace) with
        | (some v, after) => (some v, { chars := after, good := decide (after ≠ []) })
        | (none, after) => (some F32_ZERO, { chars := after, good := false }) := by
  unfold Parser.extract_float
  by_cases hrest : rest = []
  · subst hrest
    simp
  · simp only [hrest, ne_eq, not_false_eq_true, decide_True, if_true]

theorem extract_float_failed (num_get : List Char → Option Nat × List Char)
    (rest : List Char) :
    Parser.extract_float num_get { chars := rest, good := false } =
      (none, { chars := rest, good := false }) := by
  simp [Parser.extract_float]

set_option maxRecDepth 100000 in
theorem execute_rcp_3 :
    Parser.execute decimal_num_get sampleParser "rcp 3".toList =
      Except.ok "0.326531".toList := by
  decide

set_option maxRecDepth 100000 in
theorem execute_div_7_2 :
    Parser.execute decimal_num_get sampleParser "div 7 2".toList =
      Except.ok "3.360000".toList := by
  decide

theorem execute_rcp_alone :
    Parser.execute decimal_num_get sampleParser "rcp".toList =
      Except.error ParserError.uninitialised_read := by
  decide

theorem execute_div_7 :
    Parser.execute decimal_num_get sampleParser "div 7".toList =
      Except.error ParserError.uninitialised_read := by
  decide

theorem execute_rcp_malformed :
    Parser.execute decimal_num_get sampleParser "rcp x".toList = Except.ok "inf".toList := by
  decide

theorem execute_upper_case :
    Parser.execute decimal_num_get sampleParser "RCP 3".toList =
      Except.ok "error: invalid opcode".toList := by
  decide

/-- C24: `Parser::execute` returns the text `error: invalid opcode` exactly when the first
whitespace-delimited token of the command is neither `rcp` nor `div` (the match is exact;
an empty command has the empty token). When the token is `rcp` and an operand follows
from which the number reader reads `x`, it returns the decimal text of `reciprocal(x)`;
when the token is `div` and two operands follow from which `n` and `d` are read, the
decimal text of `n * reciprocal(d)`. A failure of the divider is passed on. A malformed
operand is stored as zero and stops the stream, and with an operand missing the local
`float` is read without having been stored to. On the sample table `rcp 3` gives
`0.326531` and `div 7 2` gives `3.360000`. -/
theorem execute_opcode (num_get : List Char → Option Nat × List Char) (p : FS3.Parser)
    (command : List Char) :
    (Parser.execute num_get p command = Except.ok "error: invalid opcode".toList ↔
      first_token command ≠ ['r', 'c', 'p'] ∧ first_token command ≠ ['d', 'i', 'v']) ∧
    (first_token [] = [] ∧
      Parser.execute num_get p [] = Except.ok "error: invalid opcode".toList) ∧
    (first_token command = ['r', 'c', 'p'] →
      (after_token command = [] →
        Parser.execute num_get p command = Except.error ParserError.uninitialised_read) ∧
      (after_token command ≠ [] → ∀ x rest, num_get (after_token command) = (some x, rest) →
        Parser.execute num_get p command =
          match Divider.reciprocal p.divider x with
          | Except.ok result => Except.ok (to_string result)
          | Except.error e => Except.error (ParserError.divider e)) ∧
      (after_token command ≠ [] → ∀ rest, num_get (after_token command) = (none, rest) →
        Parser.execute num_get p command =
          match Divider.reciprocal p.divider F32_ZERO with
          | Except.ok result => Except.ok (to_string result)
          | Except.error e => Except.error (ParserError.divider e))) ∧
    (first_token command = ['d', 'i', 'v'] →
      (after_token command = [] →
        Parser.execute num_get p command = Except.error ParserError.uninitialised_read) ∧
      (after_token command ≠ [] → ∀ rest, num_get (after_token command) = (none, rest) →
        Parser.execute num_get p command = Except.error ParserError.uninitialised_read) ∧
      (after_token command ≠ [] → ∀ n rest, num_get (after_token command) = (some n, rest) →
        (rest.dropWhile Parser.isspace = [] →
          Parser.execute num_get p command = Except.error ParserError.uninitialised_read) ∧
        (rest.dropWhile Parser.isspace ≠ [] →
          ∀ d rest2, num_get (rest.dropWhile Parser.isspace) = (some d, rest2) →
          Parser.execute num_get p command =
            match Divider.reciprocal p.divider d with
            | Except.ok r => Except.ok (to_string (fmul n r))
            | Except.error e => Except.error (ParserError.divider e)))) ∧
    Parser.execute decimal_num_get sampleParser "rcp 3".toList =
      Except.ok "0.326531".toList ∧
    Parser.execute decimal_num_get sampleParser "div 7 2".toList =
      Except.ok "3.360000".toList ∧
    Parser.execute decimal_num_get sampleParser "rcp".toList =
      Except.error ParserError.uninitialised_read ∧
    Parser.execute decimal_num_get sampleParser "div 7".toList =
      Except.error ParserError.uninitialised_read ∧
    Parser.execute decimal_num_get sampleParser "rcp x".toList = Except.ok "inf".toList ∧
    Parser.execute decimal_num_get sampleParser "RCP 3".toList =
      Except.ok "error: invalid opcode".toList := by
  have hrcp_ne : (['r', 'c', 'p'] : List Char) ≠ [] := by decide
  have hdiv_ne : (['d', 'i', 'v'] : List Char) ≠ [] := by decide
  have hdr : ¬ (['d', 'i', 'v'] : List Char) = ['r', 'c', 'p'] := by decide
  refine ⟨?_, ⟨rfl, rfl⟩, ?_, ?_, execute_rcp_3, execute_div_7_2, execute_rcp_alone,
    execute_div_7, execute_rcp_malformed, execute_upper_case⟩
  · unfold Parser.execute
    simp only [get_opcode_eq]
    by_cases hr : first_token command = ['r', 'c', 'p']
    · have hne : ¬ (first_token command ≠ ['r', 'c', 'p'] ∧
          first_token command ≠ ['d', 'i', 'v']) := fun h => h.1 hr
      rw [iff_false_right hne]
      simp only [hr, if_true]
      generalize Parser.extract_float num_get _ = r
      obtain ⟨v, s⟩ := r
      cases v with
      | none => simp
      | some x =>
        simp only
        cases Divider.reciprocal p.divider x with
        | error e => simp
        | ok y =>
          simp only [Except.ok.injEq]
          exact to_string_ne_invalid_opcode y
    · by_cases hd : first_token command = ['d', 'i', 'v']
      · have hne : ¬ (first_token command ≠ ['r', 'c', 'p'] ∧
            first_token command ≠ ['d', 'i', 'v']) := fun h => h.2 hd
        rw [iff_false_right hne]
        simp only [hd, hdr, if_true, if_false]
        generalize Parser.extract_float num_get _ = r
        obtain ⟨v, s⟩ := r
        cases v with
        | none => simp
        | some n =>
          simp only
          generalize Parser.extract_float num_get s = r2
          obtain ⟨v2, s2⟩ := r2
          cases v2 with
          | none => simp
          | some d =>
            simp only
            cases Divider.call p.divider n d with
            | error e => simp
            | ok y =>
              simp only [Except.ok.injEq]
              exact to_string_ne_invalid_opcode y
      · simp only [hr, hd, if_false, ne_eq, not_false_eq_true, and_self]
  · intro hr
    have htok : first_token command ≠ [] := by
      rw [hr]
      exact hrcp_ne
    have hex := extract_float_after_opcode num_get command htok
    refine ⟨?_, ?_, ?_⟩
    · intro hnone
      rw [if_pos hnone] at hex
      unfold Parser.execute
      simp only [get_opcode_eq, hr, if_true, hex]
    · intro hsome x rest hx
      rw [if_neg hsome, hx] at hex
      unfold Parser.execute
      simp only [get_opcode_eq, hr, if_true, hex]
    · intro hsome rest hx
      rw [if_neg hsome, hx] at hex
      unfold Parser.execute
      simp only [get_opcode_eq, hr, if_true, hex]
  · intro hd
    have htok : first_token command ≠ [] := by
      rw [hd]
      exact hdiv_ne
    have hex := extract_float_after_opcode num_get command htok
    refine ⟨?_, ?_, ?_⟩
    · intro hnone
      rw [if_pos hnone] at hex
      unfold Parser.execute
      simp only [get_opcode_eq, hd, hdr, if_true, if_false, hex]
    · intro hsome rest hx
      rw [if_neg hsome, hx] at hex
      unfold Parser.execute
      simp only [get_opcode_eq, hd, hdr, if_true, if_false, hex, extract_float_failed]
    · intro hsome n rest hn
      rw [if_neg hsome, hn] at hex
      have hex2 := extract_float_next num_get rest
      refine ⟨?_, ?_⟩
      · intro hrest
        rw [if_pos hrest] at hex2
        unfold Parser.execute
        simp only [get_opcode_eq, hd, hdr, if_true, if_false, hex, hex2]
      · intro hrest d rest2 hd2
        rw [if_neg hrest, hd2] at hex2
        unfold Parser.execute
        simp only [get_opcode_eq, hd, hdr, if_true, if_false, hex, hex2, Divider.call, bind,
          Except.bind, pure, Except.pure]
        cases Divider.reciprocal p.divider d <;> rfl

set_option maxRecDepth 100000 in
/-- Witness for C24 at the commands `rcp 3` and `div 7 2` with the decimal number reader:
the operands are read as the singles 3.0, 7.0 and 2.0. -/
theorem execute_opcode_witness :
    first_token "rcp 3".toList = ['r', 'c', 'p'] ∧ after_token "rcp 3".toList ≠ [] ∧
    decimal_num_get (after_token "rcp 3".toList) = (some 0x40400000, []) ∧
    Parser.execute decimal_num_get sampleParser "rcp 3".toList =
      (match Divider.reciprocal sampleParser.divider 0x40400000 with
       | Except.ok result => Except.ok (to_string result)
       | Except.error e => Except.error (ParserError.divider e)) ∧
    first_token "div 7 2".toList = ['d', 'i', 'v'] ∧
    decimal_num_get (after_token "div 7 2".toList) = (some 0x40E00000, [' ', '2']) ∧
    decimal_num_get ([' ', '2'].dropWhile Parser.isspace) = (some 0x40000000, []) ∧
    Parser.execute decimal_num_get sampleParser "div 7 2".toList =
      (match Divider.reciprocal sampleParser.divider 0x40000000 with
       | Except.ok r => Except.ok (to_string (fmul 0x40E00000 r))
       | Except.error e => Except.error (ParserError.divider e)) :=
  ⟨by decide, by decide, by decide,
   ((execute_opcode decimal_num_get sampleParser "rcp 3".toList).2.2.1 (by decide)).2.1
     (by decide) 0x40400000 [] (by decide),
   by decide, by decide, by decide,
   (((execute_opcode decimal_num_get sampleParser "div 7 2".toList).2.2.2.1
     (by decide)).2.2 (by decide) 0x40E00000 [' ', '2'] (by decide)).2 (by decide)
     0x40000000 [] (by decide)⟩

/-! ## Rounding to single precision -/

theorem floorLog2Aux_eq (fuel n L : Nat) (hL : L < fuel) (hlo : 2 ^ L ≤ n)
    (hhi : n < 2 ^ (L + 1)) : floorLog2Aux fuel n = L := by
  induction fuel generalizing n L with
  | zero => omega
  | succ f ih =>
    unfold floorLog2Aux
    by_cases h1 : n ≤ 1
    · rw [if_pos h1]
      rcases Nat.eq_zero_or_pos L with h0 | hpos
      · exact h0.symm
      · have : 2 ^ 1 ≤ 2 ^ L := Nat.pow_le_pow_right (by norm_num) hpos
        omega
    · rw [if_neg h1]
      obtain ⟨L2, rfl⟩ : ∃ L2, L = L2 + 1 := by
        rcases Nat.eq_zero_or_pos L with h0 | hpos
        · subst h0
          omega
        · exact ⟨L - 1, by omega⟩
      have hlo2 : 2 ^ L2 ≤ n / 2 := by
        rw [Nat.pow_succ] at hlo
        omega
      have hhi2 : n / 2 < 2 ^ (L2 + 1) := by
        rw [Nat.pow_succ] at hhi
        omega
      rw [ih (n / 2) L2 (by omega) hlo2 hhi2]

theorem floorLog2_eq (n L : Nat) (hL : L < 128) (hlo : 2 ^ L ≤ n) (hhi : n < 2 ^ (L + 1)) :
    floorLog2 n = L :=
  floorLog2Aux_eq 128 n L hL hlo hhi

theorem exists_leading_bit (n B : Nat) (hn : 0 < n) (hB : n < 2 ^ B) :
    ∃ L, L < B ∧ 2 ^ L ≤ n ∧ n < 2 ^ (L + 1) := by
  have hne : n ≠ 0 := by omega
  exact ⟨Nat.log2 n, (Nat.log2_lt hne).mpr hB, Nat.log2_self_le hne, Nat.lt_log2_self⟩

theorem rneShift_mul_two_pow (n j k : Nat) (hk : 0 < k) :
    rneShift (n * 2 ^ j) (k + j) = rneShift n k := by
  have hkj : k + j ≠ 0 := by omega
  have hk0 : k ≠ 0 := by omega
  have hpj : 0 < 2 ^ j := by positivity
  have hq : n * 2 ^ j / 2 ^ (k + j) = n / 2 ^ k := by
    rw [Nat.pow_add, Nat.mul_comm (2 ^ k), ← Nat.div_div_eq_div_mul,
      Nat.mul_div_cancel _ hpj]
  have hr : n * 2 ^ j % 2 ^ (k + j) = n % 2 ^ k * 2 ^ j := by
    rw [Nat.pow_add, Nat.mul_comm n, Nat.mul_comm (2 ^ k), Nat.mul_mod_mul_left,
      Nat.mul_comm]
  have hh : 2 ^ (k + j - 1) = 2 ^ (k - 1) * 2 ^ j := by
    rw [← Nat.pow_add]
    congr 1
    omega
  simp only [rneShift, hkj, hk0, if_false, hq, hr, hh]
  have hgt : n % 2 ^ k * 2 ^ j > 2 ^ (k - 1) * 2 ^ j ↔ n % 2 ^ k > 2 ^ (k - 1) :=
    ⟨fun h => lt_of_mul_lt_mul_right h (Nat.zero_le _),
     fun h => Nat.mul_lt_mul_of_pos_right h hpj⟩
  have heq : n % 2 ^ k * 2 ^ j = 2 ^ (k - 1) * 2 ^ j ↔ n % 2 ^ k = 2 ^ (k - 1) :=
    ⟨fun h => Nat.eq_of_mul_eq_mul_right hpj h, fun h => by rw [h]⟩
  simp only [hgt, heq]

theorem rneShift_exact (n j k : Nat) (hkj : k ≤ j) :
    rneShift (n * 2 ^ j) k = n * 2 ^ (j - k) := by
  unfold rneShift
  by_cases hk : k = 0
  · subst hk
    simp
  · rw [if_neg hk]
    have hsplit : n * 2 ^ j = n * 2 ^ (j - k) * 2 ^ k := by
      rw [Nat.mul_assoc, ← Nat.pow_add]
      congr 2
      omega
    have hq : n * 2 ^ j / 2 ^ k = n * 2 ^ (j - k) := by
      rw [hsplit, Nat.mul_div_cancel _ (by positivity)]
    have hr : n * 2 ^ j % 2 ^ k = 0 := by
      rw [hsplit, Nat.mul_mod_left]
    have hpos : 0 < 2 ^ (k - 1) := by positivity
    simp only [hq, hr]
    rw [if_neg]
    omega

theorem roundSingle_scale (n j : Nat) (e : Int) (hn : 0 < n) (hb : n * 2 ^ j < 2 ^ 128) :
    roundSingle (n * 2 ^ j) e = roundSingle n (e + j) := by
  have hpj : 0 < 2 ^ j := by positivity
  have hn128 : n < 2 ^ 128 := lt_of_le_of_lt (Nat.le_mul_of_pos_right n hpj) hb
  obtain ⟨L, _, hlo, hhi⟩ := exists_leading_bit n 128 hn hn128
  have hlo2 : 2 ^ (L + j) ≤ n * 2 ^ j := by
    rw [Nat.pow_add]
    exact Nat.mul_le_mul_right _ hlo
  have hhi2 : n * 2 ^ j < 2 ^ (L + j + 1) := by
    have : L + j + 1 = (L + 1) + j := by omega
    rw [this, Nat.pow_add]
    exact Nat.mul_lt_mul_of_pos_right hhi hpj
  have hLj : L + j < 128 := by
    by_contra hge
    have : 2 ^ 128 ≤ 2 ^ (L + j) := Nat.pow_le_pow_right (by norm_num) (by omega)
    omega
  have hf1 := floorLog2_eq n L (by omega) hlo hhi
  have hf2 := floorLog2_eq (n * 2 ^ j) (L + j) hLj hlo2 hhi2
  have hne1 : ¬ n = 0 := by omega
  have hne2 : ¬ n * 2 ^ j = 0 := by
    have := Nat.mul_pos hn hpj
    omega
  have hlead : e + ((L + j : Nat) : Int) - 23 = e + (j : Int) + (L : Int) - 23 := by
    push_cast
    ring
  simp only [roundSingle, hne1, hne2, if_false, hf1, hf2, hlead]
  generalize max (e + (j : Int) + (L : Int) - 23) (-149) = q
  have hm : (if q ≤ e then n * 2 ^ j * 2 ^ (e - q).toNat
      else rneShift (n * 2 ^ j) (q - e).toNat) =
      (if q ≤ e + j then n * 2 ^ (e + j - q).toNat else rneShift n (q - (e + j)).toNat) := by
    by_cases h1 : q ≤ e
    · have h2 : q ≤ e + j := by omega
      rw [if_pos h1, if_pos h2, Nat.mul_assoc, ← Nat.pow_add]
      congr 2
      omega
    · by_cases h2 : q ≤ e + j
      · rw [if_neg h1, if_pos h2, rneShift_exact n j (q - e).toNat (by omega)]
        congr 2
        omega
      · rw [if_neg h1, if_neg h2]
        have hk : (q - e).toNat = (q - (e + j)).toNat + j := by omega
        rw [hk, rneShift_mul_two_pow n j _ (by omega)]
  rw [hm]

theorem roundSingle_of_leading_bit (n L : Nat) (e : Int) (hL : L < 128) (hlo : 2 ^ L ≤ n)
    (hhi : n < 2 ^ (L + 1)) :
    roundSingle n e =
      if (max (e + (L : Int) - 23) (-149) + 149) * 2 ^ 23 +
          ((if max (e + (L : Int) - 23) (-149) ≤ e
            then n * 2 ^ (e - max (e + (L : Int) - 23) (-149)).toNat
            else rneShift n (max (e + (L : Int) - 23) (-149) - e).toNat : Nat) : Int)
          ≥ 0x7F800000
      then F32_INFINITY
      else ((max (e + (L : Int) - 23) (-149) + 149) * 2 ^ 23 +
          ((if max (e + (L : Int) - 23) (-149) ≤ e
            then n * 2 ^ (e - max (e + (L : Int) - 23) (-149)).toNat
            else rneShift n (max (e + (L : Int) - 23) (-149) - e).toNat : Nat) : Int)).toNat := by
  have hpos : 0 < 2 ^ L := by positivity
  have hne : ¬ n = 0 := by omega
  simp only [roundSingle, hne, if_false, floorLog2_eq n L hL hlo hhi]

theorem roundSingle_normalised (m : Nat) (q : Int) (hm1 : 2 ^ 23 ≤ m) (hm2 : m < 2 ^ 24)
    (hq1 : -149 ≤ q) (hq2 : q ≤ 104) :
    roundSingle m q = (q + 149).toNat * 2 ^ 23 + m := by
  rw [roundSingle_of_leading_bit m 23 q (by norm_num) hm1 hm2]
  have hmax : max (q + ((23 : Nat) : Int) - 23) (-149) = q := by
    rw [max_eq_left]
    · push_cast
      ring
    · push_cast
      omega
  rw [hmax]
  simp only [le_refl, if_true, sub_self, Int.toNat_zero, pow_zero, mul_one]
  rw [if_neg (by omega)]
  omega

theorem normalised_fields (Q m : Nat) (hQ : Q ≤ 253) (hm1 : 2 ^ 23 ≤ m) (hm2 : m < 2 ^ 24) :
    signBit (Q * 2 ^ 23 + m) = 0 ∧ expField (Q * 2 ^ 23 + m) = Q + 1 ∧
    manField (Q * 2 ^ 23 + m) = m - 2 ^ 23 ∧
    fpclassify (Q * 2 ^ 23 + m) = FPClass.FP_NORMAL ∧
    f32Sig (Q * 2 ^ 23 + m) = m ∧ f32Quantum (Q * 2 ^ 23 + m) = (Q : Int) - 149 := by
  have he : expField (Q * 2 ^ 23 + m) = Q + 1 := by
    unfold expField
    omega
  have hman : manField (Q * 2 ^ 23 + m) = m - 2 ^ 23 := by
    unfold manField
    omega
  refine ⟨?_, he, hman, ?_, ?_, ?_⟩
  · unfold signBit
    omega
  · unfold fpclassify
    rw [he, if_neg (by omega), if_neg (by omega)]
  · unfold f32Sig
    rw [he, hman, if_neg (by omega)]
    omega
  · unfold f32Quantum
    rw [he, if_neg (by omega)]
    push_cast
    omega

theorem rneShift_bounds (n k : Nat) : n / 2 ^ k ≤ rneShift n k ∧ rneShift n k ≤ n / 2 ^ k + 1 := by
  unfold rneShift
  by_cases hk : k = 0
  · subst hk
    simp
  · rw [if_neg hk]
    simp only
    split_ifs <;> omega

theorem rneShift_twice (y : Nat) : rneShift (rneShift y 1) 1 = rneShift y 2 := by
  simp only [rneShift]
  norm_num
  split_ifs <;> omega

theorem roundSingle_of_rounded (y : Nat) (hy : 0 < y) (hy64 : y < 2 ^ 64) :
    ∃ (m : Nat) (q : Int), 2 ^ 23 ≤ m ∧ m < 2 ^ 24 ∧ -23 ≤ q ∧ q ≤ 41 ∧
      ∀ c : Int, -151 ≤ c → roundSingle m (q + c) = roundSingle y c := by
  obtain ⟨L, hL64, hlo, hhi⟩ := exists_leading_bit y 64 hy hy64
  by_cases hL : L ≤ 23
  · have hsplit : 2 ^ 23 = 2 ^ L * 2 ^ (23 - L) := by
      rw [← Nat.pow_add]
      congr 1
      omega
    have hsplit2 : 2 ^ 24 = 2 ^ (L + 1) * 2 ^ (23 - L) := by
      rw [← Nat.pow_add]
      congr 1
      omega
    have hpos : 0 < 2 ^ (23 - L) := by positivity
    have hle : 2 ^ (23 - L) ≤ 2 ^ 23 := Nat.pow_le_pow_right (by norm_num) (by omega)
    refine ⟨y * 2 ^ (23 - L), (L : Int) - 23, ?_, ?_, by omega, by omega, ?_⟩
    · rw [hsplit]
      exact Nat.mul_le_mul_right _ hlo
    · rw [hsplit2]
      exact Nat.mul_lt_mul_of_pos_right hhi hpos
    · intro c _
      rw [roundSingle_scale y (23 - L) _ hy]
      · congr 1
        omega
      · calc y * 2 ^ (23 - L) < 2 ^ 64 * 2 ^ 23 :=
            Nat.mul_lt_mul_of_lt_of_le hy64 hle (by positivity)
          _ < 2 ^ 128 := by norm_num
  · have hs : 1 ≤ L - 23 := by omega
    have hsplit : 2 ^ L = 2 ^ 23 * 2 ^ (L - 23) := by
      rw [← Nat.pow_add]
      congr 1
      omega
    have hsplit2 : 2 ^ (L + 1) = 2 ^ 24 * 2 ^ (L - 23) := by
      rw [← Nat.pow_add]
      congr 1
      omega
    have hpos : 0 < 2 ^ (L - 23) := by positivity
    have hq1 : 2 ^ 23 ≤ y / 2 ^ (L - 23) := by
      rw [Nat.le_div_iff_mul_le hpos, ← hsplit]
      exact hlo
    have hq2 : y / 2 ^ (L - 23) < 2 ^ 24 := by
      rw [Nat.div_lt_iff_lt_mul hpos, ← hsplit2]
      exact hhi
    obtain ⟨hb1, hb2⟩ := rneShift_bounds y (L - 23)
    have hR := fun c : Int => roundSingle_of_leading_bit y L c (by omega) hlo hhi
    by_cases hcarry : rneShift y (L - 23) < 2 ^ 24
    · refine ⟨rneShift y (L - 23), ((L - 23 : Nat) : Int), by omega, hcarry, by omega,
        by omega, ?_⟩
      intro c hc
      rw [hR c, roundSingle_of_leading_bit (rneShift y (L - 23)) 23 _ (by norm_num)
        (by omega) hcarry]
      by_cases hsub : -149 ≤ c + ((L - 23 : Nat) : Int)
      · have hmaxL : max (((L - 23 : Nat) : Int) + c + ((23 : Nat) : Int) - 23) (-149) =
            ((L - 23 : Nat) : Int) + c := by omega
        have hmaxR : max (c + (L : Int) - 23) (-149) = ((L - 23 : Nat) : Int) + c := by omega
        have hnle : ¬ ((L - 23 : Nat) : Int) + c ≤ c := by omega
        have htn : (((L - 23 : Nat) : Int) + c - c).toNat = L - 23 := by omega
        simp only [hmaxL, hmaxR, le_refl, if_true, sub_self, Int.toNat_zero, pow_zero, mul_one,
          hnle, if_false, htn]
      · have hc151 : c = -151 := by omega
        have hs1 : L - 23 = 1 := by omega
        subst hc151
        have hmaxL : max (((L - 23 : Nat) : Int) + (-151) + ((23 : Nat) : Int) - 23) (-149) =
            -149 := by omega
        have hmaxR : max (-151 + (L : Int) - 23) (-149) = -149 := by omega
        have hnle : ¬ (-149 : Int) ≤ ((L - 23 : Nat) : Int) + (-151) := by omega
        have hnle2 : ¬ (-149 : Int) ≤ -151 := by omega
        have htn : ((-149 : Int) - (((L - 23 : Nat) : Int) + (-151))).toNat = 1 := by omega
        have htn2 : ((-149 : Int) - (-151)).toNat = 2 := by omega
        simp only [hmaxL, hmaxR, hnle, hnle2, if_false, htn, htn2]
        rw [hs1, rneShift_twice]
    · have hm0 : rneShift y (L - 23) = 2 ^ 24 := by omega
      refine ⟨2 ^ 23, ((L - 23 : Nat) : Int) + 1, le_refl _, by norm_num, by omega, by omega,
        ?_⟩
      intro c hc
      rw [hR c, roundSingle_of_leading_bit (2 ^ 23) 23 _ (by norm_num) (le_refl _)
        (by norm_num)]
      by_cases hsub : -149 ≤ c + ((L - 23 : Nat) : Int)
      · have hmaxL : max (((L - 23 : Nat) : Int) + 1 + c + ((23 : Nat) : Int) - 23) (-149) =
            ((L - 23 : Nat) : Int) + 1 + c := by omega
        have hmaxR : max (c + (L : Int) - 23) (-149) = ((L - 23 : Nat) : Int) + c := by omega
        have hnle : ¬ ((L - 23 : Nat) : Int) + c ≤ c := by omega
        have htn : (((L - 23 : Nat) : Int) + c - c).toNat = L - 23 := by omega
        simp only [hmaxL, hmaxR, le_refl, if_true, sub_self, Int.toNat_zero, pow_zero, mul_one,
          hnle, if_false, htn, hm0]
        have hbits : (((L - 23 : Nat) : Int) + 1 + c + 149) * 2 ^ 23 + ((2 ^ 23 : Nat) : Int) =
            (((L - 23 : Nat) : Int) + c + 149) * 2 ^ 23 + ((2 ^ 24 : Nat) : Int) := by
          push_cast
          ring
        rw [hbits]
      · have hc151 : c = -151 := by omega
        have hs1 : L - 23 = 1 := by omega
        subst hc151
        have hmaxL : max (((L - 23 : Nat) : Int) + 1 + (-151) + ((23 : Nat) : Int) - 23)
            (-149) = -149 := by omega
        have hmaxR : max (-151 + (L : Int) - 23) (-149) = -149 := by omega
        have hle : (-149 : Int) ≤ ((L - 23 : Nat) : Int) + 1 + (-151) := by omega
        have hnle2 : ¬ (-149 : Int) ≤ -151 := by omega
        have htn : (((L - 23 : Nat) : Int) + 1 + (-151) - (-149)).toNat = 0 := by omega
        have htn2 : ((-149 : Int) - (-151)).toNat = 2 := by omega
        have hy1 : rneShift y 1 = 2 ^ 24 := by
          rw [hs1] at hm0
          exact hm0
        have hy2 : rneShift y 2 = 2 ^ 23 := by
          rw [← rneShift_twice, hy1]
          decide
        simp only [hmaxL, hmaxR, hle, hnle2, if_true, if_false, htn, htn2, hy2, pow_zero,
          mul_one]

theorem fmul_of_finite_positive (a b : Nat) (hsa : signBit a = 0) (hsb : signBit b = 0)
    (hea : expField a ≠ 255) (heb : expField b ≠ 255) :
    fmul a b = roundSingle (f32Sig a * f32Sig b) (f32Quantum a + f32Quantum b) := by
  have hca : fpclassify a ≠ FPClass.FP_NAN ∧ fpclassify a ≠ FPClass.FP_INFINITE := by
    unfold fpclassify
    rw [if_neg hea]
    split_ifs <;> simp
  have hcb : fpclassify b ≠ FPClass.FP_NAN ∧ fpclassify b ≠ FPClass.FP_INFINITE := by
    unfold fpclassify
    rw [if_neg heb]
    split_ifs <;> simp
  unfold fmul
  simp only [hsa, hsb, hca.1, hca.2, hcb.1, hcb.2, false_or, if_false]
  norm_num

theorem f32Exp2_fields (k : Int) (hk1 : -127 ≤ k) (hk2 : k ≤ 126) :
    signBit (f32Exp2 k) = 0 ∧ expField (f32Exp2 k) ≠ 255 ∧
    ∃ j : Nat, j ≤ 23 ∧ f32Sig (f32Exp2 k) = 2 ^ j ∧ f32Quantum (f32Exp2 k) = k - j := by
  by_cases hk : k = -127
  · subst hk
    have hv : f32Exp2 (-127) = 0x400000 := by
      unfold f32Exp2
      rw [roundSingle_of_leading_bit 1 0 (-127) (by norm_num) (by norm_num) (by norm_num)]
      norm_num [show Int.toNat 22 = 22 from rfl]
      rfl
    rw [hv]
    refine ⟨?_, ?_, 22, by norm_num, ?_, ?_⟩
    · unfold signBit
      norm_num
    · unfold expField
      norm_num
    · unfold f32Sig expField manField
      norm_num
    · unfold f32Quantum expField
      norm_num
  · have hscale := roundSingle_scale 1 23 (k - 23) (by norm_num) (by norm_num)
    have hval : f32Exp2 k = (k - 23 + 149).toNat * 2 ^ 23 + 2 ^ 23 := by
      have hk' : roundSingle 1 k = roundSingle (1 * 2 ^ 23) (k - 23) := by
        rw [hscale]
        congr 1
        omega
      unfold f32Exp2
      rw [hk', Nat.one_mul]
      exact roundSingle_normalised (2 ^ 23) (k - 23) (le_refl _) (by norm_num) (by omega)
        (by omega)
    obtain ⟨h1, h2, _, _, h5, h6⟩ :=
      normalised_fields (k - 23 + 149).toNat (2 ^ 23) (by omega) (le_refl _) (by norm_num)
    rw [hval]
    refine ⟨h1, by omega, 23, le_refl _, h5, ?_⟩
    rw [h6]
    omega

theorem fdiv_two_pow_24 (m : Nat) (q : Int) (hm1 : 2 ^ 23 ≤ m) (hm2 : m < 2 ^ 24)
    (hq1 : -23 ≤ q) (hq2 : q ≤ 41) :
    fdiv (roundSingle m q) (f32Exp2 24) = roundSingle m (q - 24) := by
  have h24 : f32Exp2 24 = 0x4B800000 := by decide
  have hP := roundSingle_normalised m q hm1 hm2 (by omega) (by omega)
  obtain ⟨h1, h2, _, h4, h5, h6⟩ :=
    normalised_fields (q + 149).toNat m (by omega) hm1 hm2
  rw [h24, hP]
  have hb1 : fpclassify 0x4B800000 = FPClass.FP_NORMAL := by decide
  have hb2 : signBit 0x4B800000 = 0 := by decide
  have hb3 : f32Sig 0x4B800000 = 2 ^ 23 := by decide
  have hb4 : f32Quantum 0x4B800000 = 1 := by decide
  have hquo : m * 2 ^ 64 / 2 ^ 23 = m * 2 ^ 41 := by omega
  have hrem : m * 2 ^ 64 % 2 ^ 23 = 0 := by omega
  have hn1 : (FPClass.FP_NORMAL = FPClass.FP_NAN) = False := eq_false (by decide)
  have hn2 : (FPClass.FP_NORMAL = FPClass.FP_INFINITE) = False := eq_false (by decide)
  have hn3 : (FPClass.FP_NORMAL = FPClass.FP_ZERO) = False := eq_false (by decide)
  have hmul : 2 * (m * 2 ^ 41) + 0 = m * 2 ^ 42 := by ring
  unfold fdiv
  simp only [h1, h4, h5, h6, hb1, hb2, hb3, hb4, hquo, hrem, hn1, hn2, hn3, or_self, if_false,
    if_true, add_zero, Nat.zero_mod, mul_zero, zero_add, hmul]
  rw [roundSingle_scale m 42 _ (by omega) (by omega)]
  congr 1
  omega

theorem expand_product_eq (E y : Nat) :
    (2 : ℚ) ^ (-((E : Int) - 127)) * ((y : ℚ) / 2 ^ 24) = (y : ℚ) * (2 : ℚ) ^ (103 - (E : Int)) := by
  have h2 : (2 : ℚ) ≠ 0 := by norm_num
  have hexp : (103 - (E : Int)) = -((E : Int) - 127) + (-24) := by ring
  have h24 : (2 : ℚ) ^ (-24 : Int) = 1 / 2 ^ 24 := by
    rw [zpow_neg, one_div]
    norm_cast
  rw [hexp, zpow_add₀ h2, h24]
  ring

/-- C23: for every biased exponent `1 ≤ E ≤ 254` and every 64-bit `y_local`,
`expand_range(E, y_local)` is the single nearest to `2^(-(E - 127)) * (y_local / 2^24)`,
that is to `y_local * 2^(103 - E)`; the two roundings of the source (the conversion of
`y_local` and the final product) amount to that one rounding. The divisor `2^24` has the
exponent `constant_term_size + 1` of the parser's divider. When `0 < y_local < 2^24` and
the product is at least `2^-126`, the result is a normal single whose value is the product
exactly. -/
theorem expand_range_correctly_rounded (E y : Nat) (hE1 : 1 ≤ E) (hE2 : E ≤ 254)
    (hy : y < 2 ^ 64) :
    Divider.expand_range E y = roundSingle y (103 - (E : Int)) ∧
    (∀ DIVIDER_LUT, ∃ p, Parser.Parser DIVIDER_LUT = Except.ok p ∧
      p.divider.constant_term_size + 1 = 24) ∧
    (0 < y → y < 2 ^ 24 →
      (2 : ℚ) ^ (-126 : Int) ≤ (2 : ℚ) ^ (-((E : Int) - 127)) * ((y : ℚ) / 2 ^ 24) →
      fpclassify (Divider.expand_range E y) = FPClass.FP_NORMAL ∧
      signBit (Divider.expand_range E y) = 0 ∧
      (f32Sig (Divider.expand_range E y) : ℚ) *
          (2 : ℚ) ^ f32Quantum (Divider.expand_range E y) =
        (2 : ℚ) ^ (-((E : Int) - 127)) * ((y : ℚ) / 2 ^ 24)) := by
  have hmain : Divider.expand_range E y = roundSingle y (103 - (E : Int)) := by
    have hu : toInt8 ((E : Int) - 127) = (E : Int) - 127 :=
      toInt8_of_range _ (by omega) (by omega)
    obtain ⟨hs, he, j, hj, hsig, hquant⟩ :=
      f32Exp2_fields (-((E : Int) - 127)) (by omega) (by omega)
    unfold Divider.expand_range
    simp only [hu]
    rcases Nat.eq_zero_or_pos y with h0 | hpos
    · subst h0
      have hz : fdiv (f32OfUInt64 0) (f32Exp2 24) = 0 := by decide
      rw [hz, fmul_of_finite_positive _ _ hs (by decide) he (by decide)]
      have hs0 : f32Sig 0 = 0 := by decide
      rw [hs0, Nat.mul_zero]
      simp [roundSingle]
    · obtain ⟨m, q, hm1, hm2, hq1, hq2, hround⟩ := roundSingle_of_rounded y hpos hy
      have hf1 : f32OfUInt64 y = roundSingle m q := by
        unfold f32OfUInt64
        rw [← hround 0 (by norm_num), add_zero]
      rw [hf1, fdiv_two_pow_24 m q hm1 hm2 hq1 hq2]
      have hP := roundSingle_normalised m (q - 24) hm1 hm2 (by omega) (by omega)
      obtain ⟨h1, h2, _, _, h5, h6⟩ :=
        normalised_fields (q - 24 + 149).toNat m (by omega) hm1 hm2
      rw [hP, fmul_of_finite_positive _ _ hs h1 he (by omega), h5, h6, hsig, hquant,
        Nat.mul_comm, roundSingle_scale m j _ (by omega)
          (lt_of_lt_of_le (Nat.mul_lt_mul_of_lt_of_le hm2
            (Nat.pow_le_pow_right (by norm_num) hj) (by positivity)) (by norm_num)),
        ← hround (103 - (E : Int)) (by omega)]
      congr 1
      omega
  refine ⟨hmain, ?_, ?_⟩
  · intro DIVIDER_LUT
    exact ⟨_, rfl, rfl⟩
  · intro hpos h24 hnormal
    rw [hmain, expand_product_eq] at *
    obtain ⟨L, hL, hlo, hhi⟩ := exists_leading_bit y 24 hpos h24
    have h2 : (2 : ℚ) ≠ 0 := by norm_num
    have hrange : (-126 : Int) ≤ 103 - (E : Int) + L := by
      by_contra hlt
      have hyq : (y : ℚ) < (2 : ℚ) ^ (((L + 1 : Nat)) : Int) := by
        rw [zpow_natCast]
        exact_mod_cast hhi
      have hlt2 : (y : ℚ) * (2 : ℚ) ^ (103 - (E : Int)) <
          (2 : ℚ) ^ (((L + 1 : Nat)) : Int) * (2 : ℚ) ^ (103 - (E : Int)) :=
        mul_lt_mul_of_pos_right hyq (by positivity)
      rw [← zpow_add₀ h2] at hlt2
      have hle : (2 : ℚ) ^ ((((L + 1 : Nat)) : Int) + (103 - (E : Int))) ≤ (2 : ℚ) ^ (-126 : Int) :=
        zpow_le_zpow_right₀ (by norm_num) (by push_cast; omega)
      exact absurd (lt_of_lt_of_le (lt_of_le_of_lt hnormal hlt2) hle) (lt_irrefl _)
    have hsplit : 2 ^ 23 = 2 ^ L * 2 ^ (23 - L) := by
      rw [← Nat.pow_add]
      congr 1
      omega
    have hsplit2 : 2 ^ 24 = 2 ^ (L + 1) * 2 ^ (23 - L) := by
      rw [← Nat.pow_add]
      congr 1
      omega
    have hpp : 0 < 2 ^ (23 - L) := by positivity
    have hm1 : 2 ^ 23 ≤ y * 2 ^ (23 - L) := by
      rw [hsplit]
      exact Nat.mul_le_mul_right _ hlo
    have hm2 : y * 2 ^ (23 - L) < 2 ^ 24 := by
      rw [hsplit2]
      exact Nat.mul_lt_mul_of_pos_right hhi hpp
    have hscale := roundSingle_scale y (23 - L) (103 - (E : Int) - ((23 - L : Nat) : Int)) hpos
      (lt_trans hm2 (by norm_num))
    have hval : roundSingle y (103 - (E : Int)) =
        (103 - (E : Int) - ((23 - L : Nat) : Int) + 149).toNat * 2 ^ 23 + y * 2 ^ (23 - L) := by
      rw [← roundSingle_normalised (y * 2 ^ (23 - L)) _ hm1 hm2 (by omega) (by omega), hscale]
      congr 1
      omega
    obtain ⟨h1, _, _, h4, h5, h6⟩ :=
      normalised_fields (103 - (E : Int) - ((23 - L : Nat) : Int) + 149).toNat
        (y * 2 ^ (23 - L)) (by omega) hm1 hm2
    rw [hval]
    refine ⟨h4, h1, ?_⟩
    rw [h5, h6]
    have hq : (((103 - (E : Int) - ((23 - L : Nat) : Int) + 149).toNat : Int) - 149) =
        103 - (E : Int) - ((23 - L : Nat) : Int) := by omega
    rw [hq, Nat.cast_mul, Nat.cast_pow, Nat.cast_ofNat, mul_assoc, ← zpow_natCast,
      ← zpow_add₀ h2]
    congr 2
    omega

/-- Witness for C23 at the biased exponent 127 and `y_local = 0xCCCCCD`: the result is the
single 0x3F4CCCCD, the nearest to `0xCCCCCD / 2^24`. -/
theorem expand_range_correctly_rounded_witness :
    (1 ≤ 127 ∧ 127 ≤ 254 ∧ 0xCCCCCD < 2 ^ 64) ∧
    Divider.expand_range 127 0xCCCCCD = roundSingle 0xCCCCCD (103 - ((127 : Nat) : Int)) ∧
    roundSingle 0xCCCCCD (103 - ((127 : Nat) : Int)) = 0x3F4CCCCD :=
  ⟨by decide,
   (expand_range_correctly_rounded 127 0xCCCCCD (by decide) (by decide) (by decide)).1,
   by decide⟩

end FS3
